import Mathlib

/-!
# go-iiif: the Transformation engine (`image/transformation.go`)

A shallow embedding of `NewTransformation`, `ToURI`, `HasTransformation`,
`RegionInstructions`, `SizeInstructions`, `RotationInstructions` and
`FormatInstructions`, together with the parts of the Go runtime and standard
library they rely on:

* Go `int` / `int64` are 64-bit two's-complement integers: values are `Int`,
  and every arithmetic result is reduced with `wrap64`.
* Go strings are used through `String.toList`; the separators the code splits
  on (`:`, `,`, `!`) are ASCII, so splitting characters agrees with splitting
  bytes on every valid UTF-8 string. `ToURI` works on the bytes (`goBytes`).
* A Go result pair `(value, error)` is a Lean pair whose second component is an
  `Option GoError` (`none` is Go's `nil` error), and a `*T` result is an
  `Option T` (`none` is the `nil` pointer).
* `float64` is modelled exactly (`F64`): finite values are integer multiples of
  `2^-1074`, and every operation rounds to nearest, ties to even. The conversion
  `int(x)` truncates; where Go leaves its result to the implementation (NaN,
  infinities, values outside `int64`) the amd64 result is used.
* A run-time panic (integer division by zero) is an `Outcome.panicked`.
* Calls on the compliance level thread an explicit state, so that the order of
  the validator calls is part of the model.
* `regexp.Compile` is a parameter; `url.Parse` with `String`, `strconv.Quote`
  and `fmt.Sprintf` are modelled on the strings and formats described at their
  definitions, and are parameters elsewhere.
-/

namespace GoIIIF

/-! ## Errors -/

/-- The two sentinel errors wrapped by `*strconv.NumError`. -/
inductive NumErrKind
  | ErrSyntax
  | ErrRange
  deriving DecidableEq, Repr

/-- The text handed to `errors.New`: either a string literal or the result of a
`fmt.Sprintf(format, args...)` call, which is kept as the call itself. -/
inductive Message
  | text (s : String)
  | sprintf (format : String) (args : List String)
  deriving DecidableEq, Repr

/-- Go `error` values that occur in this package: `errors.New(..)` values,
`*strconv.NumError{Func, Num, Err}`, and errors produced by collaborators
(the compliance level, the image). -/
inductive GoError
  | errorsNew (msg : Message)
  | numError (func : String) (num : String) (err : NumErrKind)
  | external (description : String)
  deriving DecidableEq, Repr

/-! ## 64-bit integers -/

/-- Two's-complement reduction of a mathematical integer to the `int64` range. -/
def wrap64 (z : Int) : Int :=
  (z + 9223372036854775808) % 18446744073709551616 - 9223372036854775808

/-- The values an `int64` (and a 64-bit Go `int`) can hold. -/
def inInt64 (z : Int) : Prop :=
  -9223372036854775808 ≤ z ∧ z ≤ 9223372036854775807

instance (z : Int) : Decidable (inInt64 z) := by
  unfold inInt64; exact inferInstance

/-- Go `a + b` on `int`. -/
def goAdd (a b : Int) : Int := wrap64 (a + b)

/-- Go `a - b` on `int`. -/
def goSub (a b : Int) : Int := wrap64 (a - b)

/-- Go `a * b` on `int`. -/
def goMul (a b : Int) : Int := wrap64 (a * b)

/-- Go `a / b` on `int`: truncated division; `none` is the run-time panic
"integer divide by zero". -/
def goDiv (a b : Int) : Option Int :=
  if b = 0 then none else some (wrap64 (Int.tdiv a b))

/-! ## `strings` -/

/-- `strings.Split(s, sep)` for a one-character separator: the pieces of `s`
between the occurrences of `sep` (always at least one piece). -/
def stringsSplit (sep : Char) : List Char → List (List Char)
  | [] => [[]]
  | c :: cs =>
    if c = sep then [] :: stringsSplit sep cs
    else
      match stringsSplit sep cs with
      | [] => [[c]]
      | piece :: pieces => (c :: piece) :: pieces

/-- `strings.HasPrefix(s, "!")`. -/
def stringsHasPrefixBang : List Char → Bool
  | c :: _ => c = '!'
  | [] => false

/-- `strings.Trim(s, "!")`: every leading and every trailing `!` is removed. -/
def stringsTrimBang (s : List Char) : List Char :=
  ((s.dropWhile (fun c => c = '!')).reverse.dropWhile (fun c => c = '!')).reverse

/-! ## `strconv.ParseInt(s, 10, 64)` -/

/-- The digit loop of `strconv.ParseUint(s, 10, 64)` with accumulator `n`:
a non-digit is a syntax error, an accumulator that leaves the `uint64` range is
a range error (with value `1<<64 - 1`). -/
def parseUintLoop : Nat → List Char → Nat × Option NumErrKind
  | n, [] => (n, none)
  | n, c :: cs =>
    if '0' ≤ c ∧ c ≤ '9' then
      if n ≥ 1844674407370955162 then (18446744073709551615, some NumErrKind.ErrRange)
      else if n * 10 + (c.toNat - 48) > 18446744073709551615 then
        (18446744073709551615, some NumErrKind.ErrRange)
      else parseUintLoop (n * 10 + (c.toNat - 48)) cs
    else (0, some NumErrKind.ErrSyntax)

/-- `strconv.ParseUint(s, 10, 64)`, returning the value and the kind of error. -/
def ParseUint (s : List Char) : Nat × Option NumErrKind :=
  if s = [] then (0, some NumErrKind.ErrSyntax) else parseUintLoop 0 s

/-- `strconv.ParseInt(s, 10, 64)`: an optional sign followed by decimal digits. -/
def ParseInt (s : List Char) : Int × Option GoError :=
  if s = [] then (0, some (GoError.numError "ParseInt" (String.mk s) NumErrKind.ErrSyntax))
  else
    let neg : Bool := s.head? = some '-'
    let body := if s.head? = some '+' ∨ s.head? = some '-' then s.tail else s
    let un := ParseUint body
    if un.2 = some NumErrKind.ErrSyntax then
      (0, some (GoError.numError "ParseInt" (String.mk s) NumErrKind.ErrSyntax))
    else if !neg ∧ un.1 ≥ 9223372036854775808 then
      (9223372036854775807,
        some (GoError.numError "ParseInt" (String.mk s) NumErrKind.ErrRange))
    else if neg ∧ un.1 > 9223372036854775808 then
      (-9223372036854775808,
        some (GoError.numError "ParseInt" (String.mk s) NumErrKind.ErrRange))
    else (if neg then -(un.1 : Int) else (un.1 : Int), none)

/-! ## `float64`

Finite values are kept as a sign and a magnitude `mag`, standing for
`mag / 2^1074`: every finite binary64 number is such a multiple, so equality of
values is equality of this representation (with `+0` and `-0` distinct).
All operations are correctly rounded (round to nearest, ties to even). -/

/-- Number of binary digits of `n` (`0` for `0`); the first argument bounds the
number of halvings. -/
def bitLengthAux : Nat → Nat → Nat
  | 0, _ => 0
  | fuel + 1, n => if n = 0 then 0 else bitLengthAux fuel (n / 2) + 1

/-- Number of binary digits of `n`. -/
def bitLength (n : Nat) : Nat := bitLengthAux n n

/-- A `float64`: NaN, an infinity, or the finite value `(-1)^neg * mag / 2^1074`. -/
inductive F64
  | nan
  | inf (neg : Bool)
  | fin (neg : Bool) (mag : Nat)
  deriving DecidableEq, Repr

/-- The multiple of `2^-1074`, as a numerator, nearest to `a / b` among the
numbers with at most 53 significant bits; ties go to the even one. -/
def roundMag (a b : Nat) : Nat :=
  let n := a * 2 ^ 1074
  let sh := bitLength (n / b) - 53
  let d := b * 2 ^ sh
  let hi := n / d
  let r := n % d
  let up := if 2 * r < d then 0 else if d < 2 * r then 1 else hi % 2
  (hi + up) * 2 ^ sh

/-- The `float64` nearest to `(-1)^neg * a / b`; values that round to `2^1024`
or more overflow to an infinity. -/
def F64.round (neg : Bool) (a b : Nat) : F64 :=
  if roundMag a b ≥ 2 ^ 2098 then F64.inf neg else F64.fin neg (roundMag a b)

/-- The conversion `float64(z)` of an integer. -/
def F64.ofInt (z : Int) : F64 := F64.round (decide (z < 0)) z.natAbs 1

/-- The constant `100.` -/
def F64.hundred : F64 := F64.fin false (100 * 2 ^ 1074)

/-- The product `x * y`. -/
def F64.mul : F64 → F64 → F64
  | F64.fin s m, F64.fin t n => F64.round (xor s t) (m * n) (2 ^ 1074 * 2 ^ 1074)
  | F64.fin s m, F64.inf t => if m = 0 then F64.nan else F64.inf (xor s t)
  | F64.inf s, F64.fin t n => if n = 0 then F64.nan else F64.inf (xor s t)
  | F64.inf s, F64.inf t => F64.inf (xor s t)
  | _, _ => F64.nan

/-- The quotient `x / y`. -/
def F64.div : F64 → F64 → F64
  | F64.fin s m, F64.fin t n =>
    if n = 0 then (if m = 0 then F64.nan else F64.inf (xor s t)) else F64.round (xor s t) m n
  | F64.fin s _, F64.inf t => F64.fin (xor s t) 0
  | F64.inf s, F64.fin t _ => F64.inf (xor s t)
  | _, _ => F64.nan

/-- `math.Ceil(x)`. -/
def F64.Ceil : F64 → F64
  | F64.fin false m => F64.fin false ((m + (2 ^ 1074 - 1)) / 2 ^ 1074 * 2 ^ 1074)
  | F64.fin true m => F64.fin true (m / 2 ^ 1074 * 2 ^ 1074)
  | x => x

/-- The integer part of `x` when `x` is finite and that integer is an `int64`. -/
def F64.truncate : F64 → Option Int
  | F64.fin neg m =>
    let z : Int := if neg then -((m / 2 ^ 1074 : Nat) : Int) else ((m / 2 ^ 1074 : Nat) : Int)
    if inInt64 z then some z else none
  | _ => none

/-- The conversion `int(x)`: truncation toward zero. For NaN, infinities and
values outside the `int64` range Go leaves the result to the implementation;
the value used here is the one amd64 produces (`-1 << 63`). -/
def F64.toInt (x : F64) : Int := (x.truncate).getD (-9223372036854775808)

/-- The comparison `x < y` of IEEE-754 (false when either side is NaN). -/
def F64.lt : F64 → F64 → Bool
  | F64.fin s m, F64.fin t n =>
    decide ((if s then -(m : Int) else (m : Int)) < (if t then -(n : Int) else (n : Int)))
  | F64.fin _ _, F64.inf t => !t
  | F64.inf s, F64.fin _ _ => s
  | F64.inf s, F64.inf t => s && !t
  | _, _ => false

/-- `math.Min(x, y)`: `-Inf` if either is `-Inf`, else NaN if either is NaN,
`-0` before `+0`, otherwise the smaller. -/
def F64.Min (x y : F64) : F64 :=
  if x = F64.inf true ∨ y = F64.inf true then F64.inf true
  else if x = F64.nan ∨ y = F64.nan then F64.nan
  else if (x = F64.fin false 0 ∨ x = F64.fin true 0) ∧
      (y = F64.fin false 0 ∨ y = F64.fin true 0) then
    (if x = F64.fin true 0 then x else y)
  else if F64.lt x y then x else y

/-! ## `strconv.ParseFloat(s, 64)` (Go 1.13 and later) -/

/-- `lower(c)` of package strconv: `c | ('x' - 'X')`. -/
def lowerByte (c : Char) : Nat := c.toNat ||| 32

/-- `commonPrefixLenIgnoreCase(s, prefix)` of package strconv (the second
argument is lower case). -/
def commonPrefixLenIgnoreCase : List Char → List Char → Nat
  | c :: s, p :: pre =>
    if (if 'A' ≤ c ∧ c ≤ 'Z' then c.toNat + 32 else c.toNat) ≠ p.toNat then 0
    else commonPrefixLenIgnoreCase s pre + 1
  | _, _ => 0

/-- `special(s)` of package strconv: the value and the number of characters
taken when `s` starts with an infinity or NaN. -/
def special (s : List Char) : Option (F64 × Nat) :=
  match s with
  | [] => none
  | c :: rest =>
    if c = '+' ∨ c = '-' then
      let n := commonPrefixLenIgnoreCase rest "infinity".toList
      let n := if 3 < n ∧ n < 8 then 3 else n
      if n = 3 ∨ n = 8 then some (F64.inf (decide (c = '-')), 1 + n) else none
    else if c = 'i' ∨ c = 'I' then
      let n := commonPrefixLenIgnoreCase s "infinity".toList
      let n := if 3 < n ∧ n < 8 then 3 else n
      if n = 3 ∨ n = 8 then some (F64.inf false, n) else none
    else if c = 'n' ∨ c = 'N' then
      if commonPrefixLenIgnoreCase s "nan".toList = 3 then some (F64.nan, 3) else none
    else none

/-- `underscoreOK(s)` of package strconv, after the optional sign and base
prefix: `saw` is the class of the last character (`'^'`, `'0'`, `'_'`, `'!'`). -/
def underscoreLoop (hex : Bool) : List Char → Char → Bool
  | [], saw => saw ≠ '_'
  | c :: cs, saw =>
    if ('0' ≤ c ∧ c ≤ '9') ∨ (hex ∧ 97 ≤ lowerByte c ∧ lowerByte c ≤ 102) then
      underscoreLoop hex cs '0'
    else if c = '_' then
      if saw ≠ '0' then false else underscoreLoop hex cs '_'
    else if saw = '_' then false
    else underscoreLoop hex cs '!'

/-- `underscoreOK(s)` of package strconv. -/
def underscoreOK (s : List Char) : Bool :=
  let s1 := if s.head? = some '-' ∨ s.head? = some '+' then s.tail else s
  match s1 with
  | c0 :: c1 :: rest =>
    if c0 = '0' ∧ (lowerByte c1 = 98 ∨ lowerByte c1 = 111 ∨ lowerByte c1 = 120) then
      underscoreLoop (lowerByte c1 = 120) rest '0'
    else underscoreLoop false s1 '^'
  | _ => underscoreLoop false s1 '^'

/-- What the mantissa loop of `readFloat` has seen. `mant` is the number written
by all digits read so far and `frac` counts the digits after the point. -/
structure Mantissa where
  sawdot : Bool
  sawdigits : Bool
  underscores : Bool
  mant : Nat
  frac : Nat
  deriving DecidableEq, Repr

/-- The mantissa loop of `readFloat`; returns the unread rest of the input. -/
def readMantissa (hex : Bool) : List Char → Mantissa → Mantissa × List Char
  | [], st => (st, [])
  | c :: cs, st =>
    if c = '_' then readMantissa hex cs { st with underscores := true }
    else if c = '.' then
      if st.sawdot then (st, c :: cs) else readMantissa hex cs { st with sawdot := true }
    else if '0' ≤ c ∧ c ≤ '9' then
      readMantissa hex cs
        { st with sawdigits := true,
                  mant := st.mant * (if hex then 16 else 10) + (c.toNat - 48),
                  frac := if st.sawdot then st.frac + 1 else st.frac }
    else if hex ∧ 97 ≤ lowerByte c ∧ lowerByte c ≤ 102 then
      readMantissa hex cs
        { st with sawdigits := true,
                  mant := st.mant * 16 + (lowerByte c - 97 + 10),
                  frac := if st.sawdot then st.frac + 1 else st.frac }
    else (st, c :: cs)

/-- The exponent loop of `readFloat`: digits and underscores; the exponent stops
growing once it has reached 10000. -/
def readExponent : List Char → Nat → Bool → (Nat × Bool) × List Char
  | [], e, u => ((e, u), [])
  | c :: cs, e, u =>
    if c = '_' then readExponent cs e true
    else if '0' ≤ c ∧ c ≤ '9' then
      readExponent cs (if e < 10000 then e * 10 + (c.toNat - 48) else e) u
    else ((e, u), c :: cs)

/-- Result of `readFloat`: sign, base, the number written by the digits, the
exponent of the base 10 (or of 2 for a hexadecimal mantissa) to apply to it,
and the unread rest of the input. -/
structure ReadFloat where
  neg : Bool
  hex : Bool
  mant : Nat
  exp : Int
  rest : List Char
  deriving DecidableEq, Repr

/-- `readFloat(s)` of package strconv; `none` is `ok == false`. -/
def readFloat (s : List Char) : Option ReadFloat :=
  if s = [] then none
  else
    let neg : Bool := s.head? = some '-'
    let s1 := if s.head? = some '+' ∨ s.head? = some '-' then s.tail else s
    let hex : Bool :=
      match s1 with
      | c0 :: c1 :: _ :: _ => c0 = '0' ∧ lowerByte c1 = 120
      | _ => false
    let m := readMantissa hex (if hex then s1.drop 2 else s1)
      { sawdot := false, sawdigits := false, underscores := false, mant := 0, frac := 0 }
    if !m.1.sawdigits then none
    else
      let scaleExp : Int := if hex then -(4 * (m.1.frac : Int)) else -(m.1.frac : Int)
      let finish (underscores : Bool) (e : Int) (rest : List Char) : Option ReadFloat :=
        if underscores ∧ !underscoreOK (s.take (s.length - rest.length)) then none
        else some { neg := neg, hex := hex, mant := m.1.mant, exp := scaleExp + e, rest := rest }
      match m.2 with
      | c :: s4 =>
        if lowerByte c = (if hex then 112 else 101) then
          let esign : Int := if s4.head? = some '-' then -1 else 1
          let s5 := if s4.head? = some '+' ∨ s4.head? = some '-' then s4.tail else s4
          match s5 with
          | [] => none
          | d :: _ =>
            if '0' ≤ d ∧ d ≤ '9' then
              let e := readExponent s5 0 false
              finish (m.1.underscores || e.1.2) ((e.1.1 : Int) * esign) e.2
            else none
        else if hex then none
        else finish m.1.underscores 0 m.2
      | [] => if hex then none else finish m.1.underscores 0 []

/-- The number that the digits and the exponent of a literal write, as a
fraction: `(a, b)` stands for `a / b`. -/
def ReadFloat.fraction (r : ReadFloat) : Nat × Nat :=
  if 0 ≤ r.exp then (r.mant * (if r.hex then 2 else 10) ^ r.exp.toNat, 1)
  else (r.mant, (if r.hex then 2 else 10) ^ (-r.exp).toNat)

/-- The number that a literal writes when `readFloat` reads all of it: sign,
digits and exponent in exact arithmetic; `none` when `readFloat` rejects the
token or stops before its end. -/
def tokenValue (s : List Char) : Option ℚ :=
  match readFloat s with
  | none => none
  | some r =>
    if r.rest = [] then
      some ((if r.neg then -1 else 1) * ((r.fraction.1 : ℚ) / (r.fraction.2 : ℚ)))
    else none

/-- Neither reading the number `p` nor multiplying it by `W` rounds: `|p|` is
`v / 2^k` with `v < 2^53` and `k ≤ 1068`, a number that `float64` holds
exactly, and `W * v < 2^53`. -/
def exactProduct (W : Int) (p : ℚ) : Prop :=
  ∃ v k : Nat, |p| = (v : ℚ) / 2 ^ k ∧ v < 9007199254740992 ∧ k ≤ 1068 ∧
    W * v < 9007199254740992

/-- The number `q` is further than `|q| / 2^50 + 2^-1000` from the integers
`ceil(q) - 1` and `ceil(q)` around it. -/
def awayFromIntegers (q : ℚ) : Prop :=
  ((⌈q⌉ : Int) : ℚ) - 1 + (|q| / 2 ^ 50 + 1 / 2 ^ 1000) < q ∧
    q + (|q| / 2 ^ 50 + 1 / 2 ^ 1000) ≤ ((⌈q⌉ : Int) : ℚ)

/-- `strconv.ParseFloat(s, 64)`: the float64 nearest to the number written by
`s` (ties to even), `±Inf` with a range error when that is out of range, and a
syntax error when `s` is not a floating-point literal, an infinity or a NaN.
All digits of the mantissa count here; Go keeps the first 800 significant ones
and remembers whether a later one was non-zero. -/
def ParseFloat (s : List Char) : F64 × Option GoError :=
  match special s with
  | some (f, n) =>
    if n = s.length then (f, none)
    else
      (F64.fin false 0,
        some (GoError.numError "ParseFloat" (String.mk s) NumErrKind.ErrSyntax))
  | none =>
    match readFloat s with
    | none =>
      (F64.fin false 0,
        some (GoError.numError "ParseFloat" (String.mk s) NumErrKind.ErrSyntax))
    | some r =>
      if r.rest ≠ [] then
        (F64.fin false 0,
          some (GoError.numError "ParseFloat" (String.mk s) NumErrKind.ErrSyntax))
      else
        let base : Nat := if r.hex then 2 else 10
        let f := if 0 ≤ r.exp then F64.round r.neg (r.mant * base ^ r.exp.toNat) 1
                 else F64.round r.neg r.mant (base ^ (-r.exp).toNat)
        match f with
        | F64.inf _ => (f, some (GoError.numError "ParseFloat" (String.mk s) NumErrKind.ErrRange))
        | _ => (f, none)

/-- Neither of the separators `,` and `:` that `RegionInstructions` and
`SizeInstructions` split on. -/
def notSeparator (c : Char) : Prop := c ≠ ',' ∧ c ≠ ':'

/-! ## The compliance level (external collaborator) -/

/-- The capability contract of `iiiflevel.Level` as `NewTransformation` uses it.
Each call `level.Compliance().IsValidImageX(s)` may read and change the state
`σ` of the level, so the order of the calls is part of the model.
`ImageFormat` lists the entries `(name, details.Match)` of
`Spec().Image.Format`. -/
structure Level (σ : Type) where
  IsValidImageRegion : String → σ → (Bool × Option GoError) × σ
  IsValidImageSize : String → σ → (Bool × Option GoError) × σ
  IsValidImageRotation : String → σ → (Bool × Option GoError) × σ
  IsValidImageQuality : String → σ → (Bool × Option GoError) × σ
  IsValidImageFormat : String → σ → (Bool × Option GoError) × σ
  DefaultQuality : σ → (String × Option GoError) × σ
  ImageFormat : List (String × String)

/-! ## Transformation -/

/-- The `Transformation` struct. -/
structure Transformation (σ : Type) where
  level : Level σ
  Region : String
  Size : String
  Rotation : String
  Quality : String
  Format : String

/-- `NewTransformation(level, region, size, rotation, quality, format)`,
started in level state `s0`; returns the Go result pair and the final state. -/
def NewTransformation {σ : Type} (level : Level σ)
    (region size rotation quality format : String) (s0 : σ) :
    (Option (Transformation σ) × Option GoError) × σ :=
  let r1 := level.IsValidImageRegion region s0
  if !r1.1.1 then ((none, r1.1.2), r1.2) else
  let r2 := level.IsValidImageSize size r1.2
  if !r2.1.1 then ((none, r2.1.2), r2.2) else
  let r3 := level.IsValidImageRotation rotation r2.2
  if !r3.1.1 then ((none, r3.1.2), r3.2) else
  let r4 := level.IsValidImageQuality quality r3.2
  if !r4.1.1 then ((none, r4.1.2), r4.2) else
  let r5 := level.IsValidImageFormat format r4.2
  if !r5.1.1 then ((none, r5.1.2), r5.2) else
  if quality = "default" then
    let d := level.DefaultQuality r5.2
    if d.1.2 ≠ none then ((none, d.1.2), d.2)
    else
      ((some { level := level, Region := region, Size := size, Rotation := rotation,
               Quality := d.1.1, Format := format }, none), d.2)
  else
    ((some { level := level, Region := region, Size := size, Rotation := rotation,
             Quality := quality, Format := format }, none), r5.2)

/-- `(*Transformation).HasTransformation()`. -/
def Transformation.HasTransformation {σ : Type} (t : Transformation σ) : Bool :=
  if t.Region ≠ "full" then true
  else if t.Size ≠ "full" then true
  else if t.Rotation ≠ "0" then true
  else if t.Quality ≠ "default" then true
  else false

/-! ## Instructions and images -/

/-- The `RegionInstruction` struct. -/
structure RegionInstruction where
  X : Int
  Y : Int
  Height : Int
  Width : Int
  deriving DecidableEq, Repr

/-- The `SizeInstruction` struct. -/
structure SizeInstruction where
  Height : Int
  Width : Int
  Force : Bool
  Enlarge : Bool
  deriving DecidableEq, Repr

/-- What the `Dimensions` interface reports: `Height()` and `Width()`. -/
structure Dimensions where
  Height : Int
  Width : Int
  deriving DecidableEq, Repr

/-- The part of the `Image` interface the Transformation reads: the result pair
of `Dimensions()`. -/
structure Image where
  Dimensions : Dimensions × Option GoError

/-- How a call ends: it returns, or the Go run time panics. -/
inductive Outcome (α : Type)
  | returned (result : α)
  | panicked (reason : String)
  deriving DecidableEq, Repr

/-- `(*Transformation).RegionInstructions(im)`. In the `square` branch the
untyped constant `2.` of `(width - height) / 2.` is converted to `int`, so the
division is the truncated integer division. -/
def Transformation.RegionInstructions {σ : Type} (t : Transformation σ) (im : Image) :
    Option RegionInstruction × Option GoError :=
  if im.Dimensions.2 ≠ none then (none, im.Dimensions.2)
  else
    let width := im.Dimensions.1.Width
    let height := im.Dimensions.1.Height
    if t.Region = "square" then
      let min := F64.Min (F64.ofInt width) (F64.ofInt height)
      let x := if width > height then wrap64 (Int.tdiv (goSub width height) 2) else 0
      let y := if width > height then 0 else wrap64 (Int.tdiv (goSub height width) 2)
      (some { X := x, Y := y, Width := min.toInt, Height := min.toInt }, none)
    else
      let arr := stringsSplit ':' t.Region.toList
      if arr.length = 1 then
        let sizes := stringsSplit ',' (arr.getD 0 [])
        if sizes.length ≠ 4 then
          (none, some (GoError.errorsNew (Message.sprintf "Invalid region" [])))
        else
          let x := ParseInt (sizes.getD 0 [])
          if x.2 ≠ none then (none, x.2) else
          let y := ParseInt (sizes.getD 1 [])
          if y.2 ≠ none then (none, y.2) else
          let w := ParseInt (sizes.getD 2 [])
          if w.2 ≠ none then (none, w.2) else
          let h := ParseInt (sizes.getD 3 [])
          if h.2 ≠ none then (none, h.2) else
          let instruction : RegionInstruction :=
            { Width := w.1, Height := h.1, X := x.1, Y := y.1 }
          let instruction : RegionInstruction :=
            if goAdd instruction.X instruction.Width > width then
              { instruction with Width := goSub width instruction.X }
            else instruction
          let instruction : RegionInstruction :=
            if goAdd instruction.Y instruction.Height > height then
              { instruction with Height := goSub height instruction.Y }
            else instruction
          (some instruction, none)
      else if arr.getD 0 [] = "pct".toList then
        let sizes := stringsSplit ',' (arr.getD 1 [])
        if sizes.length ≠ 4 then
          (none, some (GoError.errorsNew (Message.sprintf "Invalid region" [t.Region])))
        else
          let px := ParseFloat (sizes.getD 0 [])
          if px.2 ≠ none then (none, px.2) else
          let py := ParseFloat (sizes.getD 1 [])
          if py.2 ≠ none then (none, py.2) else
          let pw := ParseFloat (sizes.getD 2 [])
          if pw.2 ≠ none then (none, pw.2) else
          let ph := ParseFloat (sizes.getD 3 [])
          if ph.2 ≠ none then (none, ph.2) else
          let x := (F64.Ceil (F64.div (F64.mul (F64.ofInt width) px.1) F64.hundred)).toInt
          let y := (F64.Ceil (F64.div (F64.mul (F64.ofInt height) py.1) F64.hundred)).toInt
          let w := (F64.Ceil (F64.div (F64.mul (F64.ofInt width) pw.1) F64.hundred)).toInt
          let h := (F64.Ceil (F64.div (F64.mul (F64.ofInt height) ph.1) F64.hundred)).toInt
          let instruction : RegionInstruction := { Width := w, Height := h, X := x, Y := y }
          let instruction : RegionInstruction :=
            if goAdd instruction.X instruction.Width > width then
              { instruction with Width := goSub width instruction.X }
            else instruction
          let instruction : RegionInstruction :=
            if goAdd instruction.Y instruction.Height > height then
              { instruction with Height := goSub height instruction.Y }
            else instruction
          (some instruction, none)
      else (none, some (GoError.errorsNew (Message.sprintf "Unrecognized region" [])))

/-- The format string `sizeError` of `SizeInstructions`. -/
def sizeError : String := "IIIF 2.1 `size` argument is not recognized: %#v"

/-- `(*Transformation).SizeInstructions(im)`. The second call of
`im.Dimensions()`, in the `pct` branch, returns what the first one returned. -/
def Transformation.SizeInstructions {σ : Type} (t : Transformation σ) (im : Image) :
    Outcome (Option SizeInstruction × Option GoError) :=
  if im.Dimensions.2 ≠ none then Outcome.returned (none, im.Dimensions.2)
  else
    let arr := stringsSplit ':' t.Size.toList
    if arr.length = 1 then
      let best := stringsHasPrefixBang t.Size.toList
      let sizes := stringsSplit ',' (stringsTrimBang (arr.getD 0 []))
      if sizes.length ≠ 2 then
        Outcome.returned
          (none, some (GoError.errorsNew (Message.sprintf sizeError [t.Size])))
      else
        let wi := ParseInt (sizes.getD 0 [])
        let hi := ParseInt (sizes.getD 1 [])
        if wi.2 ≠ none ∧ hi.2 ≠ none then
          Outcome.returned
            (none, some (GoError.errorsNew (Message.sprintf sizeError [t.Size])))
        else if wi.2 = none ∧ hi.2 = none then
          Outcome.returned
            (some { Height := hi.1, Width := wi.1,
                    Enlarge := if best then true else false,
                    Force := if best then false else true }, none)
        else if hi.2 ≠ none then
          let width := im.Dimensions.1.Width
          let height := im.Dimensions.1.Height
          match goDiv (goMul height wi.1) width with
          | none => Outcome.panicked "runtime error: integer divide by zero"
          | some h =>
            Outcome.returned
              (some { Height := h, Width := wi.1, Enlarge := false, Force := false }, none)
        else
          let width := im.Dimensions.1.Width
          let height := im.Dimensions.1.Height
          match goDiv (goMul width hi.1) height with
          | none => Outcome.panicked "runtime error: integer divide by zero"
          | some w =>
            Outcome.returned
              (some { Height := hi.1, Width := w, Enlarge := false, Force := false }, none)
    else if arr.getD 0 [] = "pct".toList then
      let pct := ParseFloat (arr.getD 1 [])
      if pct.2 ≠ none then
        Outcome.returned (none, some (GoError.errorsNew (Message.text "invalid size")))
      else
        let width := im.Dimensions.1.Width
        let height := im.Dimensions.1.Height
        let w := (F64.Ceil (F64.mul (F64.div pct.1 F64.hundred) (F64.ofInt width))).toInt
        let h := (F64.Ceil (F64.mul (F64.div pct.1 F64.hundred) (F64.ofInt height))).toInt
        Outcome.returned
          (some { Height := h, Width := w, Enlarge := false, Force := false }, none)
    else
      Outcome.returned
        (none, some (GoError.errorsNew (Message.sprintf sizeError [t.Size])))

/-! ## Rotation and format -/

/-- The `RotationInstruction` struct. -/
structure RotationInstruction where
  Flip : Bool
  Angle : F64
  deriving DecidableEq, Repr

/-- The `FormatInstruction` struct. -/
structure FormatInstruction where
  Format : String
  deriving DecidableEq, Repr

/-- The format string `rotationError` of `RotationInstructions`. -/
def rotationError : String := "IIIF 2.1 `rotation` argument is not recognized: %#v"

/-- `(*Transformation).RotationInstructions(im)`; the image is not used. -/
def Transformation.RotationInstructions {σ : Type} (t : Transformation σ) (_im : Image) :
    Option RotationInstruction × Option GoError :=
  let flip := stringsHasPrefixBang t.Rotation.toList
  let rotation := stringsTrimBang t.Rotation.toList
  let angle := ParseFloat rotation
  if angle.2 ≠ none then
    (none, some (GoError.errorsNew (Message.sprintf rotationError [t.Rotation])))
  else (some { Flip := flip, Angle := angle.1 }, none)

/-- What `regexp.Compile(pattern)` returns: a compiled expression, given by its
`MatchString`, or an error. -/
inductive Compiled
  | ok (MatchString : String → Bool)
  | failed (err : GoError)

/-- The loop of `FormatInstructions` over the entries `(name, details.Match)` of
the map `spec.Image.Format`, in the order in which `range` yields them: the
value of `fmt` when the loop ends, or the error of a pattern that does not
compile. -/
def formatLoop (compile : String → Compiled) (format : String) :
    List (String × String) → String × Option GoError
  | [] => ("", none)
  | (name, pattern) :: rest =>
    match compile pattern with
    | Compiled.failed err => ("", some err)
    | Compiled.ok matchString =>
      if matchString format then (name, none) else formatLoop compile format rest

/-- `(*Transformation).FormatInstructions(im)`. `spec.Image.Format` is a Go map
(its `range` yields a string key), so the order of the iteration is chosen by
the run time: `order` is that order, a rearrangement of `t.level.ImageFormat`.
`compile` stands for `regexp.Compile`. The image is not used. -/
def Transformation.FormatInstructions {σ : Type} (compile : String → Compiled)
    (t : Transformation σ) (_im : Image) (order : List (String × String)) :
    Option FormatInstruction × Option GoError :=
  let r := formatLoop compile t.Format order
  if r.2 ≠ none then (none, r.2)
  else if r.1 = "" then
    (none, some (GoError.errorsNew (Message.text "failed to determine format")))
  else (some { Format := r.1 }, none)

/-! ## `net/url` and `ToURI`

`url.Parse` and `(*URL).String` as of Go 1.20, on strings in which what follows
the scheme does not start with `/` (no authority, no rooted path). Go strings
are byte strings: here a string is the list of its bytes, a character below
256 standing for the byte of that value. -/

/-- The UTF-8 encoding of a character, as bytes. -/
def utf8Bytes (c : Char) : List Char :=
  if c.toNat < 128 then [c]
  else if c.toNat < 2048 then [Char.ofNat (192 + c.toNat / 64), Char.ofNat (128 + c.toNat % 64)]
  else if c.toNat < 65536 then
    [Char.ofNat (224 + c.toNat / 4096), Char.ofNat (128 + c.toNat / 64 % 64),
      Char.ofNat (128 + c.toNat % 64)]
  else
    [Char.ofNat (240 + c.toNat / 262144), Char.ofNat (128 + c.toNat / 4096 % 64),
      Char.ofNat (128 + c.toNat / 64 % 64), Char.ofNat (128 + c.toNat % 64)]

/-- The bytes of a Go string: the UTF-8 encoding of its characters. An ASCII
string is the list of its characters. -/
def goBytes (s : String) : List Char := s.toList.flatMap utf8Bytes

/-- `strings.Cut(s, sep)` for a one-byte separator: the text before the first
`sep`, the text after it, and whether `sep` occurs. -/
def stringsCut (sep : Char) : List Char → List Char × List Char × Bool
  | [] => ([], [], false)
  | c :: cs =>
    if c = sep then ([], cs, true)
    else (c :: (stringsCut sep cs).1, (stringsCut sep cs).2.1, (stringsCut sep cs).2.2)

/-- The `encoding` modes of package net/url that `Parse` and `String` use on
these strings. -/
inductive Encoding
  | encodePath
  | encodeFragment
  deriving DecidableEq, Repr

/-- `shouldEscape(c, mode)` of package net/url. -/
def shouldEscape (c : Char) (mode : Encoding) : Bool :=
  if ('a' ≤ c ∧ c ≤ 'z') ∨ ('A' ≤ c ∧ c ≤ 'Z') ∨ ('0' ≤ c ∧ c ≤ '9') then false
  else if c = '-' ∨ c = '_' ∨ c = '.' ∨ c = '~' then false
  else if c = '$' ∨ c = '&' ∨ c = '+' ∨ c = ',' ∨ c = '/' ∨ c = ':' ∨ c = ';' ∨ c = '='
      ∨ c = '?' ∨ c = '@' then
    (match mode with
     | Encoding.encodePath => c = '?'
     | Encoding.encodeFragment => false)
  else if mode = Encoding.encodeFragment ∧ (c = '!' ∨ c = '(' ∨ c = ')' ∨ c = '*') then false
  else true

/-- `validEncoded(s, mode)` of package net/url. -/
def validEncoded (s : List Char) (mode : Encoding) : Bool :=
  s.all (fun c =>
    (c = '!' ∨ c = '$' ∨ c = '&' ∨ c = Char.ofNat 39 ∨ c = '(' ∨ c = ')' ∨ c = '*' ∨ c = '+'
      ∨ c = ',' ∨ c = ';' ∨ c = '=' ∨ c = ':' ∨ c = '@' ∨ c = '[' ∨ c = ']' ∨ c = '%')
    || !shouldEscape c mode)

/-- The hexadecimal digit of `n < 16`, in upper case. -/
def upperhex (n : Nat) : Char := "0123456789ABCDEF".toList.getD n '0'

/-- `escape(s, mode)` of package net/url. -/
def escape (s : List Char) (mode : Encoding) : List Char :=
  s.flatMap (fun c =>
    if shouldEscape c mode then ['%', upperhex (c.toNat / 16), upperhex (c.toNat % 16)]
    else [c])

/-- `ishex(c)` of package net/url. -/
def ishex (c : Char) : Bool :=
  ('0' ≤ c ∧ c ≤ '9') ∨ ('a' ≤ c ∧ c ≤ 'f') ∨ ('A' ≤ c ∧ c ≤ 'F')

/-- `unhex(c)` of package net/url. -/
def unhex (c : Char) : Nat :=
  if '0' ≤ c ∧ c ≤ '9' then c.toNat - 48
  else if 'a' ≤ c ∧ c ≤ 'f' then c.toNat - 97 + 10
  else if 'A' ≤ c ∧ c ≤ 'F' then c.toNat - 65 + 10
  else 0

/-- `url.PathUnescape(s)`, which is also `unescape(s, mode)` for the two modes
above: `%` followed by two hexadecimal digits becomes the byte they denote, any
other `%` is an error (`none`), every other character is kept. -/
def PathUnescape : List Char → Option (List Char)
  | [] => some []
  | [c] => if c = '%' then none else some [c]
  | [c, d] => if c = '%' then none else (PathUnescape [d]).map (List.cons c)
  | c :: a :: b :: rest =>
    if c = '%' then
      if ishex a ∧ ishex b then
        (PathUnescape rest).map (List.cons (Char.ofNat (unhex a * 16 + unhex b)))
      else none
    else (PathUnescape (a :: b :: rest)).map (List.cons c)

/-- `a` is an encoded text that unescapes to `b` whatever follows it. -/
def Decodes (a b : List Char) : Prop :=
  ∀ tail : List Char, PathUnescape (a ++ tail) = (PathUnescape tail).map (fun t => b ++ t)

/-- The loop of `getScheme(rawURL)` from a position `i > 0` on, or from `i = 0`
when `seen` is empty; `seen` holds the bytes before position `i`. A `:` at
position 0 is dealt with in `getScheme`. -/
def getSchemeFrom (rawURL : List Char) : List Char → List Char → List Char × List Char
  | _, [] => ([], rawURL)
  | seen, c :: cs =>
    if ('a' ≤ c ∧ c ≤ 'z') ∨ ('A' ≤ c ∧ c ≤ 'Z') then getSchemeFrom rawURL (seen ++ [c]) cs
    else if ('0' ≤ c ∧ c ≤ '9') ∨ c = '+' ∨ c = '-' ∨ c = '.' then
      (if seen = [] then ([], rawURL) else getSchemeFrom rawURL (seen ++ [c]) cs)
    else if c = ':' then (seen, cs)
    else ([], rawURL)

/-- `getScheme(rawURL)` of package net/url: the scheme and the rest; `none` is
the error `missing protocol scheme`. -/
def getScheme (rawURL : List Char) : Option (List Char × List Char) :=
  if rawURL.head? = some ':' then none else some (getSchemeFrom rawURL [] rawURL)

/-- `strings.ToLower(s)` for an ASCII string. -/
def stringsToLower (s : List Char) : List Char :=
  s.map (fun c => if 'A' ≤ c ∧ c ≤ 'Z' then Char.ofNat (c.toNat + 32) else c)

/-- The fields of `url.URL` that are set for these strings (`User`, `Host` and
`OmitHost` stay empty). -/
structure URL where
  Scheme : List Char
  Opaque : List Char
  Path : List Char
  RawPath : List Char
  ForceQuery : Bool
  RawQuery : List Char
  Fragment : List Char
  RawFragment : List Char
  deriving DecidableEq, Repr

/-- What `url.Parse` does with a string: a URL, an error (the text of the error
inside the `*url.Error`), or a string outside this model. -/
inductive ParseOutcome
  | ok (u : URL)
  | failed (err : String)
  | unmodelled
  deriving DecidableEq, Repr

/-- `parse(rawURL, false)` of package net/url, where `rawURL` has no fragment. -/
def urlParseNoFragment (rawURL : List Char) : ParseOutcome :=
  if rawURL.any (fun c => c.toNat < 32 ∨ c.toNat = 127) then
    ParseOutcome.failed "net/url: invalid control character in URL"
  else if rawURL = ['*'] then
    ParseOutcome.ok { Scheme := [], Opaque := [], Path := ['*'], RawPath := [],
                      ForceQuery := false, RawQuery := [], Fragment := [], RawFragment := [] }
  else
    match getScheme rawURL with
    | none => ParseOutcome.failed "missing protocol scheme"
    | some (scheme, rest0) =>
      let force : Bool := rest0.getLast? = some '?' ∧ rest0.count '?' = 1
      let rest := if force then rest0.dropLast else (stringsCut '?' rest0).1
      let query := if force then [] else (stringsCut '?' rest0).2.1
      if rest.head? = some '/' then ParseOutcome.unmodelled
      else if scheme ≠ [] then
        ParseOutcome.ok { Scheme := stringsToLower scheme, Opaque := rest, Path := [],
                          RawPath := [], ForceQuery := force, RawQuery := query,
                          Fragment := [], RawFragment := [] }
      else if ':' ∈ (stringsCut '/' rest).1 then
        ParseOutcome.failed "first path segment in URL cannot contain colon"
      else
        match PathUnescape rest with
        | none => ParseOutcome.failed "invalid URL escape"
        | some path =>
          ParseOutcome.ok { Scheme := [], Opaque := [], Path := path,
                            RawPath := if escape path Encoding.encodePath = rest then [] else rest,
                            ForceQuery := force, RawQuery := query,
                            Fragment := [], RawFragment := [] }

/-- `url.Parse(rawURL)`: the fragment is cut off, the rest is parsed, and a
non-empty fragment is set with `setFragment`. -/
def urlParse (rawURL : List Char) : ParseOutcome :=
  match urlParseNoFragment (stringsCut '#' rawURL).1 with
  | ParseOutcome.ok u =>
    if (stringsCut '#' rawURL).2.1 = [] then ParseOutcome.ok u
    else
      match PathUnescape (stringsCut '#' rawURL).2.1 with
      | none => ParseOutcome.failed "invalid URL escape"
      | some frag =>
        ParseOutcome.ok
          { u with Fragment := frag,
                   RawFragment :=
                     if escape frag Encoding.encodeFragment = (stringsCut '#' rawURL).2.1
                     then [] else (stringsCut '#' rawURL).2.1 }
  | r => r

/-- `(*URL).EscapedPath()`. -/
def URL.EscapedPath (u : URL) : List Char :=
  if u.RawPath ≠ [] ∧ validEncoded u.RawPath Encoding.encodePath = true
      ∧ PathUnescape u.RawPath = some u.Path then u.RawPath
  else if u.Path = ['*'] then ['*']
  else escape u.Path Encoding.encodePath

/-- `(*URL).EscapedFragment()`. -/
def URL.EscapedFragment (u : URL) : List Char :=
  if u.RawFragment ≠ [] ∧ validEncoded u.RawFragment Encoding.encodeFragment = true
      ∧ PathUnescape u.RawFragment = some u.Fragment then u.RawFragment
  else escape u.Fragment Encoding.encodeFragment

/-- What `(*URL).String()` writes before the fragment. With `Host` and `User`
empty no `//` is written, and the buffer is empty before the path exactly when
there is no scheme. -/
def URL.stringNoFragment (u : URL) : List Char :=
  (if u.Scheme ≠ [] then u.Scheme ++ [':'] else []) ++
  (if u.Opaque ≠ [] then u.Opaque
   else
     (if u.Scheme = [] ∧ ':' ∈ (stringsCut '/' u.EscapedPath).1 then ['.', '/'] else [])
       ++ u.EscapedPath) ++
  (if u.ForceQuery = true ∨ u.RawQuery ≠ [] then '?' :: u.RawQuery else [])

/-- `(*URL).String()`. -/
def URL.String (u : URL) : List Char :=
  u.stringNoFragment ++ (if u.Fragment ≠ [] then '#' :: u.EscapedFragment else [])

/-- The pair `(u.String(), err)` for `u, err := url.Parse(v)`, on the strings of
this model; `other` is the value of the pair on every other string (a `/` right
after the scheme, or at the start when there is no scheme). -/
def urlParseString (other : List Char → List Char × Option GoError) (v : List Char) :
    List Char × Option GoError :=
  match urlParse v with
  | ParseOutcome.ok u => (u.String, none)
  | ParseOutcome.failed err => ([], some (GoError.external err))
  | ParseOutcome.unmodelled => other v

/-- The loop of `ToURI` over `nodes`: every node is replaced by `u.String()`,
and the first error of `url.Parse` ends the loop. -/
def toURINodes (other : List Char → List Char × Option GoError) :
    List (List Char) → List (List Char) × Option GoError
  | [] => ([], none)
  | v :: vs =>
    if (urlParseString other v).2 ≠ none then ([], (urlParseString other v).2)
    else if (toURINodes other vs).2 ≠ none then ([], (toURINodes other vs).2)
    else ((urlParseString other v).1 :: (toURINodes other vs).1, none)

/-- `(*Transformation).ToURI(id)`; the result is given as bytes. -/
def Transformation.ToURI {σ : Type} (other : List Char → List Char × Option GoError)
    (t : Transformation σ) (id : String) : List Char × Option GoError :=
  let nodes := toURINodes other
    [goBytes id, goBytes t.Region, goBytes t.Size, goBytes t.Rotation, goBytes t.Quality]
  if nodes.2 ≠ none then ([], nodes.2)
  else (List.intercalate ['/'] nodes.1 ++ '.' :: goBytes t.Format, none)

/-- The byte strings in which `url.Parse` finds a relative path and nothing
else: no control character, no `#`, `?`, `:` and `%`, not starting with `/`. -/
def plainRelativePath (s : List Char) : Bool :=
  s.all (fun c => 32 ≤ c.toNat ∧ c.toNat ≠ 127 ∧ c.toNat < 256
      ∧ c ≠ '#' ∧ c ≠ '?' ∧ c ≠ ':' ∧ c ≠ '%')
    && decide (s.head? ≠ some '/')

/-- The characters `ToURI` is sure to leave alone: ASCII letters and digits,
`-`, `_`, `.` and `,`. -/
def unreservedOrComma (c : Char) : Bool :=
  ('a' ≤ c ∧ c ≤ 'z') ∨ ('A' ≤ c ∧ c ≤ 'Z') ∨ ('0' ≤ c ∧ c ≤ '9')
    ∨ c = '-' ∨ c = '_' ∨ c = '.' ∨ c = ','

/-- The bytes that a valid encoding of a path is made of: ASCII letters and
digits, `- _ . ~ $ & + , / : ; = @ ! ( ) * [ ] %` and the apostrophe. -/
def pathByte (c : Char) : Bool :=
  ('a' ≤ c ∧ c ≤ 'z') ∨ ('A' ≤ c ∧ c ≤ 'Z') ∨ ('0' ≤ c ∧ c ≤ '9')
    ∨ c = '-' ∨ c = '_' ∨ c = '.' ∨ c = '~' ∨ c = '$' ∨ c = '&' ∨ c = '+' ∨ c = ','
    ∨ c = '/' ∨ c = ':' ∨ c = ';' ∨ c = '=' ∨ c = '@' ∨ c = '!' ∨ c = '(' ∨ c = ')'
    ∨ c = '*' ∨ c = '[' ∨ c = ']' ∨ c = '%' ∨ c = Char.ofNat 39

/-- Whether the scheme that `url.Parse` finds in `v`, if any, is in lower
case. -/
def schemeInLowerCase (v : List Char) : Bool :=
  match getScheme (stringsCut '#' v).1 with
  | some (scheme, _) => stringsToLower scheme = scheme
  | none => true

/-- Whether the first `#` of `v` is its last character, so that the fragment
is empty. -/
def endsAtFirstHash (v : List Char) : Bool :=
  (stringsCut '#' v).2.2 && (stringsCut '#' v).2.1 = []

/-! ## Error messages -/

/-- `strconv.Quote(s)`: a string of printable ASCII characters other than the
double quote and the backslash is put between double quotes; `quoteOther` is
the value of `strconv.Quote` on every other string. -/
def strconvQuote (quoteOther : String → String) (s : String) : String :=
  if s.toList.all (fun c => 32 ≤ c.toNat ∧ c.toNat < 127 ∧ c.toNat ≠ 34 ∧ c.toNat ≠ 92) then
    String.singleton (Char.ofNat 34) ++ s ++ String.singleton (Char.ofNat 34)
  else quoteOther s

/-- `fmt.Sprintf(format, args...)` with string arguments, for the two shapes of
format this package uses: a format without verb, where surplus arguments are
reported as `%!(EXTRA string=..)`, and a format that ends in its only verb
`%#v` and has one argument, printed with `strconv.Quote`. -/
def fmtSprintf (quoteOther : String → String) (format : String) (args : List String) :
    Option String :=
  if '%' ∉ format.toList then
    if args = [] then some format
    else
      some (format ++ "%!(EXTRA " ++ String.intercalate ", " (args.map (fun a => "string=" ++ a))
        ++ ")")
  else
    match args with
    | [a] =>
      if format.toList.drop (format.length - 3) = "%#v".toList ∧
          '%' ∉ format.toList.take (format.length - 3) then
        some (String.mk (format.toList.take (format.length - 3)) ++ strconvQuote quoteOther a)
      else none
    | _ => none

/-- The text of a `Message`. -/
def Message.render (quoteOther : String → String) : Message → Option String
  | Message.text s => some s
  | Message.sprintf format args => fmtSprintf quoteOther format args

/-- The method `Error()`: the message of an error value. -/
def GoError.Error (quoteOther : String → String) : GoError → Option String
  | GoError.errorsNew msg => msg.render quoteOther
  | GoError.numError func num err =>
    some ("strconv." ++ func ++ ": parsing " ++ strconvQuote quoteOther num ++ ": " ++
      (match err with
       | NumErrKind.ErrSyntax => "invalid syntax"
       | NumErrKind.ErrRange => "value out of range"))
  | GoError.external description => some description

/-! ## Example collaborators -/

/-- A level over a call log: every validator appends its name and argument to
the log, accepts unless the argument is `"bad"`, and rejects with an error of
its own. -/
def loggingLevel : Level (List String) where
  IsValidImageRegion := fun a log =>
    ((a != "bad", some (GoError.external "region")), log ++ ["region:" ++ a])
  IsValidImageSize := fun a log =>
    ((a != "bad", some (GoError.external "size")), log ++ ["size:" ++ a])
  IsValidImageRotation := fun a log =>
    ((a != "bad", some (GoError.external "rotation")), log ++ ["rotation:" ++ a])
  IsValidImageQuality := fun a log =>
    ((a != "bad", some (GoError.external "quality")), log ++ ["quality:" ++ a])
  IsValidImageFormat := fun a log =>
    ((a != "bad", some (GoError.external "format")), log ++ ["format:" ++ a])
  DefaultQuality := fun log => (("color", none), log ++ ["default"])
  ImageFormat := []

/-- A level without state that accepts every parameter. -/
def acceptAll : Level Unit where
  IsValidImageRegion := fun _ u => ((true, none), u)
  IsValidImageSize := fun _ u => ((true, none), u)
  IsValidImageRotation := fun _ u => ((true, none), u)
  IsValidImageQuality := fun _ u => ((true, none), u)
  IsValidImageFormat := fun _ u => ((true, none), u)
  DefaultQuality := fun u => (("color", none), u)
  ImageFormat := []

/-- The Transformation with the given region and size (rotation `"0"`, quality
`"default"`, format `"jpg"`) on the level `acceptAll`. -/
def request (region size : String) : Transformation Unit :=
  { level := acceptAll, Region := region, Size := size, Rotation := "0",
    Quality := "default", Format := "jpg" }

/-- An image whose `Dimensions()` succeeds with the given width and height. -/
def imageOfSize (width height : Int) : Image :=
  { Dimensions := ({ Height := height, Width := width }, none) }

/-- A `regexp.Compile` for the two patterns of the format table
`{"jpg": "^jpe?g$", "png": "^png$"}`; other patterns are not provided. -/
def exampleCompile (pattern : String) : Compiled :=
  if pattern = "^jpe?g$" then Compiled.ok (fun s => s = "jpg" || s = "jpeg")
  else if pattern = "^png$" then Compiled.ok (fun s => s = "png")
  else Compiled.failed (GoError.external "pattern outside the example")

/-- A stand-in for `url.Parse` outside the model: an error. -/
def noOtherURL (_v : List Char) : List Char × Option GoError :=
  ([], some (GoError.external "net/url: outside the model"))

/-- A stand-in for `strconv.Quote` outside plain strings. -/
def noOtherQuote (s : String) : String := s

/-- The Transformation with the given rotation and format (region and size
`"full"`, quality `"default"`) on the level `acceptAll`. -/
def requestRotation (rotation format : String) : Transformation Unit :=
  { level := acceptAll, Region := "full", Size := "full", Rotation := rotation,
    Quality := "default", Format := format }

/-- The Transformation with the given format (region and size `"full"`,
rotation `"0"`, quality `"default"`) on a level that accepts every parameter and
has the given format table. -/
def requestFormat (table : List (String × String)) (format : String) : Transformation Unit :=
  { level := { acceptAll with ImageFormat := table }, Region := "full", Size := "full",
    Rotation := "0", Quality := "default", Format := format }

/-! # Theorems -/

/-! ## Construction -/

/-- C1: the validators run in the order region, size, rotation, quality, format,
each on the level state left by the one before; when the k-th is the first to
reject, `NewTransformation` returns no Transformation together with exactly the
error value of that k-th call, and stops in the state that call left (no later
validator is consulted). -/
theorem C1_first_failure_short_circuits {σ : Type} (level : Level σ)
    (region size rotation quality format : String) (s0 : σ) :
    let r1 := level.IsValidImageRegion region s0
    let r2 := level.IsValidImageSize size r1.2
    let r3 := level.IsValidImageRotation rotation r2.2
    let r4 := level.IsValidImageQuality quality r3.2
    let r5 := level.IsValidImageFormat format r4.2
    let out := NewTransformation level region size rotation quality format s0
    (r1.1.1 = false → out = ((none, r1.1.2), r1.2)) ∧
    (r1.1.1 = true → r2.1.1 = false → out = ((none, r2.1.2), r2.2)) ∧
    (r1.1.1 = true → r2.1.1 = true → r3.1.1 = false → out = ((none, r3.1.2), r3.2)) ∧
    (r1.1.1 = true → r2.1.1 = true → r3.1.1 = true → r4.1.1 = false →
      out = ((none, r4.1.2), r4.2)) ∧
    (r1.1.1 = true → r2.1.1 = true → r3.1.1 = true → r4.1.1 = true → r5.1.1 = false →
      out = ((none, r5.1.2), r5.2)) := by
  intro r1 r2 r3 r4 r5 out
  refine ⟨?_, ?_, ?_, ?_, ?_⟩
  · intro h1
    simp only [r1] at h1
    simp [out, NewTransformation, h1]
  · intro h1 h2
    simp only [r1, r2] at h1 h2
    simp [out, NewTransformation, h1, h2]
  · intro h1 h2 h3
    simp only [r1, r2, r3] at h1 h2 h3
    simp [out, NewTransformation, h1, h2, h3]
  · intro h1 h2 h3 h4
    simp only [r1, r2, r3, r4] at h1 h2 h3 h4
    simp [out, NewTransformation, h1, h2, h3, h4]
  · intro h1 h2 h3 h4 h5
    simp only [r1, r2, r3, r4, r5] at h1 h2 h3 h4 h5
    simp [out, NewTransformation, h1, h2, h3, h4, h5]

/-- Witness for C1 on the logging level: with rotation `"bad"` the third
validator is the first to reject; the result carries its error and the log
shows that quality and format were never validated. -/
theorem C1_first_failure_short_circuits_witness :
    NewTransformation loggingLevel "full" "full" "bad" "default" "jpg" []
      = ((none, some (GoError.external "rotation")),
         ["region:full", "size:full", "rotation:bad"]) :=
  (C1_first_failure_short_circuits loggingLevel "full" "full" "bad" "default" "jpg" []).2.2.1
    (by decide) (by decide) (by decide)

/-- C2: when all five validators accept, construction succeeds with Region,
Size, Rotation and Format as given; Quality is the given quality unless that is
`"default"`, in which case it is the value of `DefaultQuality()`, and a failing
`DefaultQuality()` makes construction fail with that error. -/
theorem C2_success_and_default_quality {σ : Type} (level : Level σ)
    (region size rotation quality format : String) (s0 : σ)
    (h1 : (level.IsValidImageRegion region s0).1.1 = true)
    (h2 : (level.IsValidImageSize size (level.IsValidImageRegion region s0).2).1.1 = true)
    (h3 : (level.IsValidImageRotation rotation
            (level.IsValidImageSize size (level.IsValidImageRegion region s0).2).2).1.1 = true)
    (h4 : (level.IsValidImageQuality quality
            (level.IsValidImageRotation rotation
              (level.IsValidImageSize size (level.IsValidImageRegion region s0).2).2).2).1.1
            = true)
    (h5 : (level.IsValidImageFormat format
            (level.IsValidImageQuality quality
              (level.IsValidImageRotation rotation
                (level.IsValidImageSize size (level.IsValidImageRegion region s0).2).2).2).2).1.1
            = true) :
    let s5 := (level.IsValidImageFormat format
            (level.IsValidImageQuality quality
              (level.IsValidImageRotation rotation
                (level.IsValidImageSize size (level.IsValidImageRegion region s0).2).2).2).2).2
    let d := level.DefaultQuality s5
    let out := NewTransformation level region size rotation quality format s0
    (quality ≠ "default" →
      out = ((some { level := level, Region := region, Size := size, Rotation := rotation,
                     Quality := quality, Format := format }, none), s5)) ∧
    (quality = "default" → d.1.2 = none →
      out = ((some { level := level, Region := region, Size := size, Rotation := rotation,
                     Quality := d.1.1, Format := format }, none), d.2)) ∧
    (quality = "default" → ∀ e, d.1.2 = some e → out = ((none, some e), d.2)) := by
  intro s5 d out
  refine ⟨?_, ?_, ?_⟩
  · intro hq
    simp [out, NewTransformation, h1, h2, h3, h4, h5, hq, s5]
  · intro hq hd
    subst hq
    simp only [d, s5] at hd
    simp [out, NewTransformation, h1, h2, h3, h4, h5, hd, d, s5]
  · intro hq e hd
    subst hq
    simp only [d, s5] at hd
    simp [out, NewTransformation, h1, h2, h3, h4, h5, hd, d, s5]

/-- Witness for C2 on the logging level: the request full/full/0/default.jpg is
accepted and its quality is rewritten to the level default `"color"`. -/
theorem C2_success_and_default_quality_witness :
    NewTransformation loggingLevel "full" "full" "0" "default" "jpg" []
      = ((some { level := loggingLevel, Region := "full", Size := "full", Rotation := "0",
                 Quality := "color", Format := "jpg" }, none),
         ["region:full", "size:full", "rotation:0", "quality:default", "format:jpg",
          "default"]) :=
  (C2_success_and_default_quality loggingLevel "full" "full" "0" "default" "jpg" []
    (by decide) (by decide) (by decide) (by decide) (by decide)).2.1 rfl rfl

/-- C3: `HasTransformation` is false exactly for region `"full"`, size `"full"`,
rotation `"0"` and quality `"default"`, and replacing the Format field never
changes its value. -/
theorem C3_hasTransformation_iff {σ : Type} (t : Transformation σ) :
    (t.HasTransformation = false ↔
      (t.Region = "full" ∧ t.Size = "full" ∧ t.Rotation = "0" ∧ t.Quality = "default")) ∧
    (∀ f : String, ({ t with Format := f } : Transformation σ).HasTransformation
      = t.HasTransformation) := by
  refine ⟨?_, fun f => rfl⟩
  unfold Transformation.HasTransformation
  by_cases h1 : t.Region = "full" <;> by_cases h2 : t.Size = "full" <;>
    by_cases h3 : t.Rotation = "0" <;> by_cases h4 : t.Quality = "default" <;>
    simp [h1, h2, h3, h4]

/-! ## Splitting and trimming -/

theorem stringsSplit_of_not_mem (sep : Char) (s : List Char) (h : sep ∉ s) :
    stringsSplit sep s = [s] := by
  induction s with
  | nil => rfl
  | cons c cs ih =>
    have hc : c ≠ sep := fun e => h (by simp [e])
    have hcs : sep ∉ cs := fun e => h (by simp [e])
    simp [stringsSplit, hc, ih hcs]

theorem stringsSplit_append_sep (sep : Char) (a b : List Char) (h : sep ∉ a) :
    stringsSplit sep (a ++ sep :: b) = a :: stringsSplit sep b := by
  induction a with
  | nil => simp [stringsSplit]
  | cons c cs ih =>
    have hc : c ≠ sep := fun e => h (by simp [e])
    have hcs : sep ∉ cs := fun e => h (by simp [e])
    simp [stringsSplit, hc, ih hcs]

theorem bang_dropWhile_of_head (s : List Char) (h : ∀ c, s.head? = some c → c ≠ '!') :
    s.dropWhile (fun c => decide (c = '!')) = s := by
  cases s with
  | nil => rfl
  | cons c cs =>
    have hc : c ≠ '!' := h c rfl
    simp [List.dropWhile, hc]

/-- `strings.Trim(s, "!")` leaves a string alone that neither starts nor ends
with `!`. -/
theorem stringsTrimBang_id (s : List Char) (h1 : ∀ c, s.head? = some c → c ≠ '!')
    (h2 : ∀ c, s.getLast? = some c → c ≠ '!') : stringsTrimBang s = s := by
  unfold stringsTrimBang
  rw [bang_dropWhile_of_head s h1, bang_dropWhile_of_head s.reverse, List.reverse_reverse]
  intro c hc
  rw [List.head?_reverse] at hc
  exact h2 c hc

theorem stringsTrimBang_cons_bang (s : List Char) :
    stringsTrimBang ('!' :: s) = stringsTrimBang s := by
  simp [stringsTrimBang, List.dropWhile]

/-! ## `ParseInt` -/

theorem parseUintLoop_ok (s : List Char) :
    ∀ n, (parseUintLoop n s).2 = none → ∀ c ∈ s, '0' ≤ c ∧ c ≤ '9' := by
  induction s with
  | nil => intro n _ c hc; simp at hc
  | cons d ds ih =>
    intro n h c hc
    unfold parseUintLoop at h
    by_cases hd : '0' ≤ d ∧ d ≤ '9'
    · rw [if_pos hd] at h
      by_cases h1 : n ≥ 1844674407370955162
      · rw [if_pos h1] at h; exact absurd h (by simp)
      · rw [if_neg h1] at h
        by_cases h2 : n * 10 + (d.toNat - 48) > 18446744073709551615
        · rw [if_pos h2] at h; exact absurd h (by simp)
        · rw [if_neg h2] at h
          rcases List.mem_cons.mp hc with rfl | hc
          · exact hd
          · exact ih _ h c hc
    · rw [if_neg hd] at h
      exact absurd h (by simp)

theorem parseUintLoop_range (s : List Char) :
    ∀ n, (parseUintLoop n s).2 = some NumErrKind.ErrRange →
      (parseUintLoop n s).1 = 18446744073709551615 := by
  induction s with
  | nil => intro n h; simp [parseUintLoop] at h
  | cons d ds ih =>
    intro n h
    unfold parseUintLoop at h ⊢
    by_cases hd : '0' ≤ d ∧ d ≤ '9'
    · rw [if_pos hd] at h ⊢
      by_cases h1 : n ≥ 1844674407370955162
      · rw [if_pos h1]
      · rw [if_neg h1] at h ⊢
        by_cases h2 : n * 10 + (d.toNat - 48) > 18446744073709551615
        · rw [if_pos h2]
        · rw [if_neg h2] at h ⊢
          exact ih _ h
    · rw [if_neg hd] at h
      exact absurd h (by simp)

theorem ParseUint_range (s : List Char) (h : (ParseUint s).2 = some NumErrKind.ErrRange) :
    (ParseUint s).1 = 18446744073709551615 := by
  unfold ParseUint at h ⊢
  by_cases h1 : s = []
  · rw [if_pos h1] at h; exact absurd h (by simp)
  · rw [if_neg h1] at h ⊢
    exact parseUintLoop_range s 0 h

theorem ParseUint_ok (s : List Char) (h : (ParseUint s).2 = none) :
    s ≠ [] ∧ ∀ c ∈ s, '0' ≤ c ∧ c ≤ '9' := by
  unfold ParseUint at h
  by_cases h1 : s = []
  · rw [if_pos h1] at h; exact absurd h (by simp)
  · rw [if_neg h1] at h
    exact ⟨h1, parseUintLoop_ok s 0 h⟩

/-- A successful `ParseInt` produced no `ParseUint` error, and its value is an
`int64`. -/
theorem ParseInt_ok_body (s : List Char) (h : (ParseInt s).2 = none) :
    s ≠ [] ∧
    (ParseUint (if s.head? = some '+' ∨ s.head? = some '-' then s.tail else s)).2 = none ∧
    inInt64 (ParseInt s).1 := by
  unfold ParseInt at h ⊢
  by_cases hs : s = []
  · rw [if_pos hs] at h; exact absurd h (by simp)
  · simp only [if_neg hs] at h ⊢
    refine ⟨hs, ?_⟩
    generalize hun : ParseUint (if s.head? = some '+' ∨ s.head? = some '-' then s.tail else s)
      = un at h ⊢
    have hr := ParseUint_range (if s.head? = some '+' ∨ s.head? = some '-' then s.tail else s)
    rw [hun] at hr
    rcases un with ⟨v, e⟩
    simp only at h hr ⊢
    by_cases he : e = some NumErrKind.ErrSyntax
    · rw [if_pos he] at h; exact absurd h (by simp)
    · rw [if_neg he] at h ⊢
      by_cases h1 : (!decide (s.head? = some '-')) = true ∧ v ≥ 9223372036854775808
      · rw [if_pos h1] at h; exact absurd h (by simp)
      · rw [if_neg h1] at h ⊢
        by_cases h2 : decide (s.head? = some '-') = true ∧ v > 9223372036854775808
        · rw [if_pos h2] at h; exact absurd h (by simp)
        · rw [if_neg h2] at h ⊢
          have hv : e = none ∧ v ≤ 9223372036854775808 ∧
              (¬ (s.head? = some '-') → v < 9223372036854775808) := by
            have hb : v ≤ 9223372036854775808 ∧
                (¬ (s.head? = some '-') → v < 9223372036854775808) := by
              by_cases hneg : s.head? = some '-'
              · have : ¬ (v > 9223372036854775808) := fun hgt => h2 ⟨by simpa using hneg, hgt⟩
                exact ⟨by omega, fun hn => absurd hneg hn⟩
              · have : ¬ (v ≥ 9223372036854775808) := fun hge => h1 ⟨by simpa using hneg, hge⟩
                exact ⟨by omega, fun _ => by omega⟩
            refine ⟨?_, hb⟩
            cases e with
            | none => rfl
            | some k =>
              cases k with
              | ErrSyntax => exact absurd rfl he
              | ErrRange => have := hr rfl; omega
          refine ⟨hv.1, ?_⟩
          unfold inInt64
          by_cases hneg : s.head? = some '-'
          · simp only [hneg, decide_True, if_true]
            constructor <;> omega
          · have := hv.2.2 hneg
            simp only [hneg, decide_False, Bool.false_eq_true, if_false]
            constructor <;> omega

theorem ParseInt_nil : (ParseInt []).2 ≠ none := by decide

/-- Every character of a string that `ParseInt` accepts is a sign or a digit. -/
theorem ParseInt_ok_chars (s : List Char) (h : (ParseInt s).2 = none) :
    ∀ c ∈ s, c = '+' ∨ c = '-' ∨ ('0' ≤ c ∧ c ≤ '9') := by
  obtain ⟨hs, hu, _⟩ := ParseInt_ok_body s h
  have hd := (ParseUint_ok _ hu).2
  cases s with
  | nil => exact absurd rfl hs
  | cons d ds =>
    intro c hc
    by_cases hsign : d = '+' ∨ d = '-'
    · have hcond : (d :: ds).head? = some '+' ∨ (d :: ds).head? = some '-' := by
        rcases hsign with e | e <;> simp [e]
      rw [if_pos hcond] at hd
      rcases List.mem_cons.mp hc with rfl | hc
      · rcases hsign with e | e
        · exact Or.inl e
        · exact Or.inr (Or.inl e)
      · exact Or.inr (Or.inr (hd c hc))
    · have hcond : ¬ ((d :: ds).head? = some '+' ∨ (d :: ds).head? = some '-') := by
        simpa using hsign
      rw [if_neg hcond] at hd
      exact Or.inr (Or.inr (hd c hc))

theorem signOrDigit_ne (c : Char) (h : c = '+' ∨ c = '-' ∨ ('0' ≤ c ∧ c ≤ '9')) :
    c ≠ ',' ∧ c ≠ ':' ∧ c ≠ '!' := by
  refine ⟨?_, ?_, ?_⟩ <;>
  · rintro rfl
    revert h
    decide

theorem ParseInt_ok_not_mem (s : List Char) (h : (ParseInt s).2 = none) :
    ',' ∉ s ∧ ':' ∉ s ∧ '!' ∉ s := by
  have hc := ParseInt_ok_chars s h
  refine ⟨fun hm => ?_, fun hm => ?_, fun hm => ?_⟩
  · exact (signOrDigit_ne _ (hc _ hm)).1 rfl
  · exact (signOrDigit_ne _ (hc _ hm)).2.1 rfl
  · exact (signOrDigit_ne _ (hc _ hm)).2.2 rfl

theorem ParseInt_ok_inInt64 (s : List Char) (h : (ParseInt s).2 = none) :
    inInt64 (ParseInt s).1 := (ParseInt_ok_body s h).2.2

/-! ## 64-bit arithmetic without overflow -/

theorem wrap64_of_inInt64 (z : Int) (h : inInt64 z) : wrap64 z = z := by
  unfold inInt64 at h
  unfold wrap64
  omega

theorem wrap64_inInt64 (z : Int) : inInt64 (wrap64 z) := by
  unfold inInt64 wrap64
  omega

/-! ## Explicit pixel regions -/

theorem toList_append4 (a b c d : String) :
    (a ++ "," ++ b ++ "," ++ c ++ "," ++ d).toList
      = a.toList ++ ',' :: (b.toList ++ ',' :: (c.toList ++ ',' :: d.toList)) := by
  simp [String.toList, String.data_append]

/-- The pieces of `a,b,c,d` when no piece contains a comma. -/
theorem stringsSplit_four (a b c d : List Char) (ha : ',' ∉ a) (hb : ',' ∉ b)
    (hc : ',' ∉ c) (hd : ',' ∉ d) :
    stringsSplit ',' (a ++ ',' :: (b ++ ',' :: (c ++ ',' :: d))) = [a, b, c, d] := by
  rw [stringsSplit_append_sep _ _ _ ha, stringsSplit_append_sep _ _ _ hb,
    stringsSplit_append_sep _ _ _ hc, stringsSplit_of_not_mem _ _ hd]

/-- The explicit-pixel branch of `RegionInstructions`, once the region is known
to split into four tokens that `ParseInt` accepts. -/
theorem RegionInstructions_pixels {σ : Type} (t : Transformation σ) (im : Image)
    (a b c d : List Char)
    (hdim : im.Dimensions.2 = none)
    (hsq : t.Region ≠ "square")
    (hcolon : stringsSplit ':' t.Region.toList = [t.Region.toList])
    (hcomma : stringsSplit ',' t.Region.toList = [a, b, c, d])
    (hx : (ParseInt a).2 = none) (hy : (ParseInt b).2 = none)
    (hw : (ParseInt c).2 = none) (hh : (ParseInt d).2 = none) :
    t.RegionInstructions im =
      (some { X := (ParseInt a).1, Y := (ParseInt b).1,
              Width := if goAdd (ParseInt a).1 (ParseInt c).1 > im.Dimensions.1.Width
                       then goSub im.Dimensions.1.Width (ParseInt a).1 else (ParseInt c).1,
              Height := if goAdd (ParseInt b).1 (ParseInt d).1 > im.Dimensions.1.Height
                        then goSub im.Dimensions.1.Height (ParseInt b).1
                        else (ParseInt d).1 }, none) := by
  unfold Transformation.RegionInstructions
  rw [if_neg (by rw [hdim]; exact fun h => h rfl)]
  dsimp only
  rw [if_neg hsq, hcolon, if_pos (by rfl)]
  simp only [List.getD_cons_zero, hcomma, List.length_cons, List.length_nil,
    List.getD_cons_succ, hx, hy, hw, hh, ne_eq, not_true_eq_false, if_false]
  by_cases h1 : goAdd (ParseInt a).1 (ParseInt c).1 > im.Dimensions.1.Width <;>
  by_cases h2 : goAdd (ParseInt b).1 (ParseInt d).1 > im.Dimensions.1.Height <;>
  simp [h1, h2]

/-- The far-edge clamp of `RegionInstructions` on one axis, when neither the sum
`x + w` nor the image extent leaves the `int64` range. -/
theorem clamp_exact (x w W : Int) (hx : inInt64 x) (hw : inInt64 w)
    (hW : 0 ≤ W ∧ W ≤ 9223372036854775807) (hxw : inInt64 (x + w)) :
    (if goAdd x w > W then goSub W x else w) = (if x + w > W then W - x else w) := by
  unfold goAdd goSub
  rw [wrap64_of_inInt64 _ hxw]
  by_cases h : x + w > W
  · rw [if_pos h, if_pos h]
    apply wrap64_of_inInt64
    unfold inInt64 at *
    omega
  · rw [if_neg h, if_neg h]

theorem not_mem_square : ',' ∉ "square".toList := by decide

/-- C4 (amended): for a region `x,y,w,h` of four tokens that `ParseInt` accepts,
on an image of size `W x H`, and provided the sums `x + w` and `y + h` stay in
the `int64` range, `RegionInstructions` returns `X = x`, `Y = y`,
`Width = W - x` if `x + w > W` and `w` otherwise, and `Height = H - y` if
`y + h > H` and `h` otherwise. -/
theorem C4_pixel_region_clamp {σ : Type} (t : Transformation σ) (im : Image)
    (sx sy sw sh : String) (x y w h W H : Int)
    (hdim : im.Dimensions = ({ Height := H, Width := W }, none))
    (hW : 0 ≤ W ∧ W ≤ 9223372036854775807) (hH : 0 ≤ H ∧ H ≤ 9223372036854775807)
    (hregion : t.Region = sx ++ "," ++ sy ++ "," ++ sw ++ "," ++ sh)
    (hx : ParseInt sx.toList = (x, none)) (hy : ParseInt sy.toList = (y, none))
    (hw : ParseInt sw.toList = (w, none)) (hh : ParseInt sh.toList = (h, none))
    (hxw : inInt64 (x + w)) (hyh : inInt64 (y + h)) :
    t.RegionInstructions im =
      (some { X := x, Y := y,
              Width := if x + w > W then W - x else w,
              Height := if y + h > H then H - y else h }, none) := by
  have ex : (ParseInt sx.toList).2 = none := by rw [hx]
  have ey : (ParseInt sy.toList).2 = none := by rw [hy]
  have ew : (ParseInt sw.toList).2 = none := by rw [hw]
  have eh : (ParseInt sh.toList).2 = none := by rw [hh]
  have nx := ParseInt_ok_not_mem _ ex
  have ny := ParseInt_ok_not_mem _ ey
  have nw := ParseInt_ok_not_mem _ ew
  have nh := ParseInt_ok_not_mem _ eh
  have hl := toList_append4 sx sy sw sh
  rw [← hregion] at hl
  have hsq : t.Region ≠ "square" := by
    intro e
    rw [e] at hl
    apply not_mem_square
    rw [hl]
    simp
  have hcolon : stringsSplit ':' t.Region.toList = [t.Region.toList] := by
    apply stringsSplit_of_not_mem
    rw [hl]
    simp only [List.mem_append, List.mem_cons, not_or]
    exact ⟨nx.2.1, by decide, ny.2.1, by decide, nw.2.1, by decide, nh.2.1⟩
  have hcomma : stringsSplit ',' t.Region.toList
      = [sx.toList, sy.toList, sw.toList, sh.toList] := by
    rw [hl]
    exact stringsSplit_four _ _ _ _ nx.1 ny.1 nw.1 nh.1
  have hd2 : im.Dimensions.2 = none := by rw [hdim]
  rw [RegionInstructions_pixels t im _ _ _ _ hd2 hsq hcolon hcomma ex ey ew eh]
  have rx := ParseInt_ok_inInt64 _ ex
  have ry := ParseInt_ok_inInt64 _ ey
  have rw' := ParseInt_ok_inInt64 _ ew
  have rh := ParseInt_ok_inInt64 _ eh
  rw [hx] at rx
  rw [hy] at ry
  rw [hw] at rw'
  rw [hh] at rh
  simp only [hx, hy, hw, hh, hdim]
  rw [clamp_exact x w W rx rw' hW hxw, clamp_exact y h H ry rh hH hyh]

/-- Witness for C4: region `100,50,2000,2000` on a 1000x600 image is clamped to
`{X:100, Y:50, Width:900, Height:550}`. -/
theorem C4_pixel_region_clamp_witness :
    (request "100,50,2000,2000" "full").RegionInstructions (imageOfSize 1000 600)
      = (some { X := 100, Y := 50, Width := 900, Height := 550 }, none) :=
  C4_pixel_region_clamp (request "100,50,2000,2000" "full") (imageOfSize 1000 600)
    "100" "50" "2000" "2000" 100 50 2000 2000 1000 600 rfl (by decide) (by decide)
    (by decide) (by decide) (by decide) (by decide) (by decide) (by decide) (by decide)

/-- C4 fails as stated: for region `9223372036854775807,0,1,1` on a 1000x600
image the sum `x + w` exceeds the width, yet the 64-bit sum wraps to a negative
number, no clamp is applied, and Width stays `1` instead of `W - x`. -/
theorem C4_counterexample_overflow :
    (request "9223372036854775807,0,1,1" "full").RegionInstructions (imageOfSize 1000 600)
      = (some { X := 9223372036854775807, Y := 0, Width := 1, Height := 1 }, none)
    ∧ (9223372036854775807 : Int) + 1 > 1000
    ∧ (1 : Int) ≠ 1000 - 9223372036854775807 := by
  refine ⟨by decide!, by decide, by decide⟩

/-! ## Sizes -/

theorem stringsTrimBang_of_not_mem (s : List Char) (h : '!' ∉ s) : stringsTrimBang s = s := by
  apply stringsTrimBang_id
  · intro c hc e
    subst e
    exact h (List.mem_of_mem_head? hc)
  · intro c hc e
    subst e
    exact h (List.mem_of_getLast?_eq_some hc)

theorem stringsHasPrefixBang_of_not_mem (s : List Char) (h : '!' ∉ s) :
    stringsHasPrefixBang s = false := by
  cases s with
  | nil => rfl
  | cons c cs =>
    have hc : c ≠ '!' := fun e => h (by simp [e])
    simp [stringsHasPrefixBang, hc]

/-- The truncated quotient of an `int64` by a positive number is an `int64`. -/
theorem tdiv_inInt64 (a b : Int) (ha : inInt64 a) (hb : 0 < b) : inInt64 (Int.tdiv a b) := by
  unfold inInt64 at *
  rcases Int.le_total 0 a with h | h
  · rw [Int.tdiv_eq_ediv h (Int.le_of_lt hb)]
    have h1 : 0 ≤ a / b := Int.ediv_nonneg h (Int.le_of_lt hb)
    have h2 : a / b ≤ a := Int.ediv_le_self b h
    omega
  · have hna : 0 ≤ -a := by omega
    have e : Int.tdiv a b = -((-a) / b) := by
      rw [← Int.tdiv_eq_ediv hna (Int.le_of_lt hb), Int.neg_tdiv, Int.neg_neg]
    rw [e]
    have h1 : 0 ≤ (-a) / b := Int.ediv_nonneg hna (Int.le_of_lt hb)
    have h2 : (-a) / b ≤ -a := Int.ediv_le_self b hna
    omega

/-- The branch of `SizeInstructions` for a size without `:` whose trimmed text
splits into two tokens. -/
theorem SizeInstructions_pair {σ : Type} (t : Transformation σ) (im : Image)
    (a b : List Char)
    (hdim : im.Dimensions.2 = none)
    (hcolon : stringsSplit ':' t.Size.toList = [t.Size.toList])
    (hcomma : stringsSplit ',' (stringsTrimBang t.Size.toList) = [a, b]) :
    t.SizeInstructions im =
      if (ParseInt a).2 ≠ none ∧ (ParseInt b).2 ≠ none then
        Outcome.returned
          (none, some (GoError.errorsNew (Message.sprintf sizeError [t.Size])))
      else if (ParseInt a).2 = none ∧ (ParseInt b).2 = none then
        Outcome.returned
          (some { Height := (ParseInt b).1, Width := (ParseInt a).1,
                  Enlarge := if stringsHasPrefixBang t.Size.toList then true else false,
                  Force := if stringsHasPrefixBang t.Size.toList then false else true }, none)
      else if (ParseInt b).2 ≠ none then
        match goDiv (goMul im.Dimensions.1.Height (ParseInt a).1) im.Dimensions.1.Width with
        | none => Outcome.panicked "runtime error: integer divide by zero"
        | some h =>
          Outcome.returned
            (some { Height := h, Width := (ParseInt a).1, Enlarge := false, Force := false },
              none)
      else
        match goDiv (goMul im.Dimensions.1.Width (ParseInt b).1) im.Dimensions.1.Height with
        | none => Outcome.panicked "runtime error: integer divide by zero"
        | some w =>
          Outcome.returned
            (some { Height := (ParseInt b).1, Width := w, Enlarge := false, Force := false },
              none) := by
  unfold Transformation.SizeInstructions
  rw [if_neg (by rw [hdim]; exact fun h => h rfl)]
  dsimp only
  rw [hcolon, if_pos (by rfl)]
  simp only [List.getD_cons_zero, hcomma, List.length_cons, List.length_nil,
    List.getD_cons_succ, ne_eq, not_true_eq_false, if_false]

/-- C8: for a size `w,h` or `!w,h` whose two tokens `ParseInt` accepts, and
whatever the dimensions of the image, `SizeInstructions` returns Width `w` and
Height `h`, with Enlarge set and Force clear when the size starts with `!`, and
Force set and Enlarge clear otherwise. -/
theorem C8_explicit_size {σ : Type} (t : Transformation σ) (im : Image)
    (sw sh : String) (w h : Int) (best : Bool)
    (hdim : im.Dimensions.2 = none)
    (hsize : t.Size = (if best then "!" else "") ++ sw ++ "," ++ sh)
    (hw : ParseInt sw.toList = (w, none)) (hh : ParseInt sh.toList = (h, none)) :
    t.SizeInstructions im =
      Outcome.returned
        (some { Width := w, Height := h, Enlarge := best, Force := !best }, none) := by
  have ew : (ParseInt sw.toList).2 = none := by rw [hw]
  have eh : (ParseInt sh.toList).2 = none := by rw [hh]
  have nw := ParseInt_ok_not_mem _ ew
  have nh := ParseInt_ok_not_mem _ eh
  have hbody : '!' ∉ sw.toList ++ ',' :: sh.toList := by
    simp only [List.mem_append, List.mem_cons, not_or]
    exact ⟨nw.2.2, by decide, nh.2.2⟩
  have hl : t.Size.toList = (if best then ['!'] else []) ++ (sw.toList ++ ',' :: sh.toList) := by
    rw [hsize]
    cases best <;> simp [String.toList, String.data_append]
  have htrim : stringsTrimBang t.Size.toList = sw.toList ++ ',' :: sh.toList := by
    rw [hl]
    cases best
    · simpa using stringsTrimBang_of_not_mem _ hbody
    · simpa [stringsTrimBang_cons_bang] using stringsTrimBang_of_not_mem _ hbody
  have hbest : stringsHasPrefixBang t.Size.toList = best := by
    rw [hl]
    cases best
    · simpa using stringsHasPrefixBang_of_not_mem _ hbody
    · simp [stringsHasPrefixBang]
  have hcolon : stringsSplit ':' t.Size.toList = [t.Size.toList] := by
    apply stringsSplit_of_not_mem
    rw [hl]
    cases best <;>
    · simp only [List.mem_append, List.mem_cons, not_or]
      simp only [List.mem_singleton, List.not_mem_nil, Bool.false_eq_true, if_false, if_true,
        not_false_eq_true, true_and]
      first
        | exact ⟨nw.2.1, by decide, nh.2.1⟩
        | exact ⟨by decide, nw.2.1, by decide, nh.2.1⟩
  have hcomma : stringsSplit ',' (stringsTrimBang t.Size.toList) = [sw.toList, sh.toList] := by
    rw [htrim, stringsSplit_append_sep _ _ _ nw.1, stringsSplit_of_not_mem _ _ nh.1]
  rw [SizeInstructions_pair t im _ _ hdim hcolon hcomma, hbest]
  simp only [hw, hh, ne_eq, not_true_eq_false, and_self, if_false, if_true]
  cases best <;> rfl

/-- Witness for C8: `!300,300` gives `{300, 300, enlarge, not force}` and
`300,300` gives `{300, 300, force, not enlarge}`, here on a 1000x500 image. -/
theorem C8_explicit_size_witness :
    (request "full" "!300,300").SizeInstructions (imageOfSize 1000 500)
      = Outcome.returned
          (some { Width := 300, Height := 300, Enlarge := true, Force := false }, none)
    ∧ (request "full" "300,300").SizeInstructions (imageOfSize 1000 500)
      = Outcome.returned
          (some { Width := 300, Height := 300, Enlarge := false, Force := true }, none) :=
  ⟨C8_explicit_size (request "full" "!300,300") (imageOfSize 1000 500) "300" "300" 300 300
      true rfl (by decide) (by decide) (by decide),
   C8_explicit_size (request "full" "300,300") (imageOfSize 1000 500) "300" "300" 300 300
      false rfl (by decide) (by decide) (by decide)⟩

theorem goDiv_goMul_exact (x y b : Int) (hxy : inInt64 (x * y)) (hb : 0 < b) :
    goDiv (goMul x y) b = some (Int.tdiv (x * y) b) := by
  unfold goDiv goMul
  rw [if_neg (by omega), wrap64_of_inInt64 _ hxy,
    wrap64_of_inInt64 _ (tdiv_inInt64 _ b hxy hb)]

/-- C9 (amended): on an image of size `W x H` with `W > 0` and `H > 0`, a size
`w,` yields Width `w` and Height `(H * w) / W` (truncated), provided the product
`H * w` stays in the `int64` range; a size `,h` yields Height `h` and Width
`(W * h) / H`, provided `W * h` stays in the `int64` range. Force and Enlarge
are false in both cases. -/
theorem C9_aspect_size {σ : Type} (t : Transformation σ) (im : Image) (W H : Int)
    (hdim : im.Dimensions = ({ Height := H, Width := W }, none))
    (hW : 0 < W) (hH : 0 < H) :
    (∀ (sw : String) (w : Int), t.Size = sw ++ "," → ParseInt sw.toList = (w, none) →
      inInt64 (H * w) →
      t.SizeInstructions im = Outcome.returned
        (some { Width := w, Height := Int.tdiv (H * w) W, Enlarge := false, Force := false },
          none)) ∧
    (∀ (sh : String) (h : Int), t.Size = "," ++ sh → ParseInt sh.toList = (h, none) →
      inInt64 (W * h) →
      t.SizeInstructions im = Outcome.returned
        (some { Width := Int.tdiv (W * h) H, Height := h, Enlarge := false, Force := false },
          none)) := by
  have hd2 : im.Dimensions.2 = none := by rw [hdim]
  constructor
  · intro sw w hsize hw hov
    have ew : (ParseInt sw.toList).2 = none := by rw [hw]
    have nw := ParseInt_ok_not_mem _ ew
    have hl : t.Size.toList = sw.toList ++ ',' :: [] := by
      rw [hsize]; simp [String.toList, String.data_append]
    have hbang : '!' ∉ t.Size.toList := by
      rw [hl]; simp only [List.mem_append, List.mem_cons, not_or]
      exact ⟨nw.2.2, by decide, by simp⟩
    have hcolon : stringsSplit ':' t.Size.toList = [t.Size.toList] := by
      apply stringsSplit_of_not_mem
      rw [hl]; simp only [List.mem_append, List.mem_cons, not_or]
      exact ⟨nw.2.1, by decide, by simp⟩
    have hcomma : stringsSplit ',' (stringsTrimBang t.Size.toList) = [sw.toList, []] := by
      rw [stringsTrimBang_of_not_mem _ hbang, hl, stringsSplit_append_sep _ _ _ nw.1]
      rfl
    rw [SizeInstructions_pair t im _ _ hd2 hcolon hcomma]
    have hnil : (ParseInt []).2 ≠ none := ParseInt_nil
    rw [if_neg (fun hc => hc.1 ew), if_neg (fun hc => hnil hc.2), if_pos hnil]
    simp only [hw, hdim]
    rw [goDiv_goMul_exact H w W hov hW]
  · intro sh h hsize hh hov
    have eh : (ParseInt sh.toList).2 = none := by rw [hh]
    have nh := ParseInt_ok_not_mem _ eh
    have hl : t.Size.toList = [] ++ ',' :: sh.toList := by
      rw [hsize]; simp [String.toList, String.data_append]
    have hbang : '!' ∉ t.Size.toList := by
      rw [hl]; simp only [List.mem_append, List.mem_cons, not_or]
      exact ⟨by simp, by decide, nh.2.2⟩
    have hcolon : stringsSplit ':' t.Size.toList = [t.Size.toList] := by
      apply stringsSplit_of_not_mem
      rw [hl]; simp only [List.mem_append, List.mem_cons, not_or]
      exact ⟨by simp, by decide, nh.2.1⟩
    have hcomma : stringsSplit ',' (stringsTrimBang t.Size.toList) = [[], sh.toList] := by
      rw [stringsTrimBang_of_not_mem _ hbang, hl,
        stringsSplit_append_sep _ _ _ (by simp), stringsSplit_of_not_mem _ _ nh.1]
    rw [SizeInstructions_pair t im _ _ hd2 hcolon hcomma]
    have hnil : (ParseInt []).2 ≠ none := ParseInt_nil
    rw [if_neg (fun hc => hc.2 eh), if_neg (fun hc => hnil hc.1), if_neg (fun hc => hc eh)]
    simp only [hh, hdim]
    rw [goDiv_goMul_exact W h H hov hH]

/-- Witness for C9: size `300,` on a 1000x500 image yields
`{Width:300, Height:150, force:false, enlarge:false}`. -/
theorem C9_aspect_size_witness :
    (request "full" "300,").SizeInstructions (imageOfSize 1000 500)
      = Outcome.returned
          (some { Width := 300, Height := 150, Enlarge := false, Force := false }, none) :=
  (C9_aspect_size (request "full" "300,") (imageOfSize 1000 500) 1000 500 rfl
    (by decide) (by decide)).1 "300" 300 (by decide) (by decide) (by decide)

/-- C9 fails as stated: for size `4611686018427387904,` (that is `2^62,`) on a
4x4 image the 64-bit product `H * w` wraps to `0`, so Height is `0` and not
`(H * w) / W = 4611686018427387904`. -/
theorem C9_counterexample_overflow :
    (request "full" "4611686018427387904,").SizeInstructions (imageOfSize 4 4)
      = Outcome.returned
          (some { Width := 4611686018427387904, Height := 0, Enlarge := false,
                  Force := false }, none)
    ∧ Int.tdiv (4 * 4611686018427387904) 4 = 4611686018427387904 := by
  refine ⟨by decide!, by decide⟩

/-! ## `float64`: integers up to `2^53` are exact -/

theorem two_pow_pos (k : Nat) : 0 < 2 ^ k := Nat.pow_pos (by decide)

theorem two_pow_lt (m n : Nat) (h : m < n) : 2 ^ m < 2 ^ n :=
  Nat.pow_lt_pow_right (by decide) h

theorem two_pow_add (m n k : Nat) (h : m + n = k) : 2 ^ m * 2 ^ n = 2 ^ k := by
  subst h
  exact (Nat.pow_add 2 m n).symm

theorem two_pow_dvd (m n : Nat) (h : m ≤ n) : 2 ^ m ∣ 2 ^ n := Nat.pow_dvd_pow 2 h

theorem bitLengthAux_le (fuel : Nat) : ∀ n k, n < 2 ^ k → bitLengthAux fuel n ≤ k := by
  induction fuel with
  | zero => intro n k _; exact Nat.zero_le _
  | succ f ih =>
    intro n k h
    unfold bitLengthAux
    by_cases hn : n = 0
    · rw [if_pos hn]; exact Nat.zero_le _
    · rw [if_neg hn]
      cases k with
      | zero => simp at h; exact absurd h hn
      | succ k =>
        have : n / 2 < 2 ^ k := by
          rw [Nat.div_lt_iff_lt_mul (by decide)]
          rw [Nat.pow_succ] at h
          exact h
        exact Nat.succ_le_succ (ih _ _ this)

theorem bitLength_le (n k : Nat) (h : n < 2 ^ k) : bitLength n ≤ k :=
  bitLengthAux_le n n k h

/-- Rounding leaves `a / 1` alone when `a ≤ 2^53`. -/
theorem roundMag_exact (a : Nat) (ha : a ≤ 2 ^ 53) : roundMag a 1 = a * 2 ^ 1074 := by
  have hdvd : 2 ^ (bitLength (a * 2 ^ 1074 / 1) - 53) ∣ a * 2 ^ 1074 := by
    rw [Nat.div_one]
    rcases Nat.lt_or_eq_of_le ha with h | h
    · have h1 : a * 2 ^ 1074 < 2 ^ 1127 := by
        have : (2:Nat) ^ 1127 = 2 ^ 53 * 2 ^ 1074 := (two_pow_add 53 1074 1127 (by decide)).symm
        rw [this]
        exact Nat.mul_lt_mul_of_pos_right h (two_pow_pos 1074)
      have h2 := bitLength_le _ _ h1
      clear h1
      exact Dvd.dvd.mul_left (two_pow_dvd _ 1074 (by omega)) a
    · subst h
      have e : (2:Nat) ^ 53 * 2 ^ 1074 = 2 ^ 1127 := two_pow_add 53 1074 1127 (by decide)
      rw [e]
      have h1 : (2:Nat) ^ 1127 < 2 ^ 1128 := two_pow_lt 1127 1128 (by decide)
      have h2 := bitLength_le _ _ h1
      clear h1 e
      exact two_pow_dvd _ 1127 (by omega)
  unfold roundMag
  dsimp only
  generalize bitLength (a * 2 ^ 1074 / 1) - 53 = sh at hdvd ⊢
  rw [Nat.one_mul, Nat.mod_eq_zero_of_dvd hdvd, Nat.mul_zero,
    if_pos (two_pow_pos _), Nat.add_zero, Nat.div_mul_cancel hdvd]

theorem ofInt_exact (z : Int) (h0 : 0 ≤ z) (h1 : z ≤ 9007199254740992) :
    F64.ofInt z = F64.fin false (z.toNat * 2 ^ 1074) := by
  have hz : z.natAbs = z.toNat := by omega
  have ha : z.natAbs ≤ 2 ^ 53 := by
    have : (2:Nat) ^ 53 = 9007199254740992 := by norm_num
    omega
  unfold F64.ofInt F64.round
  rw [roundMag_exact _ ha, hz]
  have hlt : ¬ (z.toNat * 2 ^ 1074 ≥ 2 ^ 2098) := by
    have e : (2:Nat) ^ 2098 = 2 ^ 1024 * 2 ^ 1074 :=
      (two_pow_add 1024 1074 2098 (by decide)).symm
    rw [e]
    have h3 : z.toNat < 2 ^ 1024 := by
      have : (2:Nat) ^ 53 < 2 ^ 1024 := two_pow_lt 53 1024 (by decide)
      exact Nat.lt_of_le_of_lt (hz ▸ ha) this
    exact Nat.not_le.mpr (Nat.mul_lt_mul_of_pos_right h3 (two_pow_pos 1074))
  rw [if_neg hlt]
  have : decide (z < 0) = false := by simpa using h0
  rw [this]

theorem toInt_fin_exact (m : Nat) (hm : (m : Int) ≤ 9223372036854775807) :
    F64.toInt (F64.fin false (m * 2 ^ 1074)) = m := by
  have hpos : 0 < 2 ^ 1074 := two_pow_pos 1074
  have hin : inInt64 (m : Int) := by
    unfold inInt64; omega
  unfold F64.toInt F64.truncate
  dsimp only
  rw [Nat.mul_div_cancel _ hpos]
  simp only [Bool.false_eq_true, if_false, hin, if_true, Option.getD_some]

theorem Min_fin_exact (a b : Nat) :
    F64.Min (F64.fin false (a * 2 ^ 1074)) (F64.fin false (b * 2 ^ 1074))
      = F64.fin false (min a b * 2 ^ 1074) := by
  have hpos : 0 < 2 ^ 1074 := two_pow_pos 1074
  generalize 2 ^ 1074 = S at hpos ⊢
  have hS : S ≠ 0 := by omega
  have hlt : (a : Int) * (S : Int) < (b : Int) * (S : Int) ↔ a < b := by
    have h : ((a * S : Nat) : Int) < ((b * S : Nat) : Int) ↔ a < b := by
      rw [Int.ofNat_lt]
      exact Nat.mul_lt_mul_right hpos
    push_cast at h
    exact h
  unfold F64.Min F64.lt
  rcases Nat.lt_or_ge a b with h | h
  · have hmin : min a b = a := Nat.min_eq_left (Nat.le_of_lt h)
    have hb : b ≠ 0 := by omega
    simp [hS, hlt, h, hmin, hb]
  · have hmin : min a b = b := Nat.min_eq_right h
    have hn : ¬ a < b := Nat.not_lt.mpr h
    simp [hS, hlt, hn, hmin]

/-- C5 (amended): for region `square` on an image of size `W x H` with
`0 ≤ W, H ≤ 2^53`, `RegionInstructions` returns `Width = Height = min(W, H)`,
with `X = floor((W - H) / 2)`, `Y = 0` when `W > H`, and `X = 0`,
`Y = floor((H - W) / 2)` otherwise. -/
theorem C5_square_region {σ : Type} (t : Transformation σ) (im : Image) (W H : Int)
    (hdim : im.Dimensions = ({ Height := H, Width := W }, none))
    (hregion : t.Region = "square")
    (hW : 0 ≤ W ∧ W ≤ 9007199254740992) (hH : 0 ≤ H ∧ H ≤ 9007199254740992) :
    t.RegionInstructions im =
      (some { X := if W > H then (W - H) / 2 else 0,
              Y := if W > H then 0 else (H - W) / 2,
              Width := min W H, Height := min W H }, none) := by
  unfold Transformation.RegionInstructions
  rw [if_neg (by rw [hdim]; exact fun h => h rfl)]
  dsimp only
  rw [if_pos hregion, hdim]
  dsimp only
  rw [ofInt_exact W hW.1 hW.2, ofInt_exact H hH.1 hH.2, Min_fin_exact,
    toInt_fin_exact _ (by omega)]
  have hmin : ((min W.toNat H.toNat : Nat) : Int) = min W H := by omega
  have hx : wrap64 (Int.tdiv (goSub W H) 2) = (W - H) / 2 ∨ ¬ W > H := by
    by_cases h : W > H
    · left
      unfold goSub
      rw [wrap64_of_inInt64 (W - H) (by unfold inInt64; omega),
        Int.tdiv_eq_ediv (by omega) (by decide)]
      exact wrap64_of_inInt64 _ (by unfold inInt64; omega)
    · exact Or.inr h
  have hy : wrap64 (Int.tdiv (goSub H W) 2) = (H - W) / 2 ∨ W > H := by
    by_cases h : W > H
    · exact Or.inr h
    · left
      unfold goSub
      rw [wrap64_of_inInt64 (H - W) (by unfold inInt64; omega),
        Int.tdiv_eq_ediv (by omega) (by decide)]
      exact wrap64_of_inInt64 _ (by unfold inInt64; omega)
  rw [hmin]
  by_cases h : W > H
  · rcases hx with e | e
    · rw [if_pos h, if_pos h, if_pos h, if_pos h, e]
    · exact absurd h e
  · rcases hy with e | e
    · rw [if_neg h, if_neg h, if_neg h, if_neg h, e]
    · exact absurd e h

/-- Witness for C5: region `square` on a 1000x600 image yields
`{X:200, Y:0, Width:600, Height:600}`. -/
theorem C5_square_region_witness :
    (request "square" "full").RegionInstructions (imageOfSize 1000 600)
      = (some { X := 200, Y := 0, Width := 600, Height := 600 }, none) :=
  C5_square_region (request "square" "full") (imageOfSize 1000 600) 1000 600 rfl rfl
    (by decide) (by decide)

/-- C5 fails as stated: on a square image of side `2^53 + 1` the side is not a
`float64`, `math.Min` works on the rounded value `2^53`, and the returned Width
and Height are `9007199254740992`, not `min(W, H) = 9007199254740993`. -/
theorem C5_counterexample_float_min :
    (request "square" "full").RegionInstructions
        (imageOfSize 9007199254740993 9007199254740993)
      = (some { X := 0, Y := 0, Width := 9007199254740992, Height := 9007199254740992 },
          none)
    ∧ min (9007199254740993 : Int) 9007199254740993 ≠ 9007199254740992 := by
  refine ⟨by decide!, by decide⟩

/-! ## `ParseFloat` accepts no separator -/

theorem notSeparator_digit (c : Char) (h : '0' ≤ c ∧ c ≤ '9') : notSeparator c := by
  constructor <;>
  · rintro rfl
    revert h
    decide

theorem notSeparator_lower (c : Char) (k : Nat) (h : lowerByte c = k) (hk : 97 ≤ k) :
    notSeparator c := by
  constructor <;>
  · rintro rfl
    have : lowerByte ',' = 44 ∧ lowerByte ':' = 58 := by decide
    omega

theorem commonPrefixLen_full (s : List Char) :
    ∀ pre : List Char, (∀ p ∈ pre, p.toNat ≠ 44 ∧ p.toNat ≠ 58) →
      s.length ≤ commonPrefixLenIgnoreCase s pre → ∀ c ∈ s, notSeparator c := by
  induction s with
  | nil => intro _ _ _ c hc; simp at hc
  | cons d ds ih =>
    intro pre hpre hlen c hc
    cases pre with
    | nil => simp [commonPrefixLenIgnoreCase] at hlen
    | cons p ps =>
      unfold commonPrefixLenIgnoreCase at hlen
      by_cases hm : (if 'A' ≤ d ∧ d ≤ 'Z' then d.toNat + 32 else d.toNat) ≠ p.toNat
      · rw [if_pos hm] at hlen
        simp at hlen
      · rw [if_neg hm] at hlen
        rcases List.mem_cons.mp hc with rfl | hc'
        · have hp := hpre p (by simp)
          have hm' : (if 'A' ≤ c ∧ c ≤ 'Z' then c.toNat + 32 else c.toNat) = p.toNat :=
            not_not.mp hm
          constructor <;>
          · rintro rfl
            revert hm'
            simp only [show ¬ ('A' ≤ ',' ∧ ',' ≤ 'Z') by decide,
              show ¬ ('A' ≤ ':' ∧ ':' ≤ 'Z') by decide, if_false]
            intro hm'
            have : (',' : Char).toNat = 44 ∧ (':' : Char).toNat = 58 := by decide
            omega
        · exact ih ps (fun q hq => hpre q (by simp [hq])) (by simpa using hlen) c hc'

theorem readMantissa_consumes (hex : Bool) (s : List Char) :
    ∀ st : Mantissa, ∃ pre, s = pre ++ (readMantissa hex s st).2 ∧
      ∀ c ∈ pre, notSeparator c := by
  induction s with
  | nil => intro st; exact ⟨[], rfl, by simp⟩
  | cons d ds ih =>
    intro st
    unfold readMantissa
    by_cases h1 : d = '_'
    · rw [if_pos h1]
      obtain ⟨pre, e, hp⟩ := ih { st with underscores := true }
      refine ⟨d :: pre, by rw [List.cons_append, ← e], ?_⟩
      intro c hc
      rcases List.mem_cons.mp hc with rfl | hc
      · subst h1; exact ⟨by decide, by decide⟩
      · exact hp c hc
    · rw [if_neg h1]
      by_cases h2 : d = '.'
      · rw [if_pos h2]
        by_cases h3 : st.sawdot = true
        · rw [if_pos h3]
          exact ⟨[], rfl, by simp⟩
        · rw [if_neg h3]
          obtain ⟨pre, e, hp⟩ := ih { st with sawdot := true }
          refine ⟨d :: pre, by rw [List.cons_append, ← e], ?_⟩
          intro c hc
          rcases List.mem_cons.mp hc with rfl | hc
          · subst h2; exact ⟨by decide, by decide⟩
          · exact hp c hc
      · rw [if_neg h2]
        by_cases h3 : '0' ≤ d ∧ d ≤ '9'
        · rw [if_pos h3]
          obtain ⟨pre, e, hp⟩ := ih
            { st with sawdigits := true,
                      mant := st.mant * (if hex then 16 else 10) + (d.toNat - 48),
                      frac := if st.sawdot then st.frac + 1 else st.frac }
          refine ⟨d :: pre, by rw [List.cons_append, ← e], ?_⟩
          intro c hc
          rcases List.mem_cons.mp hc with rfl | hc
          · exact notSeparator_digit _ h3
          · exact hp c hc
        · rw [if_neg h3]
          by_cases h4 : hex = true ∧ 97 ≤ lowerByte d ∧ lowerByte d ≤ 102
          · rw [if_pos h4]
            obtain ⟨pre, e, hp⟩ := ih
              { st with sawdigits := true,
                        mant := st.mant * 16 + (lowerByte d - 97 + 10),
                        frac := if st.sawdot then st.frac + 1 else st.frac }
            refine ⟨d :: pre, by rw [List.cons_append, ← e], ?_⟩
            intro c hc
            rcases List.mem_cons.mp hc with rfl | hc
            · exact notSeparator_lower _ _ rfl h4.2.1
            · exact hp c hc
          · rw [if_neg h4]
            exact ⟨[], rfl, by simp⟩

theorem readExponent_consumes (s : List Char) :
    ∀ (e : Nat) (u : Bool), ∃ pre, s = pre ++ (readExponent s e u).2 ∧
      ∀ c ∈ pre, notSeparator c := by
  induction s with
  | nil => intro e u; exact ⟨[], rfl, by simp⟩
  | cons d ds ih =>
    intro e u
    unfold readExponent
    by_cases h1 : d = '_'
    · rw [if_pos h1]
      obtain ⟨pre, he, hp⟩ := ih e true
      refine ⟨d :: pre, by rw [List.cons_append, ← he], ?_⟩
      intro c hc
      rcases List.mem_cons.mp hc with rfl | hc
      · subst h1; exact ⟨by decide, by decide⟩
      · exact hp c hc
    · rw [if_neg h1]
      by_cases h3 : '0' ≤ d ∧ d ≤ '9'
      · rw [if_pos h3]
        obtain ⟨pre, he, hp⟩ := ih (if e < 10000 then e * 10 + (d.toNat - 48) else e) u
        refine ⟨d :: pre, by rw [List.cons_append, ← he], ?_⟩
        intro c hc
        rcases List.mem_cons.mp hc with rfl | hc
        · exact notSeparator_digit _ h3
        · exact hp c hc
      · rw [if_neg h3]
        exact ⟨[], rfl, by simp⟩

theorem strip_sign_consumes (s : List Char) :
    ∃ sg, s = sg ++ (if s.head? = some '+' ∨ s.head? = some '-' then s.tail else s) ∧
      ∀ c ∈ sg, notSeparator c := by
  by_cases h : s.head? = some '+' ∨ s.head? = some '-'
  · rw [if_pos h]
    cases s with
    | nil => simp at h
    | cons d ds =>
      refine ⟨[d], rfl, ?_⟩
      intro c hc
      have hd : d = '+' ∨ d = '-' := by simpa using h
      have hcd : c = d := by simpa using hc
      subst hcd
      rcases hd with e | e <;> subst e <;> exact ⟨by decide, by decide⟩
  · rw [if_neg h]
    exact ⟨[], rfl, by simp⟩

theorem hex_mark_consumes (s1 : List Char) (hex : Bool)
    (hhex : (match s1 with
      | c0 :: c1 :: _ :: _ => decide (c0 = '0' ∧ lowerByte c1 = 120)
      | _ => false) = hex) :
    ∃ hp, s1 = hp ++ (if hex = true then List.drop 2 s1 else s1) ∧
      ∀ c ∈ hp, notSeparator c := by
  cases hex with
  | false => exact ⟨[], rfl, by simp⟩
  | true =>
    match s1, hhex with
    | c0 :: c1 :: c2 :: rest, hhex =>
      have h : c0 = '0' ∧ lowerByte c1 = 120 := by simpa using hhex
      refine ⟨[c0, c1], rfl, ?_⟩
      intro c hc
      rcases List.mem_cons.mp hc with e | hc
      · rw [e, h.1]; exact ⟨by decide, by decide⟩
      · have hcd : c = c1 := by simpa using hc
        rw [hcd]
        exact notSeparator_lower _ _ h.2 (by decide)
    | [], hhex => exact absurd hhex (by simp)
    | [_], hhex => exact absurd hhex (by simp)
    | [_, _], hhex => exact absurd hhex (by simp)

/-- Everything `readFloat` reads before the rest it leaves is free of the
separators `,` and `:`. -/
theorem readFloat_consumes (s : List Char) (r : ReadFloat) (h : readFloat s = some r) :
    ∃ pre, s = pre ++ r.rest ∧ ∀ c ∈ pre, notSeparator c := by
  unfold readFloat at h
  by_cases hs : s = []
  · rw [if_pos hs] at h; exact absurd h (by simp)
  rw [if_neg hs] at h
  dsimp only at h
  obtain ⟨sg, hsg, psg⟩ := strip_sign_consumes s
  generalize hs1 : (if s.head? = some '+' ∨ s.head? = some '-' then s.tail else s) = s1
    at h hsg
  generalize hhex : (match s1 with
      | c0 :: c1 :: _ :: _ => decide (c0 = '0' ∧ lowerByte c1 = 120)
      | _ => false) = hex at h
  obtain ⟨hp, hhp, php⟩ := hex_mark_consumes s1 hex hhex
  obtain ⟨pm, hpm, ppm⟩ := readMantissa_consumes hex (if hex = true then List.drop 2 s1 else s1)
      { sawdot := false, sawdigits := false, underscores := false, mant := 0, frac := 0 }
  generalize hm : readMantissa hex (if hex = true then List.drop 2 s1 else s1)
      { sawdot := false, sawdigits := false, underscores := false, mant := 0, frac := 0 } = m
      at h hpm
  have hall : s = (sg ++ hp ++ pm) ++ m.2 := by
    rw [List.append_assoc, List.append_assoc, ← hpm, ← hhp, ← hsg]
  have pall : ∀ c ∈ sg ++ hp ++ pm, notSeparator c := by
    intro c hc
    rcases List.mem_append.mp hc with hc | hc
    · rcases List.mem_append.mp hc with hc | hc
      · exact psg c hc
      · exact php c hc
    · exact ppm c hc
  by_cases hd : (!m.1.sawdigits) = true
  · rw [if_pos hd] at h; exact absurd h (by simp)
  rw [if_neg hd] at h
  rcases hm2 : m.2 with _ | ⟨c, s4⟩
  · rw [hm2] at h hall
    dsimp only at h
    by_cases hx : hex = true
    · rw [if_pos hx] at h; exact absurd h (by simp)
    rw [if_neg hx] at h
    split at h
    · exact absurd h (by simp)
    · have hr : r.rest = [] := by
        have := Option.some.inj h
        rw [← this]
      rw [hr]
      exact ⟨_, hall, pall⟩
  · rw [hm2] at h hall
    dsimp only at h
    by_cases he : lowerByte c = if hex = true then 112 else 101
    · rw [if_pos he] at h
      have hc : notSeparator c := by
        apply notSeparator_lower c _ he
        cases hex <;> decide
      obtain ⟨sg2, hsg2, psg2⟩ := strip_sign_consumes s4
      generalize hs5 : (if s4.head? = some '+' ∨ s4.head? = some '-' then s4.tail else s4) = s5
        at h hsg2
      obtain ⟨pe, hpe, ppe⟩ := readExponent_consumes s5 0 false
      rcases s5 with _ | ⟨d, s6⟩
      · exact absurd h (by simp)
      · dsimp only at h
        split at h
        · split at h
          · exact absurd h (by simp)
          · have hr : r.rest = (readExponent (d :: s6) 0 false).2 := by
              have := Option.some.inj h
              rw [← this]
            rw [hr]
            generalize (readExponent (d :: s6) 0 false).2 = rest at hpe
            refine ⟨(sg ++ hp ++ pm) ++ c :: (sg2 ++ pe), ?_, ?_⟩
            · rw [hall, hsg2, hpe]
              simp
            · intro x hx
              rcases List.mem_append.mp hx with hx | hx
              · exact pall x hx
              · rcases List.mem_cons.mp hx with hx | hx
                · rw [hx]; exact hc
                · rcases List.mem_append.mp hx with hx | hx
                  · exact psg2 x hx
                  · exact ppe x hx
        · exact absurd h (by simp)
    · rw [if_neg he] at h
      by_cases hx : hex = true
      · rw [if_pos hx] at h; exact absurd h (by simp)
      rw [if_neg hx] at h
      split at h
      · exact absurd h (by simp)
      · have hr : r.rest = c :: s4 := by
          have := Option.some.inj h
          rw [← this]
        rw [hr]
        exact ⟨_, hall, pall⟩

theorem infinity_chars : ∀ p ∈ "infinity".toList, p.toNat ≠ 44 ∧ p.toNat ≠ 58 := by decide

theorem nan_chars : ∀ p ∈ "nan".toList, p.toNat ≠ 44 ∧ p.toNat ≠ 58 := by decide

theorem special_consumes (s : List Char) (f : F64) (n : Nat) (h : special s = some (f, n))
    (hn : n = s.length) : ∀ c ∈ s, notSeparator c := by
  cases s with
  | nil => intro c hc; simp at hc
  | cons d rest =>
    unfold special at h
    dsimp only at h
    by_cases h1 : d = '+' ∨ d = '-'
    · rw [if_pos h1] at h
      generalize hk : commonPrefixLenIgnoreCase rest "infinity".toList = k at h
      generalize hk' : (if 3 < k ∧ k < 8 then 3 else k) = k' at h
      have hle : k' ≤ k := by
        rw [← hk']; split <;> omega
      by_cases hc : k' = 3 ∨ k' = 8
      · rw [if_pos hc] at h
        have e := (Prod.mk.inj (Option.some.inj h)).2
        have hlen : rest.length ≤ commonPrefixLenIgnoreCase rest "infinity".toList := by
          rw [← e] at hn
          simp only [List.length_cons] at hn
          omega
        intro c hc
        rcases List.mem_cons.mp hc with rfl | hc
        · rcases h1 with e1 | e1 <;> subst e1 <;> exact ⟨by decide, by decide⟩
        · exact commonPrefixLen_full rest _ infinity_chars hlen c hc
      · rw [if_neg hc] at h
        exact absurd h (by simp)
    · rw [if_neg h1] at h
      by_cases h2 : d = 'i' ∨ d = 'I'
      · rw [if_pos h2] at h
        generalize hk : commonPrefixLenIgnoreCase (d :: rest) "infinity".toList = k at h
        generalize hk' : (if 3 < k ∧ k < 8 then 3 else k) = k' at h
        have hle : k' ≤ k := by
          rw [← hk']; split <;> omega
        by_cases hc : k' = 3 ∨ k' = 8
        · rw [if_pos hc] at h
          have e := (Prod.mk.inj (Option.some.inj h)).2
          have hlen : (d :: rest).length
              ≤ commonPrefixLenIgnoreCase (d :: rest) "infinity".toList := by
            rw [← e] at hn
            omega
          exact commonPrefixLen_full _ _ infinity_chars hlen
        · rw [if_neg hc] at h
          exact absurd h (by simp)
      · rw [if_neg h2] at h
        by_cases h3 : d = 'n' ∨ d = 'N'
        · rw [if_pos h3] at h
          by_cases h4 : commonPrefixLenIgnoreCase (d :: rest) "nan".toList = 3
          · rw [if_pos h4] at h
            have e := (Prod.mk.inj (Option.some.inj h)).2
            have hlen : (d :: rest).length
                ≤ commonPrefixLenIgnoreCase (d :: rest) "nan".toList := by
              rw [← e] at hn
              omega
            exact commonPrefixLen_full _ _ nan_chars hlen
          · rw [if_neg h4] at h
            exact absurd h (by simp)
        · rw [if_neg h3] at h
          exact absurd h (by simp)

/-- A string that `ParseFloat` accepts contains neither `,` nor `:`. -/
theorem ParseFloat_ok_not_mem (s : List Char) (h : (ParseFloat s).2 = none) :
    ',' ∉ s ∧ ':' ∉ s := by
  have key : ∀ c ∈ s, notSeparator c := by
    unfold ParseFloat at h
    split at h
    · rename_i f n hsp
      by_cases hn : n = s.length
      · exact special_consumes s f n hsp hn
      · rw [if_neg hn] at h
        exact absurd h (by simp)
    · split at h
      · exact absurd h (by simp)
      · rename_i r hr
        by_cases hrest : r.rest ≠ []
        · rw [if_pos hrest] at h
          exact absurd h (by simp)
        · obtain ⟨pre, hpre, ppre⟩ := readFloat_consumes s r hr
          rw [not_not.mp hrest, List.append_nil] at hpre
          rw [hpre]
          exact ppre
  exact ⟨fun hm => (key _ hm).1 rfl, fun hm => (key _ hm).2 rfl⟩

/-! ## Percentage regions -/

theorem truncate_some (f : F64) (z : Int) (h : f.truncate = some z) :
    f.toInt = z ∧ inInt64 z := by
  refine ⟨by unfold F64.toInt; rw [h]; rfl, ?_⟩
  cases f with
  | nan => exact absurd h (by simp [F64.truncate])
  | inf s => exact absurd h (by simp [F64.truncate])
  | fin s m =>
    unfold F64.truncate at h
    dsimp only at h
    generalize (if s = true then -((m / 2 ^ 1074 : Nat) : Int) else ((m / 2 ^ 1074 : Nat) : Int))
      = v at h
    by_cases hin : inInt64 v
    · rw [if_pos hin] at h
      rw [← Option.some.inj h]
      exact hin
    · rw [if_neg hin] at h
      exact absurd h (by simp)

/-- The percentage branch of `RegionInstructions`, once the region is known to
split into `pct` and four tokens that `ParseFloat` accepts. -/
theorem RegionInstructions_pct {σ : Type} (t : Transformation σ) (im : Image)
    (rest a b c d : List Char)
    (hdim : im.Dimensions.2 = none)
    (hsq : t.Region ≠ "square")
    (hcolon : stringsSplit ':' t.Region.toList = ["pct".toList, rest])
    (hcomma : stringsSplit ',' rest = [a, b, c, d])
    (hx : (ParseFloat a).2 = none) (hy : (ParseFloat b).2 = none)
    (hw : (ParseFloat c).2 = none) (hh : (ParseFloat d).2 = none) :
    t.RegionInstructions im =
      (some
        { X := (F64.Ceil (F64.div (F64.mul (F64.ofInt im.Dimensions.1.Width) (ParseFloat a).1)
                  F64.hundred)).toInt,
          Y := (F64.Ceil (F64.div (F64.mul (F64.ofInt im.Dimensions.1.Height) (ParseFloat b).1)
                  F64.hundred)).toInt,
          Width :=
            if goAdd
                (F64.Ceil (F64.div (F64.mul (F64.ofInt im.Dimensions.1.Width) (ParseFloat a).1)
                  F64.hundred)).toInt
                (F64.Ceil (F64.div (F64.mul (F64.ofInt im.Dimensions.1.Width) (ParseFloat c).1)
                  F64.hundred)).toInt > im.Dimensions.1.Width
            then goSub im.Dimensions.1.Width
                (F64.Ceil (F64.div (F64.mul (F64.ofInt im.Dimensions.1.Width) (ParseFloat a).1)
                  F64.hundred)).toInt
            else (F64.Ceil (F64.div (F64.mul (F64.ofInt im.Dimensions.1.Width) (ParseFloat c).1)
                  F64.hundred)).toInt,
          Height :=
            if goAdd
                (F64.Ceil (F64.div (F64.mul (F64.ofInt im.Dimensions.1.Height) (ParseFloat b).1)
                  F64.hundred)).toInt
                (F64.Ceil (F64.div (F64.mul (F64.ofInt im.Dimensions.1.Height) (ParseFloat d).1)
                  F64.hundred)).toInt > im.Dimensions.1.Height
            then goSub im.Dimensions.1.Height
                (F64.Ceil (F64.div (F64.mul (F64.ofInt im.Dimensions.1.Height) (ParseFloat b).1)
                  F64.hundred)).toInt
            else (F64.Ceil (F64.div (F64.mul (F64.ofInt im.Dimensions.1.Height) (ParseFloat d).1)
                  F64.hundred)).toInt }, none) := by
  unfold Transformation.RegionInstructions
  rw [if_neg (by rw [hdim]; exact fun h => h rfl)]
  dsimp only
  rw [if_neg hsq, hcolon, if_neg (by simp), if_pos (by rfl)]
  have e1 : ["pct".toList, rest].getD 1 [] = rest := rfl
  rw [e1, hcomma, if_neg (by simp)]
  have g0 : [a, b, c, d].getD 0 [] = a := rfl
  have g1 : [a, b, c, d].getD 1 [] = b := rfl
  have g2 : [a, b, c, d].getD 2 [] = c := rfl
  have g3 : [a, b, c, d].getD 3 [] = d := rfl
  rw [g0, g1, g2, g3]
  rw [if_neg (by rw [hx]; exact fun h => h rfl), if_neg (by rw [hy]; exact fun h => h rfl),
    if_neg (by rw [hw]; exact fun h => h rfl), if_neg (by rw [hh]; exact fun h => h rfl)]
  generalize (F64.Ceil (F64.div (F64.mul (F64.ofInt im.Dimensions.1.Width) (ParseFloat a).1)
      F64.hundred)).toInt = x
  generalize (F64.Ceil (F64.div (F64.mul (F64.ofInt im.Dimensions.1.Height) (ParseFloat b).1)
      F64.hundred)).toInt = y
  generalize (F64.Ceil (F64.div (F64.mul (F64.ofInt im.Dimensions.1.Width) (ParseFloat c).1)
      F64.hundred)).toInt = w
  generalize (F64.Ceil (F64.div (F64.mul (F64.ofInt im.Dimensions.1.Height) (ParseFloat d).1)
      F64.hundred)).toInt = h
  by_cases h1 : goAdd x w > im.Dimensions.1.Width <;>
  by_cases h2 : goAdd y h > im.Dimensions.1.Height <;>
  simp [h1, h2]

theorem toList_pct (a b c d : String) :
    ("pct:" ++ a ++ "," ++ b ++ "," ++ c ++ "," ++ d).toList
      = "pct".toList ++ ':' ::
          (a.toList ++ ',' :: (b.toList ++ ',' :: (c.toList ++ ',' :: d.toList))) := by
  simp [String.toList, String.data_append]

theorem not_colon_square : ':' ∉ "square".toList := by decide

/-- C6 fails as stated: for region
`pct:461168601842738790400,0,461168601842738790400,0` on a 1x1 image the values
are `x = w = 2^62` exactly; `x + w` exceeds the width, yet the 64-bit sum wraps
to a negative number, no clamp is applied, and Width stays `2^62` instead of
`W - x`. -/
theorem C6_counterexample_overflow :
    (request "pct:461168601842738790400,0,461168601842738790400,0" "full").RegionInstructions
        (imageOfSize 1 1)
      = (some { X := 4611686018427387904, Y := 0, Width := 4611686018427387904,
                Height := 0 }, none)
    ∧ (4611686018427387904 : Int) + 4611686018427387904 > 1
    ∧ (4611686018427387904 : Int) ≠ 1 - 4611686018427387904 := by
  refine ⟨by decide!, by decide, by decide⟩

/-- Rounding in the percentage branch: for region `pct:0.07,0,100,100` on a
10000x10000 image the product `10000 * 0.07` is rounded up to the next
`float64` above 700, so `X` is `8` although `10000 * 0.07 / 100 = 7`. -/
theorem RegionInstructions_pct_rounding :
    (request "pct:0.07,0,100,100" "full").RegionInstructions (imageOfSize 10000 10000)
      = (some { X := 8, Y := 0, Width := 9992, Height := 10000 }, none)
    ∧ ⌈(10000 * (7 / 100 : ℚ) / 100)⌉ = 7 := by
  refine ⟨by decide!, ?_⟩
  norm_num

/-! ## `float64`: operations that do not round -/

theorem Char_toNat_le (c d : Char) (h : c ≤ d) : c.toNat ≤ d.toNat := h

/-- Rounding leaves `a / b` alone when its value is `v * 2^j / 2^1074` with
`v < 2^53`. -/
theorem roundMag_exact_gen (a b v j : Nat) (hb : 0 < b) (hv : v < 2 ^ 53)
    (hab : a * 2 ^ 1074 = v * 2 ^ j * b) : roundMag a b = v * 2 ^ j := by
  have hq : a * 2 ^ 1074 / b = v * 2 ^ j := by
    rw [hab]; exact Nat.mul_div_cancel _ hb
  have hlt : v * 2 ^ j < 2 ^ (53 + j) := by
    rw [Nat.pow_add]
    exact Nat.mul_lt_mul_of_pos_right hv (two_pow_pos j)
  have hbl := bitLength_le _ _ hlt
  have hdvd : 2 ^ (bitLength (v * 2 ^ j) - 53) ∣ v * 2 ^ j :=
    Dvd.dvd.mul_left (two_pow_dvd _ j (by omega)) v
  unfold roundMag
  dsimp only
  rw [hq]
  generalize bitLength (v * 2 ^ j) - 53 = sh at hdvd ⊢
  obtain ⟨w, hw⟩ := hdvd
  have hpos : 0 < b * 2 ^ sh := Nat.mul_pos hb (two_pow_pos sh)
  have hn : a * 2 ^ 1074 = w * (b * 2 ^ sh) := by
    rw [hab, hw]
    ring
  rw [hn, Nat.mul_mod_left, Nat.mul_div_cancel _ hpos, Nat.mul_zero, if_pos hpos, Nat.add_zero,
    hw]
  ring

/-- The core of rounding a quotient by 100: with `q = 100 * hi + r` lying
between `100 * A + 64` and `100 * B`, the rounded quotient lies in `(A, B]`. -/
theorem round_core (q hi r A B up : Nat) (h1 : q = 100 * hi + r) (hr : r < 100)
    (hA : 100 * A + 64 ≤ q) (hB : q ≤ 100 * B)
    (hup : up = if 2 * r < 100 then 0 else if 100 < 2 * r then 1 else hi % 2) :
    A < hi + up ∧ hi + up ≤ B := by
  by_cases c1 : 2 * r < 100
  · rw [if_pos c1] at hup; omega
  · rw [if_neg c1] at hup
    by_cases c2 : 100 < 2 * r
    · rw [if_pos c2] at hup; omega
    · rw [if_neg c2] at hup; omega

/-- The ceiling `c` of `n / d` as a natural number: `(c - 1) * d < n ≤ c * d`. -/
theorem ceil_bounds (n d : Nat) (hd : 0 < d) (hn : 0 < n) :
    1 ≤ (n + (d - 1)) / d ∧ ((n + (d - 1)) / d - 1) * d < n ∧ n ≤ (n + (d - 1)) / d * d := by
  have h := Nat.div_add_mod (n + (d - 1)) d
  have hr := Nat.mod_lt (n + (d - 1)) hd
  generalize (n + (d - 1)) / d = c at h ⊢
  generalize (n + (d - 1)) % d = r at h hr
  have hc : 1 ≤ c := by
    rcases Nat.eq_zero_or_pos c with e | e
    · rw [e] at h; omega
    · exact e
  obtain ⟨c', rfl⟩ : ∃ c', c = c' + 1 := ⟨c - 1, by omega⟩
  have e1 : d * (c' + 1) = d * c' + d := by ring
  have e2 : (c' + 1 - 1) * d = d * c' := by rw [Nat.add_sub_cancel]; ring
  have e3 : (c' + 1) * d = d * c' + d := by ring
  rw [e2, e3]
  rw [e1] at h
  omega

/-- Rounding `n * E * S / (100 * S)` to a multiple of `S`, in a form free of
powers: the result lies in `((c - 1) * T, c * T]` for `c` the ceiling of
`n / (100 * M)` and `T = S * E * M`. -/
theorem round_hundred_aux (n T U M S E : Nat) (hT : T = U * M) (hU : U = S * E)
    (hE : 64 ≤ E) (hS : 0 < S) (hM : 0 < M) (hn : 0 < n) :
    ((n + (100 * M - 1)) / (100 * M) - 1) * T
        < (n * E / 100 +
            (if 2 * (n * E % 100) < 100 then 0
             else if 100 < 2 * (n * E % 100) then 1 else n * E / 100 % 2)) * S ∧
    (n * E / 100 +
        (if 2 * (n * E % 100) < 100 then 0
         else if 100 < 2 * (n * E % 100) then 1 else n * E / 100 % 2)) * S
      ≤ (n + (100 * M - 1)) / (100 * M) * T := by
  obtain ⟨hc1, hlo, hhi⟩ := ceil_bounds n (100 * M) (by omega) hn
  generalize (n + (100 * M - 1)) / (100 * M) = c at hc1 hlo hhi ⊢
  have hA : 100 * ((c - 1) * M * E) + 64 ≤ n * E := by
    have h1 : ((c - 1) * (100 * M) + 1) * E ≤ n * E := Nat.mul_le_mul_right E hlo
    have h2 : ((c - 1) * (100 * M) + 1) * E = 100 * ((c - 1) * M * E) + E := by ring
    omega
  have hB : n * E ≤ 100 * (c * M * E) := by
    have h1 : n * E ≤ c * (100 * M) * E := Nat.mul_le_mul_right E hhi
    have h2 : c * (100 * M) * E = 100 * (c * M * E) := by ring
    omega
  have hdm := Nat.div_add_mod (n * E) 100
  have hcore := round_core (n * E) (n * E / 100) (n * E % 100) ((c - 1) * M * E) (c * M * E)
    _ hdm.symm (Nat.mod_lt _ (by decide)) hA hB rfl
  have e1 : (c - 1) * T = (c - 1) * M * E * S := by rw [hT, hU]; ring
  have e3 : c * T = c * M * E * S := by rw [hT, hU]; ring
  rw [e1, e3]
  exact ⟨Nat.mul_lt_mul_of_pos_right hcore.1 hS, Nat.mul_le_mul_right S hcore.2⟩

/-- The quotient of `n * 2^u / 2^1074` by `100.`, rounded: it lies in
`((c - 1), c]` for `c` the ceiling of `n / (100 * 2^(1074 - u))`. -/
theorem roundMag_div_hundred (n u : Nat) (hn : n < 2 ^ 53) (hn0 : 0 < n) (hu6 : 6 ≤ u)
    (hu : u ≤ 1074) :
    ((n + (100 * 2 ^ (1074 - u) - 1)) / (100 * 2 ^ (1074 - u)) - 1) * 2 ^ 1074
        < roundMag (n * 2 ^ u) (100 * 2 ^ 1074) ∧
    roundMag (n * 2 ^ u) (100 * 2 ^ 1074)
      ≤ (n + (100 * 2 ^ (1074 - u) - 1)) / (100 * 2 ^ (1074 - u)) * 2 ^ 1074 := by
  have hTpos : 0 < 2 ^ 1074 := two_pow_pos 1074
  have hquot : n * 2 ^ u * 2 ^ 1074 / (100 * 2 ^ 1074) = n * 2 ^ u / 100 :=
    Nat.mul_div_mul_right _ _ hTpos
  have hlt : n * 2 ^ u / 100 < 2 ^ (47 + u) := by
    rw [Nat.div_lt_iff_lt_mul (by decide)]
    have h1 : n * 2 ^ u < 2 ^ 53 * 2 ^ u := Nat.mul_lt_mul_of_pos_right hn (two_pow_pos u)
    have h2 : (2:Nat) ^ 53 * 2 ^ u = 2 ^ (47 + u) * 64 := by
      rw [Nat.pow_add 2 47 u]
      have : (2:Nat) ^ 53 = 2 ^ 47 * 64 := by norm_num
      rw [this]; ring
    have h3 : 2 ^ (47 + u) * 64 ≤ 2 ^ (47 + u) * 100 := Nat.mul_le_mul_left _ (by decide)
    omega
  have hbl := bitLength_le _ _ hlt
  unfold roundMag
  dsimp only
  rw [hquot]
  have hsh : bitLength (n * 2 ^ u / 100) - 53 + 6 ≤ u := by omega
  generalize bitLength (n * 2 ^ u / 100) - 53 = sh at hsh ⊢
  have hU : 2 ^ u = 2 ^ sh * 2 ^ (u - sh) := (two_pow_add sh (u - sh) u (by omega)).symm
  have hT : 2 ^ 1074 = 2 ^ u * 2 ^ (1074 - u) := (two_pow_add u (1074 - u) 1074 (by omega)).symm
  have hE : 64 ≤ 2 ^ (u - sh) := by
    have : (2:Nat) ^ 6 ≤ 2 ^ (u - sh) := Nat.pow_le_pow_right (by decide) (by omega)
    have e : (2:Nat) ^ 6 = 64 := by norm_num
    omega
  have hS := two_pow_pos sh
  have hM := two_pow_pos (1074 - u)
  generalize (2:Nat) ^ 1074 = T at hT hTpos ⊢
  generalize (2:Nat) ^ (1074 - u) = M at hT hM ⊢
  generalize (2:Nat) ^ u = U at hU hT ⊢
  generalize (2:Nat) ^ (u - sh) = E at hU hE
  generalize (2:Nat) ^ sh = S at hU hS ⊢
  have hG : 0 < T * S := Nat.mul_pos hTpos hS
  have en : n * U * T = n * E * (T * S) := by rw [hU]; ring
  have ed : 100 * T * S = 100 * (T * S) := by ring
  rw [en, ed, Nat.mul_div_mul_right _ _ hG, Nat.mul_mod_mul_right]
  have e2 : 2 * (n * E % 100 * (T * S)) = 2 * (n * E % 100) * (T * S) := by ring
  have c1 : (2 * (n * E % 100 * (T * S)) < 100 * (T * S)) ↔ (2 * (n * E % 100) < 100) := by
    rw [e2]
    exact Nat.mul_lt_mul_right hG
  have c2 : (100 * (T * S) < 2 * (n * E % 100 * (T * S))) ↔ (100 < 2 * (n * E % 100)) := by
    rw [e2]
    exact Nat.mul_lt_mul_right hG
  simp only [c1, c2]
  exact round_hundred_aux n T U M S E hT hU hE hS hM hn0

/-- `int(math.Ceil(x / 100.))` for `x = n * 2^u / 2^1074` with `n < 2^53` and
`6 ≤ u ≤ 1074`: the exact ceiling of `x / 100`. -/
theorem ceil_div_hundred (n u : Nat) (hn : n < 2 ^ 53) (hu6 : 6 ≤ u) (hu : u ≤ 1074) :
    (F64.Ceil (F64.div (F64.fin false (n * 2 ^ u)) F64.hundred)).toInt
      = (((n + (100 * 2 ^ (1074 - u) - 1)) / (100 * 2 ^ (1074 - u)) : Nat) : Int) := by
  have hTpos : 0 < 2 ^ 1074 := two_pow_pos 1074
  have hMpos : 0 < 2 ^ (1074 - u) := two_pow_pos _
  have hb : ¬ (100 * 2 ^ 1074 = 0) := by omega
  have hR : ∃ R, roundMag (n * 2 ^ u) (100 * 2 ^ 1074) = R ∧
      (R + (2 ^ 1074 - 1)) / 2 ^ 1074 = (n + (100 * 2 ^ (1074 - u) - 1)) / (100 * 2 ^ (1074 - u))
      ∧ R ≤ n * 2 ^ 1074 := by
    rcases Nat.eq_zero_or_pos n with h0 | h0
    · refine ⟨0, ?_, ?_, Nat.zero_le _⟩
      · rw [h0, Nat.zero_mul]
        have := roundMag_exact_gen 0 (100 * 2 ^ 1074) 0 0 (by omega) (two_pow_pos 53)
          (by rw [Nat.zero_mul, Nat.zero_mul, Nat.zero_mul])
        rw [this, Nat.zero_mul]
      · rw [h0, Nat.zero_add, Nat.zero_add,
          Nat.div_eq_of_lt (by omega), Nat.div_eq_of_lt (by omega)]
    · obtain ⟨hlo, hhi⟩ := roundMag_div_hundred n u hn h0 hu6 hu
      obtain ⟨hc1, hclo, _⟩ := ceil_bounds n (100 * 2 ^ (1074 - u)) (by omega) h0
      refine ⟨_, rfl, ?_, ?_⟩
      · generalize roundMag (n * 2 ^ u) (100 * 2 ^ 1074) = R at hlo hhi
        generalize (n + (100 * 2 ^ (1074 - u) - 1)) / (100 * 2 ^ (1074 - u)) = c
          at hlo hhi hc1
        generalize (2:Nat) ^ 1074 = T at hlo hhi hTpos ⊢
        obtain ⟨c', rfl⟩ : ∃ c', c = c' + 1 := ⟨c - 1, by omega⟩
        rw [Nat.add_sub_cancel] at hlo
        apply Nat.div_eq_of_lt_le
        · have : (c' + 1) * T = c' * T + T := by ring
          omega
        · have : (c' + 1 + 1) * T = (c' + 1) * T + T := by ring
          omega
      · have hcn : (n + (100 * 2 ^ (1074 - u) - 1)) / (100 * 2 ^ (1074 - u)) ≤ n := by
          generalize (n + (100 * 2 ^ (1074 - u) - 1)) / (100 * 2 ^ (1074 - u)) = c
            at hclo hc1
          have := Nat.le_mul_of_pos_right (c - 1) (show 0 < 100 * 2 ^ (1074 - u) by omega)
          omega
        exact Nat.le_trans hhi (Nat.mul_le_mul_right _ hcn)
  obtain ⟨R, hR1, hR2, hR3⟩ := hR
  have hfin : ¬ (R ≥ 2 ^ 2098) := by
    have e : (2:Nat) ^ 2098 = 2 ^ 1024 * 2 ^ 1074 := (two_pow_add 1024 1074 2098 (by decide)).symm
    have h1 : n < 2 ^ 1024 := Nat.lt_trans hn (two_pow_lt 53 1024 (by decide))
    have h2 := Nat.mul_lt_mul_of_pos_right h1 hTpos
    rw [e]
    omega
  have hc : (((n + (100 * 2 ^ (1074 - u) - 1)) / (100 * 2 ^ (1074 - u)) : Nat) : Int)
      ≤ 9223372036854775807 := by
    have hle : (n + (100 * 2 ^ (1074 - u) - 1)) / (100 * 2 ^ (1074 - u)) ≤ n + 1 := by
      rcases Nat.eq_zero_or_pos n with h0 | h0
      · rw [h0, Nat.zero_add, Nat.div_eq_of_lt (by omega)]; omega
      · obtain ⟨hc1, hclo, _⟩ := ceil_bounds n (100 * 2 ^ (1074 - u)) (by omega) h0
        generalize (n + (100 * 2 ^ (1074 - u) - 1)) / (100 * 2 ^ (1074 - u)) = c
          at hclo hc1 ⊢
        have := Nat.le_mul_of_pos_right (c - 1) (show 0 < 100 * 2 ^ (1074 - u) by omega)
        omega
    have e : (2:Nat) ^ 53 = 9007199254740992 := by norm_num
    omega
  unfold F64.div F64.hundred
  dsimp only
  rw [if_neg hb]
  unfold F64.round
  rw [hR1, if_neg hfin]
  show (F64.Ceil (F64.fin false R)).toInt = _
  unfold F64.Ceil
  dsimp only
  rw [hR2]
  exact toInt_fin_exact _ hc

/-! ## `ParseFloat` on numbers that `float64` holds exactly -/

/-- A non-zero common prefix with a word starting with `p` means that the text
starts with `p` in lower or upper case. -/
theorem commonPrefixLen_head (s pre : List Char) (p : Char)
    (h : commonPrefixLenIgnoreCase s (p :: pre) ≠ 0) :
    ∃ c tl, s = c :: tl ∧ (c.toNat = p.toNat ∨ c.toNat + 32 = p.toNat) := by
  cases s with
  | nil => exact absurd rfl h
  | cons c tl =>
    refine ⟨c, tl, rfl, ?_⟩
    unfold commonPrefixLenIgnoreCase at h
    by_cases hc : (if 'A' ≤ c ∧ c ≤ 'Z' then c.toNat + 32 else c.toNat) ≠ p.toNat
    · rw [if_pos hc] at h; exact absurd rfl h
    · have e := not_not.mp hc
      by_cases hu : 'A' ≤ c ∧ c ≤ 'Z'
      · rw [if_pos hu] at e; exact Or.inr e
      · rw [if_neg hu] at e; exact Or.inl e

/-- When `special` recognises an infinity or a NaN, the text after an optional
sign starts with one of the letters `i`, `I`, `n`, `N`. -/
theorem special_head (s : List Char) (f : F64) (n : Nat) (h : special s = some (f, n)) :
    ∃ c tl, (if s.head? = some '+' ∨ s.head? = some '-' then s.tail else s) = c :: tl ∧
      (c.toNat = 105 ∨ c.toNat = 73 ∨ c.toNat = 110 ∨ c.toNat = 78) := by
  cases s with
  | nil => exact absurd h (by simp [special])
  | cons d rest =>
    unfold special at h
    dsimp only at h
    by_cases h1 : d = '+' ∨ d = '-'
    · rw [if_pos h1] at h
      have hh : (d :: rest).head? = some '+' ∨ (d :: rest).head? = some '-' := by
        rcases h1 with e | e <;> simp [e]
      rw [if_pos hh]
      generalize hk : commonPrefixLenIgnoreCase rest "infinity".toList = k at h
      generalize hk' : (if 3 < k ∧ k < 8 then 3 else k) = k' at h
      by_cases hc : k' = 3 ∨ k' = 8
      · have hk0 : k ≠ 0 := by
          intro e
          rw [e] at hk'
          simp at hk'
          omega
        rw [← hk] at hk0
        obtain ⟨c, tl, e, hcase⟩ := commonPrefixLen_head rest _ 'i' hk0
        refine ⟨c, tl, e, ?_⟩
        have : ('i' : Char).toNat = 105 := rfl
        omega
      · rw [if_neg hc] at h; exact absurd h (by simp)
    · rw [if_neg h1] at h
      have hh : ¬ ((d :: rest).head? = some '+' ∨ (d :: rest).head? = some '-') := by
        intro e
        apply h1
        simpa using e
      rw [if_neg hh]
      refine ⟨d, rest, rfl, ?_⟩
      by_cases h2 : d = 'i' ∨ d = 'I'
      · rcases h2 with e | e <;> subst e <;> decide
      · rw [if_neg h2] at h
        by_cases h3 : d = 'n' ∨ d = 'N'
        · rcases h3 with e | e <;> subst e <;> decide
        · rw [if_neg h3] at h; exact absurd h (by simp)

/-- `readFloat` finds no digits in a text that starts with a letter. -/
theorem readFloat_letter (s : List Char) (c : Char) (tl : List Char)
    (hs : (if s.head? = some '+' ∨ s.head? = some '-' then s.tail else s) = c :: tl)
    (hc : c.toNat = 105 ∨ c.toNat = 73 ∨ c.toNat = 110 ∨ c.toNat = 78) :
    readFloat s = none := by
  have hne : s ≠ [] := by
    intro e
    rw [e] at hs
    simp at hs
  have c0 : c ≠ '0' := by
    intro e; rw [e] at hc; revert hc; decide
  have c1 : c ≠ '_' := by
    intro e; rw [e] at hc; revert hc; decide
  have c2 : c ≠ '.' := by
    intro e; rw [e] at hc; revert hc; decide
  have c3 : ¬ ('0' ≤ c ∧ c ≤ '9') := by
    intro e
    have := Char_toNat_le _ _ e.2
    have e9 : ('9' : Char).toNat = 57 := rfl
    omega
  unfold readFloat
  rw [if_neg hne]
  dsimp only
  rw [hs]
  have hhex : (match c :: tl with
      | c0 :: c1 :: _ :: _ => decide (c0 = '0' ∧ lowerByte c1 = 120)
      | _ => false) = false := by
    cases tl with
    | nil => rfl
    | cons a tl2 =>
      cases tl2 with
      | nil => rfl
      | cons b tl3 => simp [c0]
  rw [hhex]
  simp only [Bool.false_eq_true, if_false]
  have hm : readMantissa false (c :: tl)
      { sawdot := false, sawdigits := false, underscores := false, mant := 0, frac := 0 }
      = ({ sawdot := false, sawdigits := false, underscores := false, mant := 0, frac := 0 },
          c :: tl) := by
    unfold readMantissa
    rw [if_neg c1, if_neg c2, if_neg c3, if_neg (by simp)]
  rw [hm]
  simp

/-- A text that `readFloat` reads is not an infinity or a NaN. -/
theorem special_none_of_readFloat (s : List Char) (r : ReadFloat) (h : readFloat s = some r) :
    special s = none := by
  cases hsp : special s with
  | none => rfl
  | some p =>
    obtain ⟨f, n⟩ := p
    obtain ⟨c, tl, hs, hc⟩ := special_head s f n hsp
    rw [readFloat_letter s c tl hs hc] at h
    exact absurd h (by simp)

/-! ## `float64`: the error of one rounding -/

theorem bitLengthAux_ge (fuel : Nat) :
    ∀ n, n ≠ 0 → n ≤ fuel → 1 ≤ bitLengthAux fuel n ∧ 2 ^ (bitLengthAux fuel n - 1) ≤ n := by
  induction fuel with
  | zero => intro n hn hf; omega
  | succ f ih =>
    intro n hn hf
    unfold bitLengthAux
    rw [if_neg hn, Nat.add_sub_cancel]
    refine ⟨by omega, ?_⟩
    by_cases h2 : n / 2 = 0
    · rw [h2]
      have : bitLengthAux f 0 = 0 := by
        cases f with
        | zero => rfl
        | succ g => unfold bitLengthAux; rw [if_pos rfl]
      rw [this]
      omega
    · obtain ⟨h1, hle⟩ := ih (n / 2) h2 (by omega)
      obtain ⟨k, hk⟩ : ∃ k, bitLengthAux f (n / 2) = k + 1 := ⟨_, (Nat.sub_add_cancel h1).symm⟩
      rw [hk] at hle ⊢
      rw [Nat.add_sub_cancel] at hle
      rw [Nat.pow_succ]
      omega

/-- A number with `L` binary digits is at least `2^(L-1)`. -/
theorem bitLength_ge (n : Nat) (hn : n ≠ 0) : 2 ^ (bitLength n - 1) ≤ n :=
  (bitLengthAux_ge n n hn (Nat.le_refl n)).2

/-- The error of rounding `a / b`, in units of `2^-1074` and multiplied by `b`:
at most `2^-53` of the value, or at most half a unit. -/
theorem roundMag_error (a b : Nat) (hb : 0 < b) :
    (9007199254740992 * (roundMag a b * b - a * 2 ^ 1074) ≤ a * 2 ^ 1074 ∧
      9007199254740992 * (a * 2 ^ 1074 - roundMag a b * b) ≤ a * 2 ^ 1074) ∨
    (2 * (roundMag a b * b - a * 2 ^ 1074) ≤ b ∧
      2 * (a * 2 ^ 1074 - roundMag a b * b) ≤ b) := by
  unfold roundMag
  dsimp only
  generalize a * 2 ^ 1074 = N
  have hm := Nat.div_mul_le_self N b
  have hL : N / b ≠ 0 → 2 ^ (bitLength (N / b) - 1) ≤ N / b := bitLength_ge (N / b)
  have hL0 : N / b = 0 → bitLength (N / b) = 0 := fun e => by rw [e]; rfl
  generalize bitLength (N / b) = L at hL hL0
  generalize hsh : L - 53 = sh
  have hdpos : 0 < b * 2 ^ sh := Nat.mul_pos hb (two_pow_pos sh)
  have hdm := Nat.div_add_mod N (b * 2 ^ sh)
  have hr := Nat.mod_lt N hdpos
  generalize N / (b * 2 ^ sh) = hi at hdm ⊢
  generalize N % (b * 2 ^ sh) = r at hdm hr ⊢
  generalize hup : (if 2 * r < b * 2 ^ sh then 0 else if b * 2 ^ sh < 2 * r then 1 else hi % 2)
    = up
  have hP : (hi + up) * 2 ^ sh * b = b * 2 ^ sh * hi + up * (b * 2 ^ sh) := by ring
  rw [hP]
  have hkey : 2 * (b * 2 ^ sh * hi + up * (b * 2 ^ sh) - N) ≤ b * 2 ^ sh ∧
      2 * (N - (b * 2 ^ sh * hi + up * (b * 2 ^ sh))) ≤ b * 2 ^ sh := by
    generalize b * 2 ^ sh = d at hdm hr hup hdpos ⊢
    generalize d * hi = z at hdm ⊢
    by_cases c1 : 2 * r < d
    · rw [if_pos c1] at hup
      subst hup
      rw [Nat.zero_mul]
      omega
    · rw [if_neg c1] at hup
      by_cases c2 : d < 2 * r
      · rw [if_pos c2] at hup
        subst hup
        rw [Nat.one_mul]
        omega
      · rw [if_neg c2] at hup
        have hu2 : up = 0 ∨ up = 1 := by omega
        rcases hu2 with e | e
        · rw [e, Nat.zero_mul]; omega
        · rw [e, Nat.one_mul]; omega
  generalize b * 2 ^ sh * hi + up * (b * 2 ^ sh) = x at hkey ⊢
  rcases Nat.eq_zero_or_pos sh with h0 | h0
  · right
    rw [h0, Nat.pow_zero, Nat.mul_one] at hkey
    exact hkey
  · left
    have hL54 : 54 ≤ L := by omega
    have hne : N / b ≠ 0 := fun e => by
      have := hL0 e
      omega
    have h1 := hL hne
    have e1 : L - 1 = sh + 52 := by omega
    rw [e1, Nat.pow_add] at h1
    have h2 : 2 ^ sh * 2 ^ 52 * b ≤ N :=
      Nat.le_trans (Nat.mul_le_mul_right b h1) hm
    have e2 : 2 ^ sh * 2 ^ 52 * b = 4503599627370496 * (b * 2 ^ sh) := by
      have : (2:Nat) ^ 52 = 4503599627370496 := by norm_num
      rw [this]
      ring
    rw [e2] at h2
    generalize b * 2 ^ sh = d at hkey h2
    omega

/-- The error of rounding `a / b`, in units of `2^-1074`: at most `2^-53` of the
value plus half a unit. -/
theorem roundMag_error_rat (a b : Nat) (hb : 0 < b) :
    |(roundMag a b : ℚ) - (a : ℚ) * 2 ^ 1074 / (b : ℚ)|
      ≤ (a : ℚ) * 2 ^ 1074 / (b : ℚ) / 2 ^ 53 + 1 / 2 := by
  have hbq : (0 : ℚ) < (b : ℚ) := by exact_mod_cast hb
  have h := roundMag_error a b hb
  have hN : ((a * 2 ^ 1074 : Nat) : ℚ) = (a : ℚ) * 2 ^ 1074 := by
    rw [Nat.cast_mul, Nat.cast_pow, Nat.cast_ofNat]
  rw [← hN]
  generalize a * 2 ^ 1074 = N at h
  have hx : ((roundMag a b * b : Nat) : ℚ) = (roundMag a b : ℚ) * (b : ℚ) := Nat.cast_mul _ _
  generalize roundMag a b = P at h hx ⊢
  generalize P * b = x at h hx
  have hA : 9007199254740992 * x ≤ 9007199254740992 * N + N + 4503599627370496 * b := by omega
  have hB : 9007199254740992 * N ≤ 9007199254740992 * x + N + 4503599627370496 * b := by omega
  have hAq : (9007199254740992 : ℚ) * (x : ℚ)
      ≤ 9007199254740992 * (N : ℚ) + (N : ℚ) + 4503599627370496 * (b : ℚ) := by exact_mod_cast hA
  have hBq : (9007199254740992 : ℚ) * (N : ℚ)
      ≤ 9007199254740992 * (x : ℚ) + (N : ℚ) + 4503599627370496 * (b : ℚ) := by exact_mod_cast hB
  rw [hx] at hAq hBq
  have e : (P : ℚ) - (N : ℚ) / (b : ℚ) = ((P : ℚ) * (b : ℚ) - (N : ℚ)) / (b : ℚ) := by
    field_simp
  have e2 : ((N : ℚ) / (b : ℚ) / 2 ^ 53 + 1 / 2) * (b : ℚ)
      = (N : ℚ) / 2 ^ 53 + (b : ℚ) / 2 := by
    have hb0 : (b : ℚ) ≠ 0 := ne_of_gt hbq
    rw [add_mul, div_right_comm, div_mul_cancel₀ _ hb0]
    ring
  rw [e, abs_div, abs_of_pos hbq, div_le_iff₀ hbq, e2, abs_le]
  constructor <;> norm_num <;> linarith

/-- Three roundings in a row, in units of `2^-1074`: reading `a / b` (`P`),
multiplying by `W` (`M`) and dividing by 100 (`R`). When `W * (a / b) / 100` is
below `2^49` the three results are finite and `R` is within `2^-50` of the
value, plus `2^-1000`. -/
theorem three_roundings (a b W P M R : Nat) (hb : 0 < b) (hW1 : 1 ≤ W)
    (hW : W ≤ 9007199254740992)
    (hq : (W : ℚ) * ((a : ℚ) / (b : ℚ)) / 100 < 2 ^ 49)
    (hP : P = roundMag a b)
    (hM : M = roundMag (W * 2 ^ 1074 * P) (2 ^ 1074 * 2 ^ 1074))
    (hR : R = roundMag M (100 * 2 ^ 1074)) :
    P < 2 ^ 2098 ∧ M < 2 ^ 2098 ∧ R < 2 ^ 2098 ∧
    |(R : ℚ) / 2 ^ 1074 - (W : ℚ) * ((a : ℚ) / (b : ℚ)) / 100|
      ≤ (W : ℚ) * ((a : ℚ) / (b : ℚ)) / 100 / 2 ^ 50 + 1 / 2 ^ 1000 := by
  have hTT : (0 : Nat) < 2 ^ 1074 * 2 ^ 1074 := Nat.mul_pos (two_pow_pos _) (two_pow_pos _)
  have hHT : (0 : Nat) < 100 * 2 ^ 1074 := Nat.mul_pos (by decide) (two_pow_pos _)
  have e1 := roundMag_error_rat a b hb
  have e2 := roundMag_error_rat (W * 2 ^ 1074 * P) (2 ^ 1074 * 2 ^ 1074) hTT
  have e3 := roundMag_error_rat M (100 * 2 ^ 1074) hHT
  rw [← hP] at e1
  rw [← hM] at e2
  rw [← hR] at e3
  have hbq : (0 : ℚ) < (b : ℚ) := by exact_mod_cast hb
  have hy : (0 : ℚ) ≤ (a : ℚ) / (b : ℚ) := div_nonneg (Nat.cast_nonneg a) (le_of_lt hbq)
  have hw1 : (1 : ℚ) ≤ (W : ℚ) := by exact_mod_cast hW1
  have hw : (W : ℚ) ≤ 9007199254740992 := by exact_mod_cast hW
  have hK : (1 : ℚ) ≤ 2 ^ 1000 := one_le_pow₀ (by norm_num)
  have hTK : (2 : ℚ) ^ 1074 = 2 ^ 1000 * 2 ^ 74 := by rw [← pow_add]
  have c2 : (((W * 2 ^ 1074 * P : Nat) : ℚ)) * 2 ^ 1074 / ((2 ^ 1074 * 2 ^ 1074 : Nat) : ℚ)
      = (W : ℚ) * (P : ℚ) := by
    have hT0 : ((2 : ℚ) ^ 1074) ≠ 0 := pow_ne_zero _ (by norm_num)
    rw [Nat.cast_mul, Nat.cast_mul, Nat.cast_mul, Nat.cast_pow, Nat.cast_ofNat]
    field_simp
    ring
  have c3 : (M : ℚ) * 2 ^ 1074 / ((100 * 2 ^ 1074 : Nat) : ℚ) = (M : ℚ) / 100 := by
    have hT0 : ((2 : ℚ) ^ 1074) ≠ 0 := pow_ne_zero _ (by norm_num)
    rw [Nat.cast_mul, Nat.cast_pow, Nat.cast_ofNat, Nat.cast_ofNat]
    field_simp
    ring
  have c1 : (a : ℚ) * 2 ^ 1074 / (b : ℚ) = (a : ℚ) / (b : ℚ) * 2 ^ 1074 := by ring
  rw [c1] at e1
  rw [c2] at e2
  rw [c3] at e3
  have hcast : ∀ n : Nat, (n : ℚ) < 2 ^ 60 * 2 ^ 1074 → n < 2 ^ 2098 := by
    intro n hn
    have hC : (((2 : Nat) ^ 1134 : Nat) : ℚ) = 2 ^ 60 * 2 ^ 1074 := by
      rw [Nat.cast_pow, Nat.cast_ofNat, ← pow_add]
    rw [← hC] at hn
    have h1 : n < 2 ^ 1134 := Nat.cast_lt.mp hn
    have h3 : (2 : Nat) ^ 1134 < 2 ^ 2098 := two_pow_lt _ _ (by decide)
    omega
  have hgoal : (R : ℚ) / 2 ^ 1074 - (W : ℚ) * ((a : ℚ) / (b : ℚ)) / 100
      = ((R : ℚ) - (W : ℚ) * ((a : ℚ) / (b : ℚ) * 2 ^ 1074) / 100) / 2 ^ 1074 := by
    have hT0 : ((2 : ℚ) ^ 1074) ≠ 0 := pow_ne_zero _ (by norm_num)
    field_simp
    ring
  have hrhs : (W : ℚ) * ((a : ℚ) / (b : ℚ)) / 100 / 2 ^ 50 + 1 / 2 ^ 1000
      = ((W : ℚ) * ((a : ℚ) / (b : ℚ) * 2 ^ 1074) / 100 / 2 ^ 50 + 2 ^ 74) / 2 ^ 1074 := by
    have hT0 : ((2 : ℚ) ^ 1000) ≠ 0 := pow_ne_zero _ (by norm_num)
    rw [hTK]
    field_simp
    ring
  have hTpos : (0 : ℚ) < 2 ^ 1074 := pow_pos (by norm_num) _
  rw [hgoal, hrhs, abs_div, abs_of_pos hTpos, div_le_div_iff_of_pos_right hTpos]
  rw [hTK] at e1 hTpos hcast ⊢
  generalize (2 : ℚ) ^ 1000 = K at hK e1 hTpos hcast ⊢
  generalize (a : ℚ) / (b : ℚ) = y at hy hq e1 ⊢
  obtain ⟨e1l, e1u⟩ := abs_le.mp e1
  obtain ⟨e2l, e2u⟩ := abs_le.mp e2
  obtain ⟨e3l, e3u⟩ := abs_le.mp e3
  have hw0 : (0 : ℚ) ≤ (W : ℚ) := le_trans zero_le_one hw1
  have hK0 : (0 : ℚ) ≤ K := le_trans zero_le_one hK
  have hyK : 0 ≤ y * K := mul_nonneg hy hK0
  have hB0 : 0 ≤ (W : ℚ) * (y * K) := mul_nonneg hw0 hyK
  have hAB : y * K ≤ (W : ℚ) * (y * K) := le_mul_of_one_le_left hyK hw1
  have hBq : (W : ℚ) * (y * K) ≤ 100 * 2 ^ 49 * K := by
    have h1 : (W : ℚ) * y ≤ 100 * 2 ^ 49 := by linarith
    have h2 := mul_le_mul_of_nonneg_right h1 hK0
    linarith
  have hWK : (W : ℚ) ≤ 9007199254740992 * K := by
    have := mul_le_mul_of_nonneg_left hK (show (0 : ℚ) ≤ 9007199254740992 by norm_num)
    linarith
  have hWPu := mul_le_mul_of_nonneg_left e1u hw0
  have hWPl := mul_le_mul_of_nonneg_left e1l hw0
  rw [mul_sub] at hWPu hWPl
  generalize hPW : (W : ℚ) * (P : ℚ) = C at e2l e2u hWPu hWPl
  have hWy : (W : ℚ) * (y * (K * 2 ^ 74)) = (W : ℚ) * (y * K) * 2 ^ 74 := by ring
  have hWe : (W : ℚ) * (y * (K * 2 ^ 74) / 2 ^ 53 + 1 / 2)
      = (W : ℚ) * (y * K) * 2 ^ 74 / 2 ^ 53 + (W : ℚ) / 2 := by ring
  have hWe2 : (W : ℚ) * -(y * (K * 2 ^ 74) / 2 ^ 53 + 1 / 2)
      = -((W : ℚ) * (y * K) * 2 ^ 74 / 2 ^ 53 + (W : ℚ) / 2) := by ring
  have hyK2 : y * (K * 2 ^ 74) = y * K * 2 ^ 74 := by ring
  rw [hWy, hWe] at hWPu
  rw [hWy, hWe2] at hWPl
  rw [hyK2] at e1l e1u
  rw [hWy]
  generalize (W : ℚ) * (y * K) = B at hB0 hAB hBq hWPu hWPl ⊢
  generalize y * K = A at hyK hAB e1l e1u
  generalize (W : ℚ) = w at hw1 hw hw0 hWK hWPu hWPl
  refine ⟨hcast P ?_, hcast M ?_, hcast R ?_, ?_⟩
  · norm_num at e1l e1u e2l e2u e3l e3u hWPu hWPl hBq hWK hw ⊢
    linarith
  · norm_num at e1l e1u e2l e2u e3l e3u hWPu hWPl hBq hWK hw ⊢
    linarith
  · norm_num at e1l e1u e2l e2u e3l e3u hWPu hWPl hBq hWK hw ⊢
    linarith
  · rw [abs_le]
    constructor
    · norm_num at e1l e1u e2l e2u e3l e3u hWPu hWPl hBq hWK hw ⊢
      linarith
    · norm_num at e1l e1u e2l e2u e3l e3u hWPu hWPl hBq hWK hw ⊢
      linarith

/-! ## `ParseFloat` and the percentage pipeline -/

theorem fraction_pos (r : ReadFloat) : 0 < r.fraction.2 := by
  unfold ReadFloat.fraction
  by_cases he : 0 ≤ r.exp
  · rw [if_pos he]; exact Nat.one_pos
  · rw [if_neg he]
    exact Nat.pow_pos (by split <;> decide)

/-- `ParseFloat` on a literal that `readFloat` reads to its end: the number it
writes, rounded, when that is finite. -/
theorem ParseFloat_round (s : List Char) (r : ReadFloat) (hr : readFloat s = some r)
    (hrest : r.rest = []) (hfin : roundMag r.fraction.1 r.fraction.2 < 2 ^ 2098) :
    ParseFloat s = (F64.fin r.neg (roundMag r.fraction.1 r.fraction.2), none) := by
  have hf : (if 0 ≤ r.exp then
        F64.round r.neg (r.mant * (if r.hex = true then 2 else 10) ^ r.exp.toNat) 1
      else F64.round r.neg r.mant ((if r.hex = true then 2 else 10) ^ (-r.exp).toNat))
      = F64.fin r.neg (roundMag r.fraction.1 r.fraction.2) := by
    have e : (if 0 ≤ r.exp then
        F64.round r.neg (r.mant * (if r.hex = true then 2 else 10) ^ r.exp.toNat) 1
      else F64.round r.neg r.mant ((if r.hex = true then 2 else 10) ^ (-r.exp).toNat))
        = F64.round r.neg r.fraction.1 r.fraction.2 := by
      unfold ReadFloat.fraction
      by_cases he : 0 ≤ r.exp
      · rw [if_pos he, if_pos he]
      · rw [if_neg he, if_neg he]
    rw [e]
    unfold F64.round
    rw [if_neg (Nat.not_le.mpr hfin)]
  unfold ParseFloat
  rw [special_none_of_readFloat s r hr, hr]
  dsimp only
  rw [if_neg (by rw [hrest]; exact fun e => e rfl), hf]

/-- The value of `tokenValue`, through `readFloat`. -/
theorem tokenValue_some (s : List Char) (p : ℚ) (h : tokenValue s = some p) :
    ∃ r, readFloat s = some r ∧ r.rest = [] ∧
      p = (if r.neg then -1 else 1) * ((r.fraction.1 : ℚ) / (r.fraction.2 : ℚ)) := by
  unfold tokenValue at h
  cases hr : readFloat s with
  | none => rw [hr] at h; exact absurd h (by simp)
  | some r =>
    rw [hr] at h
    dsimp only at h
    by_cases hrest : r.rest = []
    · rw [if_pos hrest] at h
      exact ⟨r, rfl, hrest, (Option.some.inj h).symm⟩
    · rw [if_neg hrest] at h
      exact absurd h (by simp)

/-- The product with `float64(W)` and the quotient by `100.`, as two roundings
of magnitudes. -/
theorem mul_div_pipeline (W : Int) (neg : Bool) (P : Nat)
    (hW : 0 ≤ W ∧ W ≤ 9007199254740992)
    (hM : roundMag (W.toNat * 2 ^ 1074 * P) (2 ^ 1074 * 2 ^ 1074) < 2 ^ 2098)
    (hR : roundMag (roundMag (W.toNat * 2 ^ 1074 * P) (2 ^ 1074 * 2 ^ 1074)) (100 * 2 ^ 1074)
      < 2 ^ 2098) :
    F64.div (F64.mul (F64.ofInt W) (F64.fin neg P)) F64.hundred
      = F64.fin neg
          (roundMag (roundMag (W.toNat * 2 ^ 1074 * P) (2 ^ 1074 * 2 ^ 1074)) (100 * 2 ^ 1074)) := by
  rw [ofInt_exact W hW.1 hW.2]
  have hb : ¬ (100 * 2 ^ 1074 = 0) := by
    have := two_pow_pos 1074
    omega
  unfold F64.mul
  dsimp only
  unfold F64.round
  rw [if_neg (Nat.not_le.mpr hM)]
  unfold F64.div F64.hundred
  dsimp only
  rw [if_neg hb]
  unfold F64.round
  rw [if_neg (Nat.not_le.mpr hR)]
  cases neg <;> rfl

/-- The ceiling of a quotient of natural numbers, in the rationals. -/
theorem ceil_nat_div (n d : Nat) (hd : 0 < d) :
    ⌈(n : ℚ) / (d : ℚ)⌉ = (((n + (d - 1)) / d : Nat) : Int) := by
  have hdq : (0 : ℚ) < (d : ℚ) := by exact_mod_cast hd
  rcases Nat.eq_zero_or_pos n with h0 | h0
  · rw [h0, Nat.zero_add, Nat.div_eq_of_lt (by omega)]
    simp
  · obtain ⟨hc1, hlo, hhi⟩ := ceil_bounds n d hd h0
    generalize (n + (d - 1)) / d = c at hc1 hlo hhi ⊢
    rw [Int.ceil_eq_iff]
    constructor
    · rw [lt_div_iff₀ hdq]
      have : ((c - 1 : Nat) : ℚ) * (d : ℚ) < (n : ℚ) := by exact_mod_cast hlo
      have e : ((c - 1 : Nat) : ℚ) = ((c : Int) : ℚ) - 1 := by
        rw [Nat.cast_sub hc1]; simp
      rw [← e]
      exact this
    · rw [div_le_iff₀ hdq]
      exact_mod_cast hhi

/-- The floor of a quotient of natural numbers, in the rationals. -/
theorem floor_nat_div (n d : Nat) (hd : 0 < d) :
    ⌊(n : ℚ) / (d : ℚ)⌋ = ((n / d : Nat) : Int) := by
  have hdq : (0 : ℚ) < (d : ℚ) := by exact_mod_cast hd
  have h := Nat.div_add_mod n d
  have hr := Nat.mod_lt n hd
  rw [Int.floor_eq_iff]
  constructor
  · rw [le_div_iff₀ hdq]
    have : n / d * d ≤ n := Nat.div_mul_le_self n d
    exact_mod_cast this
  · rw [div_lt_iff₀ hdq]
    have : n < (n / d + 1) * d := by
      have e : (n / d + 1) * d = d * (n / d) + d := by ring
      omega
    exact_mod_cast this

theorem toInt_fin_neg (m : Nat) (hm : (m : Int) ≤ 9223372036854775808) :
    F64.toInt (F64.fin true (m * 2 ^ 1074)) = -(m : Int) := by
  have hpos : 0 < 2 ^ 1074 := two_pow_pos 1074
  have hin : inInt64 (-(m : Int)) := by
    unfold inInt64; omega
  unfold F64.toInt F64.truncate
  dsimp only
  rw [Nat.mul_div_cancel _ hpos]
  simp only [if_true, hin, Option.getD_some]

/-- `int(math.Ceil(x))` is the ceiling of `x`, for a finite `x` whose ceiling is
an `int64`. -/
theorem toInt_Ceil_fin (neg : Bool) (R : Nat) (c : Int)
    (hc : -9223372036854775808 ≤ c ∧ c ≤ 9223372036854775807)
    (hlo : (c : ℚ) - 1 < (if neg then -(R : ℚ) else (R : ℚ)) / 2 ^ 1074)
    (hhi : (if neg then -(R : ℚ) else (R : ℚ)) / 2 ^ 1074 ≤ (c : ℚ)) :
    (F64.Ceil (F64.fin neg R)).toInt = c := by
  have hpos : 0 < 2 ^ 1074 := two_pow_pos 1074
  have hT : (((2 : Nat) ^ 1074 : Nat) : ℚ) = 2 ^ 1074 := by
    rw [Nat.cast_pow, Nat.cast_ofNat]
  cases neg with
  | false =>
    simp only [Bool.false_eq_true, if_false] at hlo hhi
    rw [← hT] at hlo hhi
    have h1 : ⌈(R : ℚ) / (((2 : Nat) ^ 1074 : Nat) : ℚ)⌉ = c := Int.ceil_eq_iff.mpr ⟨hlo, hhi⟩
    rw [ceil_nat_div R (2 ^ 1074) hpos] at h1
    unfold F64.Ceil
    dsimp only
    rw [toInt_fin_exact _ (by omega)]
    exact h1
  | true =>
    simp only [if_true] at hlo hhi
    rw [← hT] at hlo hhi
    have h1 : ⌊(R : ℚ) / (((2 : Nat) ^ 1074 : Nat) : ℚ)⌋ = -c := by
      rw [neg_div] at hlo hhi
      generalize (R : ℚ) / (((2 : Nat) ^ 1074 : Nat) : ℚ) = z at hlo hhi ⊢
      rw [Int.floor_eq_iff, Int.cast_neg]
      constructor <;> linarith
    rw [floor_nat_div R (2 ^ 1074) hpos] at h1
    unfold F64.Ceil
    dsimp only
    rw [toInt_fin_neg _ (by omega)]
    omega

/-- The quotient of `n * 2^u / 2^1074` by `100.`, rounded: it lies in
`[f, f + 1)` for `f` the floor of `n / (100 * 2^(1074 - u))`. -/
theorem roundMag_div_hundred_floor (n u : Nat) (hn : n < 2 ^ 53) (hu6 : 6 ≤ u)
    (hu : u ≤ 1074) :
    n / (100 * 2 ^ (1074 - u)) * 2 ^ 1074 ≤ roundMag (n * 2 ^ u) (100 * 2 ^ 1074) ∧
    roundMag (n * 2 ^ u) (100 * 2 ^ 1074) < (n / (100 * 2 ^ (1074 - u)) + 1) * 2 ^ 1074 := by
  have hTpos : 0 < 2 ^ 1074 := two_pow_pos 1074
  have hUpos : 0 < 2 ^ u := two_pow_pos u
  have hMU : 2 ^ (1074 - u) * 2 ^ u = 2 ^ 1074 := two_pow_add _ _ _ (by omega)
  have hU64 : 64 ≤ 2 ^ u := by
    have : (2:Nat) ^ 6 ≤ 2 ^ u := Nat.pow_le_pow_right (by decide) hu6
    omega
  have hDpos : 0 < 100 * 2 ^ (1074 - u) := Nat.mul_pos (by decide) (two_pow_pos _)
  have hdm := Nat.div_add_mod n (100 * 2 ^ (1074 - u))
  have hρ := Nat.mod_lt n hDpos
  have herr := roundMag_error (n * 2 ^ u) (100 * 2 ^ 1074) (Nat.mul_pos (by decide) hTpos)
  have hexact : n % (100 * 2 ^ (1074 - u)) = 0 →
      roundMag (n * 2 ^ u) (100 * 2 ^ 1074) = n / (100 * 2 ^ (1074 - u)) * 2 ^ 1074 := by
    intro h0
    rw [h0, Nat.add_zero] at hdm
    apply roundMag_exact_gen _ _ _ _ (Nat.mul_pos (by decide) hTpos)
    · exact Nat.lt_of_le_of_lt (Nat.div_le_self _ _) hn
    · calc n * 2 ^ u * 2 ^ 1074
          = 100 * 2 ^ (1074 - u) * (n / (100 * 2 ^ (1074 - u))) * 2 ^ u * 2 ^ 1074 := by rw [hdm]
        _ = n / (100 * 2 ^ (1074 - u)) * (2 ^ (1074 - u) * 2 ^ u) * (100 * 2 ^ 1074) := by ring
        _ = n / (100 * 2 ^ (1074 - u)) * 2 ^ 1074 * (100 * 2 ^ 1074) := by rw [hMU]
  generalize roundMag (n * 2 ^ u) (100 * 2 ^ 1074) = R at herr hexact ⊢
  generalize n / (100 * 2 ^ (1074 - u)) = f at hdm hexact ⊢
  generalize n % (100 * 2 ^ (1074 - u)) = ρ at hdm hρ hexact
  -- the products that occur, as atoms
  have hs64 : 64 * 2 ^ 1074 ≤ 2 ^ u * 2 ^ 1074 := Nat.mul_le_mul_right _ hU64
  have hDs : 100 * 2 ^ (1074 - u) * (2 ^ u * 2 ^ 1074) = 100 * 2 ^ 1074 * 2 ^ 1074 := by
    rw [← hMU]; ring
  have hN : n * 2 ^ u * 2 ^ 1074
      = f * (100 * 2 ^ 1074 * 2 ^ 1074) + ρ * (2 ^ u * 2 ^ 1074) := by
    rw [← hdm, ← hDs]; ring
  have hρs : ρ * (2 ^ u * 2 ^ 1074) + 2 ^ u * 2 ^ 1074 ≤ 100 * 2 ^ 1074 * 2 ^ 1074 := by
    rw [← hDs]
    have : (ρ + 1) * (2 ^ u * 2 ^ 1074) ≤ 100 * 2 ^ (1074 - u) * (2 ^ u * 2 ^ 1074) :=
      Nat.mul_le_mul_right _ hρ
    rw [Nat.add_mul, Nat.one_mul] at this
    exact this
  have hns : n * 2 ^ u * 2 ^ 1074 + 2 ^ u * 2 ^ 1074 ≤ 9007199254740992 * (2 ^ u * 2 ^ 1074) := by
    have e : (2:Nat) ^ 53 = 9007199254740992 := by norm_num
    have : (n + 1) * (2 ^ u * 2 ^ 1074) ≤ 9007199254740992 * (2 ^ u * 2 ^ 1074) :=
      Nat.mul_le_mul_right _ (by omega)
    rw [Nat.add_mul, Nat.one_mul, ← Nat.mul_assoc] at this
    exact this
  have hspos : 0 < 2 ^ u * 2 ^ 1074 := Nat.mul_pos hUpos hTpos
  constructor
  · rcases Nat.eq_zero_or_pos ρ with h0 | h0
    · rw [hexact h0]
    · by_contra hlt
      have h1 : R + 1 ≤ f * 2 ^ 1074 := by omega
      have h2 : (R + 1) * (100 * 2 ^ 1074) ≤ f * 2 ^ 1074 * (100 * 2 ^ 1074) :=
        Nat.mul_le_mul_right _ h1
      have e2 : f * 2 ^ 1074 * (100 * 2 ^ 1074) = f * (100 * 2 ^ 1074 * 2 ^ 1074) := by ring
      rw [Nat.add_mul, Nat.one_mul, e2] at h2
      have h3 : 2 ^ u * 2 ^ 1074 ≤ ρ * (2 ^ u * 2 ^ 1074) := Nat.le_mul_of_pos_left _ h0
      generalize f * (100 * 2 ^ 1074 * 2 ^ 1074) = g at h2 hN
      generalize ρ * (2 ^ u * 2 ^ 1074) = ρs at hN hρs h3
      generalize n * 2 ^ u * 2 ^ 1074 = N at herr hN hns
      generalize R * (100 * 2 ^ 1074) = x at herr h2
      generalize 2 ^ u * 2 ^ 1074 = s at hs64 hρs hns hspos h3
      generalize (2:Nat) ^ 1074 = T at hTpos hs64 herr hρs h2
      omega
  · by_contra hge
    have h1 : (f + 1) * 2 ^ 1074 ≤ R := by omega
    have h2 : (f + 1) * 2 ^ 1074 * (100 * 2 ^ 1074) ≤ R * (100 * 2 ^ 1074) :=
      Nat.mul_le_mul_right _ h1
    have e2 : (f + 1) * 2 ^ 1074 * (100 * 2 ^ 1074)
        = f * (100 * 2 ^ 1074 * 2 ^ 1074) + 100 * 2 ^ 1074 * 2 ^ 1074 := by ring
    rw [e2] at h2
    generalize f * (100 * 2 ^ 1074 * 2 ^ 1074) = g at h2 hN
    generalize ρ * (2 ^ u * 2 ^ 1074) = ρs at hN hρs
    generalize n * 2 ^ u * 2 ^ 1074 = N at herr hN hns
    generalize R * (100 * 2 ^ 1074) = x at herr h2
    generalize 2 ^ u * 2 ^ 1074 = s at hs64 hρs hns hspos
    generalize 100 * 2 ^ 1074 * 2 ^ 1074 = Ds at hρs h2
    generalize (2:Nat) ^ 1074 = T at hTpos hs64 herr
    omega

/-- The product `float64(W) * x` for `x = ± v * 2^j / 2^1074`, when `W * v` is
below `2^53`: no rounding. -/
theorem mul_ofInt_exact (W : Int) (neg : Bool) (v j : Nat)
    (hW : 0 ≤ W ∧ W ≤ 9007199254740992) (hv : W.toNat * v < 2 ^ 53) (hj : j ≤ 1074) :
    F64.mul (F64.ofInt W) (F64.fin neg (v * 2 ^ j))
      = F64.fin neg (W.toNat * v * 2 ^ j) := by
  rw [ofInt_exact W hW.1 hW.2]
  have hTpos := two_pow_pos 1074
  have hround : roundMag (W.toNat * 2 ^ 1074 * (v * 2 ^ j)) (2 ^ 1074 * 2 ^ 1074)
      = W.toNat * v * 2 ^ j := by
    apply roundMag_exact_gen _ _ _ _ (Nat.mul_pos hTpos hTpos) hv
    ring
  have hfin : ¬ (W.toNat * v * 2 ^ j ≥ 2 ^ 2098) := by
    have h1 : W.toNat * v * 2 ^ j < 2 ^ 53 * 2 ^ j :=
      Nat.mul_lt_mul_of_pos_right hv (two_pow_pos _)
    have h2 : (2:Nat) ^ 53 * 2 ^ j = 2 ^ (53 + j) := (Nat.pow_add 2 _ _).symm
    have h3 : (2:Nat) ^ (53 + j) < 2 ^ 2098 := two_pow_lt _ _ (by omega)
    omega
  unfold F64.mul
  dsimp only
  unfold F64.round
  rw [hround, if_neg hfin]
  cases neg <;> rfl

/-- `int(math.Ceil(x / 100.))` for `x = - n * 2^u / 2^1074` with `n < 2^53` and
`6 ≤ u ≤ 1074`: the exact ceiling of `x / 100`, minus the floor of
`n / (100 * 2^(1074 - u))`. -/
theorem floor_div_hundred (n u : Nat) (hn : n < 2 ^ 53) (hu6 : 6 ≤ u) (hu : u ≤ 1074) :
    (F64.Ceil (F64.div (F64.fin true (n * 2 ^ u)) F64.hundred)).toInt
      = -((n / (100 * 2 ^ (1074 - u)) : Nat) : Int) := by
  have hTpos : 0 < 2 ^ 1074 := two_pow_pos 1074
  have hb : ¬ (100 * 2 ^ 1074 = 0) := by omega
  obtain ⟨hlo, hhi⟩ := roundMag_div_hundred_floor n u hn hu6 hu
  have hfn : n / (100 * 2 ^ (1074 - u)) ≤ n := Nat.div_le_self _ _
  generalize n / (100 * 2 ^ (1074 - u)) = f at hlo hhi hfn ⊢
  generalize hRdef : roundMag (n * 2 ^ u) (100 * 2 ^ 1074) = R at hlo hhi
  have hdiv : R / 2 ^ 1074 = f := by
    apply Nat.div_eq_of_lt_le
    · exact hlo
    · exact hhi
  have hfin : ¬ (R ≥ 2 ^ 2098) := by
    have e : (2:Nat) ^ 2098 = 2 ^ 1024 * 2 ^ 1074 := (two_pow_add 1024 1074 2098 (by decide)).symm
    have h1 : f + 1 ≤ 2 ^ 1024 := by
      have := two_pow_lt 53 1024 (by decide)
      omega
    have h2 := Nat.mul_le_mul_right (2 ^ 1074) h1
    rw [e]
    omega
  have e53 : (2:Nat) ^ 53 = 9007199254740992 := by norm_num
  unfold F64.div F64.hundred
  dsimp only
  rw [if_neg hb]
  unfold F64.round
  rw [hRdef, if_neg hfin]
  show (F64.Ceil (F64.fin true R)).toInt = _
  unfold F64.Ceil
  dsimp only
  rw [hdiv]
  exact toInt_fin_neg _ (by omega)

/-- The percentage branch computes the exact ceiling of `W * p / 100` when
neither reading the token nor multiplying by `W` rounds. -/
theorem pct_value_exact (W : Int) (s : List Char) (p : ℚ)
    (hW : 0 ≤ W ∧ W ≤ 9007199254740992) (hp : tokenValue s = some p)
    (he : exactProduct W p) :
    (ParseFloat s).2 = none ∧
    (F64.Ceil (F64.div (F64.mul (F64.ofInt W) (ParseFloat s).1) F64.hundred)).toInt
      = ⌈(W : ℚ) * p / 100⌉ ∧
    -9007199254740992 ≤ ⌈(W : ℚ) * p / 100⌉ ∧ ⌈(W : ℚ) * p / 100⌉ ≤ 9007199254740992 := by
  obtain ⟨r, hr, hrest, hpe⟩ := tokenValue_some s p hp
  obtain ⟨v, k, hv, hv53, hk, hWv⟩ := he
  have hB := fraction_pos r
  have hBq : (0 : ℚ) < (r.fraction.2 : ℚ) := by exact_mod_cast hB
  have hy : (0 : ℚ) ≤ (r.fraction.1 : ℚ) / (r.fraction.2 : ℚ) :=
    div_nonneg (Nat.cast_nonneg _) (le_of_lt hBq)
  have habs : |p| = (r.fraction.1 : ℚ) / (r.fraction.2 : ℚ) := by
    rw [hpe, abs_mul, abs_of_nonneg hy]
    cases r.neg <;> simp
  have hfrac : r.fraction.1 * 2 ^ k = v * r.fraction.2 := by
    rw [habs] at hv
    have h2 : ((2 : ℚ) ^ k) ≠ 0 := pow_ne_zero _ (by norm_num)
    rw [div_eq_div_iff (ne_of_gt hBq) h2] at hv
    have : ((r.fraction.1 * 2 ^ k : Nat) : ℚ) = ((v * r.fraction.2 : Nat) : ℚ) := by
      rw [Nat.cast_mul, Nat.cast_mul, Nat.cast_pow, Nat.cast_ofNat]
      exact hv
    exact Nat.cast_injective this
  have e53 : (2:Nat) ^ 53 = 9007199254740992 := by norm_num
  have hv53' : v < 2 ^ 53 := by omega
  have hT : (2:Nat) ^ 1074 = 2 ^ k * 2 ^ (1074 - k) :=
    (two_pow_add k (1074 - k) 1074 (by omega)).symm
  have hround : roundMag r.fraction.1 r.fraction.2 = v * 2 ^ (1074 - k) := by
    apply roundMag_exact_gen _ _ _ _ hB hv53'
    rw [hT]
    calc r.fraction.1 * (2 ^ k * 2 ^ (1074 - k))
        = r.fraction.1 * 2 ^ k * 2 ^ (1074 - k) := by ring
      _ = v * r.fraction.2 * 2 ^ (1074 - k) := by rw [hfrac]
      _ = v * 2 ^ (1074 - k) * r.fraction.2 := by ring
  have hfin : roundMag r.fraction.1 r.fraction.2 < 2 ^ 2098 := by
    rw [hround]
    have h1 : v * 2 ^ (1074 - k) < 2 ^ 53 * 2 ^ (1074 - k) :=
      Nat.mul_lt_mul_of_pos_right hv53' (two_pow_pos _)
    have h2 : (2:Nat) ^ 53 * 2 ^ (1074 - k) = 2 ^ (53 + (1074 - k)) := (Nat.pow_add 2 _ _).symm
    have h3 : (2:Nat) ^ (53 + (1074 - k)) < 2 ^ 2098 := two_pow_lt _ _ (by omega)
    omega
  have hparse := ParseFloat_round s r hr hrest hfin
  rw [hround] at hparse
  have hn : W.toNat * v < 2 ^ 53 := by
    have h1 : ((W.toNat * v : Nat) : Int) < 9007199254740992 := by
      rw [Nat.cast_mul, Int.toNat_of_nonneg hW.1]
      exact hWv
    omega
  have hmul := mul_ofInt_exact W r.neg v (1074 - k) hW hn (by omega)
  have hkk : 1074 - (1074 - k) = k := by omega
  have hpos : 0 < 100 * 2 ^ k := Nat.mul_pos (by decide) (two_pow_pos k)
  have hWq : (W : ℚ) = ((W.toNat : Nat) : ℚ) := by
    have : ((W.toNat : Nat) : Int) = W := Int.toNat_of_nonneg hW.1
    exact_mod_cast this.symm
  have hq : (W : ℚ) * ((r.fraction.1 : ℚ) / (r.fraction.2 : ℚ)) / 100
      = ((W.toNat * v : Nat) : ℚ) / ((100 * 2 ^ k : Nat) : ℚ) := by
    rw [← habs, hv, hWq]
    push_cast
    rw [mul_div_assoc', div_div, mul_comm ((2:ℚ) ^ k) 100]
  have hceil := ceil_nat_div (W.toNat * v) (100 * 2 ^ k) hpos
  have hfloor := floor_nat_div (W.toNat * v) (100 * 2 ^ k) hpos
  refine ⟨by rw [hparse], ?_⟩
  rw [hparse]
  dsimp only
  rw [hmul]
  cases hneg : r.neg with
  | false =>
    have hval := ceil_div_hundred (W.toNat * v) (1074 - k) hn (by omega) (by omega)
    rw [hkk] at hval
    have hqp : (W : ℚ) * p / 100
        = ((W.toNat * v : Nat) : ℚ) / ((100 * 2 ^ k : Nat) : ℚ) := by
      rw [← hq, hpe, hneg]
      simp
    have hle : (W.toNat * v + (100 * 2 ^ k - 1)) / (100 * 2 ^ k) ≤ W.toNat * v + 1 := by
      generalize 100 * 2 ^ k = D at hpos
      generalize W.toNat * v = n
      apply Nat.div_le_of_le_mul
      have h1 : n ≤ D * n := Nat.le_mul_of_pos_left n hpos
      have h2 : D * (n + 1) = D * n + D := by ring
      omega
    rw [hqp, hceil, hval]
    generalize (W.toNat * v + (100 * 2 ^ k - 1)) / (100 * 2 ^ k) = c at hle ⊢
    exact ⟨rfl, by omega, by omega⟩
  | true =>
    have hval := floor_div_hundred (W.toNat * v) (1074 - k) hn (by omega) (by omega)
    rw [hkk] at hval
    have hqp : (W : ℚ) * p / 100
        = -(((W.toNat * v : Nat) : ℚ) / ((100 * 2 ^ k : Nat) : ℚ)) := by
      rw [← hq, hpe, hneg]
      simp only [if_true]
      ring
    have hle : W.toNat * v / (100 * 2 ^ k) ≤ W.toNat * v := Nat.div_le_self _ _
    rw [hqp, Int.ceil_neg, hfloor, hval]
    generalize W.toNat * v / (100 * 2 ^ k) = f at hle ⊢
    exact ⟨rfl, by omega, by omega⟩

/-- The percentage branch computes the exact ceiling of `W * p / 100` when that
number is away from the integers around it: the three roundings cannot reach
them. -/
theorem pct_value_margin (W : Int) (s : List Char) (p : ℚ)
    (hW : 0 ≤ W ∧ W ≤ 9007199254740992) (hp : tokenValue s = some p)
    (hm : awayFromIntegers ((W : ℚ) * p / 100)) :
    (ParseFloat s).2 = none ∧
    (F64.Ceil (F64.div (F64.mul (F64.ofInt W) (ParseFloat s).1) F64.hundred)).toInt
      = ⌈(W : ℚ) * p / 100⌉ ∧
    -9007199254740992 ≤ ⌈(W : ℚ) * p / 100⌉ ∧ ⌈(W : ℚ) * p / 100⌉ ≤ 9007199254740992 := by
  obtain ⟨r, hr, hrest, hpe⟩ := tokenValue_some s p hp
  obtain ⟨h1, h2⟩ := hm
  have hB := fraction_pos r
  have hBq : (0 : ℚ) < (r.fraction.2 : ℚ) := by exact_mod_cast hB
  have hy : (0 : ℚ) ≤ (r.fraction.1 : ℚ) / (r.fraction.2 : ℚ) :=
    div_nonneg (Nat.cast_nonneg _) (le_of_lt hBq)
  have hWq : (W : ℚ) = ((W.toNat : Nat) : ℚ) := by
    have : ((W.toNat : Nat) : Int) = W := Int.toNat_of_nonneg hW.1
    exact_mod_cast this.symm
  have hWn : W.toNat ≤ 9007199254740992 := by omega
  have hw0 : (0 : ℚ) ≤ ((W.toNat : Nat) : ℚ) := Nat.cast_nonneg _
  have hδ : (0 : ℚ) < 1 / 2 ^ 1000 := by positivity
  have hm0 : (0 : ℚ) ≤ ((W.toNat : Nat) : ℚ) * ((r.fraction.1 : ℚ) / (r.fraction.2 : ℚ)) / 100 :=
    div_nonneg (mul_nonneg hw0 hy) (by norm_num)
  have habs : |(W : ℚ) * p / 100|
      = ((W.toNat : Nat) : ℚ) * ((r.fraction.1 : ℚ) / (r.fraction.2 : ℚ)) / 100 := by
    rw [hpe, hWq]
    cases r.neg
    · simp only [Bool.false_eq_true, if_false, one_mul]
      exact abs_of_nonneg hm0
    · simp only [if_true]
      have e : ((W.toNat : Nat) : ℚ) * (-1 * ((r.fraction.1 : ℚ) / (r.fraction.2 : ℚ))) / 100
          = -(((W.toNat : Nat) : ℚ) * ((r.fraction.1 : ℚ) / (r.fraction.2 : ℚ)) / 100) := by
        ring
      rw [e, abs_neg]
      exact abs_of_nonneg hm0
  have hqv : (W : ℚ) * p / 100
      = (if r.neg then -1 else 1)
          * (((W.toNat : Nat) : ℚ) * ((r.fraction.1 : ℚ) / (r.fraction.2 : ℚ)) / 100) := by
    rw [hpe, hWq]
    ring
  rw [habs] at h1 h2
  generalize hc : ⌈(W : ℚ) * p / 100⌉ = c at h1 h2 ⊢
  generalize hqm : ((W.toNat : Nat) : ℚ) * ((r.fraction.1 : ℚ) / (r.fraction.2 : ℚ)) / 100
    = qm at h1 h2 hm0 hqv
  generalize (W : ℚ) * p / 100 = q at h1 h2 hqv
  have hq49 : qm < 2 ^ 49 := by
    have : qm / 2 ^ 50 < 1 / 2 := by linarith
    rw [div_lt_iff₀ (by positivity)] at this
    linarith
  have hW1 : 1 ≤ W.toNat := by
    rcases Nat.eq_zero_or_pos W.toNat with e | e
    · exfalso
      rw [e] at hqm
      have hq0 : qm = 0 := by rw [← hqm]; simp
      have hq00 : q = 0 := by rw [hqv, hq0, mul_zero]
      rw [hq0, hq00] at h1 h2
      have hc1 : (c : ℚ) < 1 := by linarith
      have hc2 : c < 1 := by exact_mod_cast hc1
      have hc3 : (c : ℚ) ≤ 0 := by exact_mod_cast (show c ≤ 0 by omega)
      linarith
    · exact e
  obtain ⟨hP, hM, hR, herr⟩ := three_roundings r.fraction.1 r.fraction.2 W.toNat _ _ _ hB hW1 hWn
    (by rw [hqm]; exact hq49) rfl rfl rfl
  rw [hqm] at herr
  have hparse := ParseFloat_round s r hr hrest hP
  have hpipe := mul_div_pipeline W r.neg _ hW hM hR
  obtain ⟨el, eu⟩ := abs_le.mp herr
  have hcb : -9007199254740992 ≤ c ∧ c ≤ 9007199254740992 := by
    have hqb : -qm ≤ q ∧ q ≤ qm := by
      rw [hqv]
      cases r.neg
      · simp only [Bool.false_eq_true, if_false, one_mul]
        exact ⟨by linarith, le_refl _⟩
      · simp only [if_true]
        exact ⟨by linarith, by linarith⟩
    have hl : (-9007199254740992 : ℚ) ≤ (c : ℚ) := by linarith
    have hu : (c : ℚ) ≤ 9007199254740992 := by linarith
    exact ⟨by exact_mod_cast hl, by exact_mod_cast hu⟩
  refine ⟨by rw [hparse], ?_, hcb⟩
  rw [hparse]
  dsimp only
  rw [hpipe]
  apply toInt_Ceil_fin _ _ _ ⟨by omega, by omega⟩
  · generalize ((roundMag (roundMag (W.toNat * 2 ^ 1074 * roundMag r.fraction.1 r.fraction.2)
      (2 ^ 1074 * 2 ^ 1074)) (100 * 2 ^ 1074) : Nat) : ℚ) = R at el eu ⊢
    rw [hqv] at h1
    cases hneg : r.neg
    · rw [hneg] at h1
      simp only [Bool.false_eq_true, if_false, one_mul] at h1 ⊢
      linarith
    · rw [hneg] at h1
      simp only [if_true] at h1 ⊢
      rw [neg_div]
      linarith
  · generalize ((roundMag (roundMag (W.toNat * 2 ^ 1074 * roundMag r.fraction.1 r.fraction.2)
      (2 ^ 1074 * 2 ^ 1074)) (100 * 2 ^ 1074) : Nat) : ℚ) = R at el eu ⊢
    rw [hqv] at h2
    cases hneg : r.neg
    · rw [hneg] at h2
      simp only [Bool.false_eq_true, if_false, one_mul] at h2 ⊢
      linarith
    · rw [hneg] at h2
      simp only [if_true] at h2 ⊢
      rw [neg_div]
      linarith

/-- The percentage branch computes the exact ceiling of `W * p / 100` on the
tokens where the roundings of `float64` cannot change it. -/
theorem pct_value (W : Int) (s : List Char) (p : ℚ)
    (hW : 0 ≤ W ∧ W ≤ 9007199254740992) (hp : tokenValue s = some p)
    (hs : exactProduct W p ∨ awayFromIntegers ((W : ℚ) * p / 100)) :
    (ParseFloat s).2 = none ∧
    (F64.Ceil (F64.div (F64.mul (F64.ofInt W) (ParseFloat s).1) F64.hundred)).toInt
      = ⌈(W : ℚ) * p / 100⌉ ∧
    -9007199254740992 ≤ ⌈(W : ℚ) * p / 100⌉ ∧ ⌈(W : ℚ) * p / 100⌉ ≤ 9007199254740992 := by
  rcases hs with h | h
  · exact pct_value_exact W s p hW hp h
  · exact pct_value_margin W s p hW hp h

/-- C6, amended: for a region `pct:px,py,pw,ph` on an image of size `W x H`
with `0 <= W, H <= 2^53`, where the four tokens are number literals (`px`, `py`,
`pw`, `ph` are the numbers they write, in exact arithmetic) and the roundings of
`float64` cannot change the ceilings, `RegionInstructions` returns
`X = ceil(W*px/100)`, `Y = ceil(H*py/100)`, and with `w = ceil(W*pw/100)`,
`h = ceil(H*ph/100)`, all four in exact arithmetic, `Width = W - X` if
`X + w > W` and `w` otherwise, `Height = H - Y` if `Y + h > H` and `h`
otherwise. The roundings cannot change a ceiling when the token writes a number
`± v / 2^k` that `float64` holds exactly (`v < 2^53`, `k <= 1068`) and the
product of `v` and the side is below `2^53`, or when the value `q` under the
ceiling is further than `|q| / 2^50 + 2^-1000` from the integers around it. -/
theorem C6_pct_region {σ : Type} (t : Transformation σ) (im : Image)
    (spx spy spw sph : String) (px py pw ph : ℚ) (x y w h W H : Int)
    (hdim : im.Dimensions = ({ Height := H, Width := W }, none))
    (hW : 0 ≤ W ∧ W ≤ 9007199254740992) (hH : 0 ≤ H ∧ H ≤ 9007199254740992)
    (hregion : t.Region = "pct:" ++ spx ++ "," ++ spy ++ "," ++ spw ++ "," ++ sph)
    (hpx : tokenValue spx.toList = some px) (hpy : tokenValue spy.toList = some py)
    (hpw : tokenValue spw.toList = some pw) (hph : tokenValue sph.toList = some ph)
    (hsx : exactProduct W px ∨ awayFromIntegers ((W : ℚ) * px / 100))
    (hsy : exactProduct H py ∨ awayFromIntegers ((H : ℚ) * py / 100))
    (hsw : exactProduct W pw ∨ awayFromIntegers ((W : ℚ) * pw / 100))
    (hsh : exactProduct H ph ∨ awayFromIntegers ((H : ℚ) * ph / 100))
    (hx : x = ⌈(W : ℚ) * px / 100⌉) (hy : y = ⌈(H : ℚ) * py / 100⌉)
    (hw : w = ⌈(W : ℚ) * pw / 100⌉) (hh : h = ⌈(H : ℚ) * ph / 100⌉) :
    t.RegionInstructions im =
      (some { X := x, Y := y,
              Width := if x + w > W then W - x else w,
              Height := if y + h > H then H - y else h }, none) := by
  obtain ⟨ex, vx', x0, x1⟩ := pct_value W spx.toList px hW hpx hsx
  obtain ⟨ey, vy', y0, y1⟩ := pct_value H spy.toList py hH hpy hsy
  obtain ⟨ew, vw', w0, w1⟩ := pct_value W spw.toList pw hW hpw hsw
  obtain ⟨eh, vh', h0, h1⟩ := pct_value H sph.toList ph hH hph hsh
  rw [← hx] at vx' x0 x1
  rw [← hy] at vy' y0 y1
  rw [← hw] at vw' w0 w1
  rw [← hh] at vh' h0 h1
  have nx := ParseFloat_ok_not_mem _ ex
  have ny := ParseFloat_ok_not_mem _ ey
  have nw := ParseFloat_ok_not_mem _ ew
  have nh := ParseFloat_ok_not_mem _ eh
  have hl := toList_pct spx spy spw sph
  rw [← hregion] at hl
  have hsq : t.Region ≠ "square" := by
    intro e
    rw [e] at hl
    apply not_colon_square
    rw [hl]
    simp
  have hrest : ':' ∉ spx.toList ++ ',' :: (spy.toList ++ ',' :: (spw.toList ++ ',' ::
      sph.toList)) := by
    simp only [List.mem_append, List.mem_cons, not_or]
    exact ⟨nx.2, by decide, ny.2, by decide, nw.2, by decide, nh.2⟩
  have hcolon : stringsSplit ':' t.Region.toList = ["pct".toList,
      spx.toList ++ ',' :: (spy.toList ++ ',' :: (spw.toList ++ ',' :: sph.toList))] := by
    rw [hl, stringsSplit_append_sep _ _ _ (by decide), stringsSplit_of_not_mem _ _ hrest]
  have hd2 : im.Dimensions.2 = none := by rw [hdim]
  rw [RegionInstructions_pct t im _ _ _ _ _ hd2 hsq hcolon
    (stringsSplit_four _ _ _ _ nx.1 ny.1 nw.1 nh.1) ex ey ew eh]
  simp only [hdim]
  rw [vx', vy', vw', vh']
  have rx : inInt64 x := by unfold inInt64; omega
  have ry : inInt64 y := by unfold inInt64; omega
  have rw' : inInt64 w := by unfold inInt64; omega
  have rh : inInt64 h := by unfold inInt64; omega
  have rxw : inInt64 (x + w) := by unfold inInt64; omega
  have ryh : inInt64 (y + h) := by unfold inInt64; omega
  rw [clamp_exact x w W rx rw' ⟨hW.1, by omega⟩ rxw,
    clamp_exact y h H ry rh ⟨hH.1, by omega⟩ ryh]

/-- Witness for C6: region `pct:41.6,12.5,90,50` on a 1001x100 image. `41.6` is
not a `float64`, and `1001 * 41.6 / 100 = 416.416` is away from the integers:
`X = 417`. `12.5`, `90` and `50` are held exactly: `Y = ceil(12.5) = 13`, the
width `ceil(900.9) = 901` is clamped to `1001 - 417`, the height is `50`. -/
theorem C6_pct_region_witness :
    (request "pct:41.6,12.5,90,50" "full").RegionInstructions (imageOfSize 1001 100)
      = (some { X := 417, Y := 13, Width := 584, Height := 50 }, none) :=
  C6_pct_region (request "pct:41.6,12.5,90,50" "full") (imageOfSize 1001 100)
    "41.6" "12.5" "90" "50" (208 / 5) (25 / 2) 90 50 417 13 901 50 1001 100 rfl
    (by decide) (by decide) (by decide)
    (by decide!) (by decide!) (by decide!) (by decide!)
    (Or.inr (by
      have e : ⌈((1001 : Int) : ℚ) * (208 / 5) / 100⌉ = 417 := by
        rw [Int.ceil_eq_iff]; norm_num
      have ha : |((1001 : Int) : ℚ) * (208 / 5) / 100| = ((1001 : Int) : ℚ) * (208 / 5) / 100 :=
        abs_of_pos (by norm_num)
      unfold awayFromIntegers
      rw [e, ha]
      have hδ : (1 : ℚ) / 2 ^ 1000 ≤ 1 / 2 ^ 10 :=
        one_div_le_one_div_of_le (by norm_num) (pow_le_pow_right₀ (by norm_num) (by norm_num))
      generalize (1 : ℚ) / 2 ^ 1000 = δ at hδ
      constructor <;> norm_num <;> linarith))
    (Or.inl ⟨25, 1, by norm_num, by norm_num, by norm_num, by norm_num⟩)
    (Or.inl ⟨90, 0, by norm_num, by norm_num, by norm_num, by norm_num⟩)
    (Or.inl ⟨50, 0, by norm_num, by norm_num, by norm_num, by norm_num⟩)
    (by rw [eq_comm, Int.ceil_eq_iff]; norm_num) (by rw [eq_comm, Int.ceil_eq_iff]; norm_num)
    (by rw [eq_comm, Int.ceil_eq_iff]; norm_num) (by rw [eq_comm, Int.ceil_eq_iff]; norm_num)

/-! ## Where the returned region lies -/

/-- Every successful derivation for a region other than `square` returns the
parsed origin and the far-edge clamp of the parsed width and height. -/
theorem RegionInstructions_success {σ : Type} (t : Transformation σ) (im : Image)
    (r : RegionInstruction) (hsq : t.Region ≠ "square")
    (hres : t.RegionInstructions im = (some r, none)) :
    ∃ x y w h : Int,
      r = { X := x, Y := y,
            Width := if goAdd x w > im.Dimensions.1.Width
                     then goSub im.Dimensions.1.Width x else w,
            Height := if goAdd y h > im.Dimensions.1.Height
                      then goSub im.Dimensions.1.Height y else h } := by
  have fail : ∀ e : Option GoError,
      ((none : Option RegionInstruction), e) = (some r, none) → False :=
    fun e h => absurd (congrArg Prod.fst h) (by simp)
  have done : ∀ x y w h : Int,
      (some
        (if goAdd
              (if goAdd x w > im.Dimensions.1.Width then
                ({ X := x, Y := y, Height := h, Width := goSub im.Dimensions.1.Width x } :
                  RegionInstruction)
               else { X := x, Y := y, Height := h, Width := w }).Y
              (if goAdd x w > im.Dimensions.1.Width then
                ({ X := x, Y := y, Height := h, Width := goSub im.Dimensions.1.Width x } :
                  RegionInstruction)
               else { X := x, Y := y, Height := h, Width := w }).Height
              > im.Dimensions.1.Height then
          ({ X := (if goAdd x w > im.Dimensions.1.Width then
                ({ X := x, Y := y, Height := h, Width := goSub im.Dimensions.1.Width x } :
                  RegionInstruction)
               else { X := x, Y := y, Height := h, Width := w }).X,
             Y := (if goAdd x w > im.Dimensions.1.Width then
                ({ X := x, Y := y, Height := h, Width := goSub im.Dimensions.1.Width x } :
                  RegionInstruction)
               else { X := x, Y := y, Height := h, Width := w }).Y,
             Height := goSub im.Dimensions.1.Height
               (if goAdd x w > im.Dimensions.1.Width then
                ({ X := x, Y := y, Height := h, Width := goSub im.Dimensions.1.Width x } :
                  RegionInstruction)
               else { X := x, Y := y, Height := h, Width := w }).Y,
             Width := (if goAdd x w > im.Dimensions.1.Width then
                ({ X := x, Y := y, Height := h, Width := goSub im.Dimensions.1.Width x } :
                  RegionInstruction)
               else { X := x, Y := y, Height := h, Width := w }).Width } : RegionInstruction)
         else
          (if goAdd x w > im.Dimensions.1.Width then
                ({ X := x, Y := y, Height := h, Width := goSub im.Dimensions.1.Width x } :
                  RegionInstruction)
               else { X := x, Y := y, Height := h, Width := w })), (none : Option GoError))
        = (some r, none) →
      ∃ x y w h : Int,
        r = { X := x, Y := y,
              Width := if goAdd x w > im.Dimensions.1.Width
                       then goSub im.Dimensions.1.Width x else w,
              Height := if goAdd y h > im.Dimensions.1.Height
                        then goSub im.Dimensions.1.Height y else h } := by
    intro x y w h e
    refine ⟨x, y, w, h, ?_⟩
    rw [← Option.some.inj (congrArg Prod.fst e)]
    by_cases h1 : goAdd x w > im.Dimensions.1.Width <;>
    by_cases h2 : goAdd y h > im.Dimensions.1.Height <;>
    simp [h1, h2]
  unfold Transformation.RegionInstructions at hres
  by_cases hd : im.Dimensions.2 ≠ none
  · rw [if_pos hd] at hres; exact (fail _ hres).elim
  rw [if_neg hd] at hres
  dsimp only at hres
  rw [if_neg hsq] at hres
  by_cases hlen : (stringsSplit ':' t.Region.toList).length = 1
  · rw [if_pos hlen] at hres
    generalize stringsSplit ',' ((stringsSplit ':' t.Region.toList).getD 0 []) = sizes at hres
    by_cases h4 : sizes.length ≠ 4
    · rw [if_pos h4] at hres; exact (fail _ hres).elim
    rw [if_neg h4] at hres
    by_cases hx : (ParseInt (sizes.getD 0 [])).2 ≠ none
    · rw [if_pos hx] at hres; exact (fail _ hres).elim
    rw [if_neg hx] at hres
    by_cases hy : (ParseInt (sizes.getD 1 [])).2 ≠ none
    · rw [if_pos hy] at hres; exact (fail _ hres).elim
    rw [if_neg hy] at hres
    by_cases hw : (ParseInt (sizes.getD 2 [])).2 ≠ none
    · rw [if_pos hw] at hres; exact (fail _ hres).elim
    rw [if_neg hw] at hres
    by_cases hh : (ParseInt (sizes.getD 3 [])).2 ≠ none
    · rw [if_pos hh] at hres; exact (fail _ hres).elim
    rw [if_neg hh] at hres
    exact done _ _ _ _ hres
  · rw [if_neg hlen] at hres
    by_cases hpct : (stringsSplit ':' t.Region.toList).getD 0 [] = "pct".toList
    · rw [if_pos hpct] at hres
      generalize stringsSplit ',' ((stringsSplit ':' t.Region.toList).getD 1 []) = sizes at hres
      by_cases h4 : sizes.length ≠ 4
      · rw [if_pos h4] at hres; exact (fail _ hres).elim
      rw [if_neg h4] at hres
      by_cases hx : (ParseFloat (sizes.getD 0 [])).2 ≠ none
      · rw [if_pos hx] at hres; exact (fail _ hres).elim
      rw [if_neg hx] at hres
      by_cases hy : (ParseFloat (sizes.getD 1 [])).2 ≠ none
      · rw [if_pos hy] at hres; exact (fail _ hres).elim
      rw [if_neg hy] at hres
      by_cases hw : (ParseFloat (sizes.getD 2 [])).2 ≠ none
      · rw [if_pos hw] at hres; exact (fail _ hres).elim
      rw [if_neg hw] at hres
      by_cases hh : (ParseFloat (sizes.getD 3 [])).2 ≠ none
      · rw [if_pos hh] at hres; exact (fail _ hres).elim
      rw [if_neg hh] at hres
      exact done _ _ _ _ hres
    · rw [if_neg hpct] at hres
      exact (fail _ hres).elim

/-- The far-edge clamp on one axis: whenever the end `x + width` of the
returned extent is an `int64`, it does not pass the image extent `W`. -/
theorem clamp_far_edge (x w W : Int) (hW : 0 ≤ W ∧ W ≤ 9223372036854775807)
    (hsum : x + (if goAdd x w > W then goSub W x else w) ≤ 9223372036854775807) :
    x + (if goAdd x w > W then goSub W x else w) ≤ W := by
  unfold goAdd goSub wrap64 at *
  split at hsum
  · rename_i h
    rw [if_pos h]
    omega
  · rename_i h
    rw [if_neg h]
    omega

/-- The `square` branch of `RegionInstructions` on an image whose sides are at
most `2^53`. -/
theorem RegionInstructions_square {σ : Type} (t : Transformation σ) (im : Image) (W H : Int)
    (hdim : im.Dimensions = ({ Height := H, Width := W }, none))
    (hregion : t.Region = "square")
    (hW : 0 ≤ W ∧ W ≤ 9007199254740992) (hH : 0 ≤ H ∧ H ≤ 9007199254740992) :
    ∃ x y : Int, t.RegionInstructions im
        = (some { X := x, Y := y, Width := min W H, Height := min W H }, none)
      ∧ 0 ≤ x ∧ 0 ≤ y ∧ x + min W H ≤ W ∧ y + min W H ≤ H := by
  unfold Transformation.RegionInstructions
  rw [if_neg (by rw [hdim]; exact fun h => h rfl)]
  dsimp only
  rw [if_pos hregion, hdim]
  dsimp only
  rw [ofInt_exact W hW.1 hW.2, ofInt_exact H hH.1 hH.2, Min_fin_exact,
    toInt_fin_exact _ (by omega)]
  have hmin : ((min W.toNat H.toNat : Nat) : Int) = min W H := by omega
  rw [hmin]
  refine ⟨_, _, rfl, ?_⟩
  unfold goSub
  by_cases h : W > H
  · rw [if_pos h, if_pos h, wrap64_of_inInt64 (W - H) (by unfold inInt64; omega),
      Int.tdiv_eq_ediv (by omega) (by decide),
      wrap64_of_inInt64 _ (by unfold inInt64; omega)]
    omega
  · rw [if_neg h, if_neg h, wrap64_of_inInt64 (H - W) (by unfold inInt64; omega),
      Int.tdiv_eq_ediv (by omega) (by decide),
      wrap64_of_inInt64 _ (by unfold inInt64; omega)]
    omega

/-- C7 (amended): on an image of size `W x H` with `0 ≤ W, H ≤ 2^53`, every
RegionInstruction that `RegionInstructions` returns whose ends `X + Width` and
`Y + Height` are `int64` values stops at the far edges: `X + Width ≤ W` and
`Y + Height ≤ H`. The origin and the signs of Width and Height are those of the
request, so the region lies within the image (`0 ≤ X ≤ X + Width ≤ W` and
`0 ≤ Y ≤ Y + Height ≤ H`) whenever in addition `X`, `Y`, `Width` and `Height`
are non-negative. -/
theorem C7_region_far_edge {σ : Type} (t : Transformation σ) (im : Image) (W H : Int)
    (r : RegionInstruction)
    (hdim : im.Dimensions.1 = { Height := H, Width := W })
    (hW : 0 ≤ W ∧ W ≤ 9007199254740992) (hH : 0 ≤ H ∧ H ≤ 9007199254740992)
    (hres : t.RegionInstructions im = (some r, none))
    (hsumX : r.X + r.Width ≤ 9223372036854775807)
    (hsumY : r.Y + r.Height ≤ 9223372036854775807) :
    (r.X + r.Width ≤ W ∧ r.Y + r.Height ≤ H) ∧
    (0 ≤ r.X → 0 ≤ r.Width → 0 ≤ r.Y → 0 ≤ r.Height →
      (0 ≤ r.X ∧ r.X ≤ r.X + r.Width ∧ r.X + r.Width ≤ W) ∧
      (0 ≤ r.Y ∧ r.Y ≤ r.Y + r.Height ∧ r.Y + r.Height ≤ H)) := by
  have key : r.X + r.Width ≤ W ∧ r.Y + r.Height ≤ H := by
    by_cases hsq : t.Region = "square"
    · have hd2 : im.Dimensions.2 = none := by
        by_contra hne
        unfold Transformation.RegionInstructions at hres
        rw [if_pos hne] at hres
        exact absurd (congrArg Prod.fst hres) (by simp)
      have hd : im.Dimensions = ({ Height := H, Width := W }, none) := by
        rw [← hdim, ← hd2]
      obtain ⟨x, y, e, _, _, hx, hy⟩ := RegionInstructions_square t im W H hd hsq hW hH
      rw [e] at hres
      have hr := Option.some.inj (congrArg Prod.fst hres)
      rw [← hr]
      exact ⟨hx, hy⟩
    · obtain ⟨x, y, w, h, e⟩ := RegionInstructions_success t im r hsq hres
      rw [hdim] at e
      rw [e] at hsumX hsumY ⊢
      exact ⟨clamp_far_edge x w W ⟨hW.1, by omega⟩ hsumX,
        clamp_far_edge y h H ⟨hH.1, by omega⟩ hsumY⟩
  refine ⟨key, fun h1 h2 h3 h4 => ⟨⟨h1, by omega, key.1⟩, ⟨h3, by omega, key.2⟩⟩⟩

/-- Witness for C7: region `100,50,2000,2000` on a 1000x600 image returns
`{X:100, Y:50, Width:900, Height:550}`, which lies within the image. -/
theorem C7_region_far_edge_witness :
    (request "100,50,2000,2000" "full").RegionInstructions (imageOfSize 1000 600)
      = (some { X := 100, Y := 50, Width := 900, Height := 550 }, none) ∧
    ((100 : Int) + 900 ≤ 1000 ∧ (50 : Int) + 550 ≤ 600) ∧
    ((0 : Int) ≤ 100 ∧ (100 : Int) ≤ 100 + 900 ∧ (100 : Int) + 900 ≤ 1000) ∧
    ((0 : Int) ≤ 50 ∧ (50 : Int) ≤ 50 + 550 ∧ (50 : Int) + 550 ≤ 600) :=
  ⟨by decide!,
   (C7_region_far_edge (request "100,50,2000,2000" "full") (imageOfSize 1000 600) 1000 600
    { X := 100, Y := 50, Width := 900, Height := 550 } rfl (by decide) (by decide)
    (by decide!) (by decide) (by decide)).1,
   (C7_region_far_edge (request "100,50,2000,2000" "full") (imageOfSize 1000 600) 1000 600
    { X := 100, Y := 50, Width := 900, Height := 550 } rfl (by decide) (by decide)
    (by decide!) (by decide) (by decide)).2 (by decide) (by decide) (by decide) (by decide)⟩

/-- C7 fails as stated: for region `2000,0,10,10` on a 1000x600 image the origin
lies beyond the right edge and the clamp makes the width negative; the returned
`{X:2000, Y:0, Width:-1000, Height:10}` has neither `X ≤ X + Width` nor
`X ≤ W`. -/
theorem C7_counterexample_origin_outside :
    (request "2000,0,10,10" "full").RegionInstructions (imageOfSize 1000 600)
      = (some { X := 2000, Y := 0, Width := -1000, Height := 10 }, none)
    ∧ ¬ ((0 : Int) ≤ 2000 ∧ (2000 : Int) ≤ 2000 + -1000 ∧ (2000 : Int) + -1000 ≤ 1000) := by
  refine ⟨by decide!, by decide⟩

/-! ## Percentage sizes -/

/-- C10, the code at the failing input: for size `pct:7` on a 100x100 image
`SizeInstructions` returns Width and Height `8`. The quotient `7 / 100` is
rounded to the `float64` just above `0.07` before it is multiplied by 100, and
the product `7.000000000000001` is rounded up by `math.Ceil`; the value the
claim states, `ceil(100 * 7 / 100)`, is `7`, also when it is computed in
`float64` in the order `(W * p) / 100` used for percentage regions. -/
theorem C10_pct_size_off_by_one :
    (request "full" "pct:7").SizeInstructions (imageOfSize 100 100)
      = Outcome.returned
          (some { Width := 8, Height := 8, Enlarge := false, Force := false }, none)
    ∧ (F64.Ceil (F64.div (F64.mul (F64.ofInt 100) (ParseFloat "7".toList).1)
          F64.hundred)).toInt = 7
    ∧ ⌈((100 : ℚ) * 7 / 100)⌉ = 7 := by
  refine ⟨by decide!, by decide!, ?_⟩
  norm_num

/-! ## Force and Enlarge -/

/-- C11: whenever `SizeInstructions` succeeds, the returned SizeInstruction does
not have Force and Enlarge both true. -/
theorem C11_force_enlarge_exclusive {σ : Type} (t : Transformation σ) (im : Image)
    (r : SizeInstruction)
    (hres : t.SizeInstructions im = Outcome.returned (some r, none)) :
    ¬ (r.Force = true ∧ r.Enlarge = true) := by
  have fail : ∀ e : Option GoError,
      Outcome.returned ((none : Option SizeInstruction), e) = Outcome.returned (some r, none)
        → False :=
    fun e h => absurd (congrArg Prod.fst (Outcome.returned.inj h)) (by simp)
  have plain : ∀ h w : Int,
      Outcome.returned
        (some ({ Height := h, Width := w, Enlarge := false, Force := false } : SizeInstruction),
          (none : Option GoError)) = Outcome.returned (some r, none) →
      ¬ (r.Force = true ∧ r.Enlarge = true) := by
    intro h w e
    rw [← Option.some.inj (congrArg Prod.fst (Outcome.returned.inj e))]
    simp
  unfold Transformation.SizeInstructions at hres
  by_cases hd : im.Dimensions.2 ≠ none
  · rw [if_pos hd] at hres; exact (fail _ hres).elim
  rw [if_neg hd] at hres
  dsimp only at hres
  by_cases hlen : (stringsSplit ':' t.Size.toList).length = 1
  · rw [if_pos hlen] at hres
    generalize stringsSplit ','
      (stringsTrimBang ((stringsSplit ':' t.Size.toList).getD 0 [])) = sizes at hres
    by_cases h2 : sizes.length ≠ 2
    · rw [if_pos h2] at hres; exact (fail _ hres).elim
    rw [if_neg h2] at hres
    by_cases hboth : (ParseInt (sizes.getD 0 [])).2 ≠ none ∧ (ParseInt (sizes.getD 1 [])).2 ≠ none
    · rw [if_pos hboth] at hres; exact (fail _ hres).elim
    rw [if_neg hboth] at hres
    by_cases hok : (ParseInt (sizes.getD 0 [])).2 = none ∧ (ParseInt (sizes.getD 1 [])).2 = none
    · rw [if_pos hok] at hres
      rw [← Option.some.inj (congrArg Prod.fst (Outcome.returned.inj hres))]
      cases stringsHasPrefixBang t.Size.toList <;> simp
    rw [if_neg hok] at hres
    by_cases hh : (ParseInt (sizes.getD 1 [])).2 ≠ none
    · rw [if_pos hh] at hres
      cases hdiv : goDiv (goMul im.Dimensions.1.Height (ParseInt (sizes.getD 0 [])).1)
          im.Dimensions.1.Width with
      | none => rw [hdiv] at hres; exact absurd hres (by simp)
      | some v => rw [hdiv] at hres; exact plain _ _ hres
    · rw [if_neg hh] at hres
      cases hdiv : goDiv (goMul im.Dimensions.1.Width (ParseInt (sizes.getD 1 [])).1)
          im.Dimensions.1.Height with
      | none => rw [hdiv] at hres; exact absurd hres (by simp)
      | some v => rw [hdiv] at hres; exact plain _ _ hres
  · rw [if_neg hlen] at hres
    by_cases hpct : (stringsSplit ':' t.Size.toList).getD 0 [] = "pct".toList
    · rw [if_pos hpct] at hres
      by_cases hp : (ParseFloat ((stringsSplit ':' t.Size.toList).getD 1 [])).2 ≠ none
      · rw [if_pos hp] at hres; exact (fail _ hres).elim
      · rw [if_neg hp] at hres
        exact plain _ _ hres
    · rw [if_neg hpct] at hres
      exact (fail _ hres).elim

/-- Witness for C11: size `!300,300` succeeds with Enlarge set and Force clear. -/
theorem C11_force_enlarge_exclusive_witness :
    (request "full" "!300,300").SizeInstructions (imageOfSize 1000 500)
      = Outcome.returned
          (some { Width := 300, Height := 300, Enlarge := true, Force := false }, none)
    ∧ ¬ ((false : Bool) = true ∧ (true : Bool) = true) :=
  ⟨by decide!,
   C11_force_enlarge_exclusive (request "full" "!300,300") (imageOfSize 1000 500)
    { Width := 300, Height := 300, Enlarge := true, Force := false } (by decide!)⟩

/-! ## Rotation -/

theorem stringsHasPrefixBang_iff (s : List Char) :
    stringsHasPrefixBang s = true ↔ ∃ rest, s = '!' :: rest := by
  cases s with
  | nil => simp [stringsHasPrefixBang]
  | cons c cs => simp [stringsHasPrefixBang]

/-- `RotationInstructions` as a function of the trimmed rotation string. -/
theorem RotationInstructions_eq {σ : Type} (t : Transformation σ) (im : Image) :
    t.RotationInstructions im =
      if (ParseFloat (stringsTrimBang t.Rotation.toList)).2 = none then
        (some { Flip := stringsHasPrefixBang t.Rotation.toList,
                Angle := (ParseFloat (stringsTrimBang t.Rotation.toList)).1 }, none)
      else (none, some (GoError.errorsNew (Message.sprintf rotationError [t.Rotation]))) := by
  unfold Transformation.RotationInstructions
  dsimp only
  by_cases h : (ParseFloat (stringsTrimBang t.Rotation.toList)).2 = none
  · rw [if_neg (not_not.mpr h), if_pos h]
  · rw [if_pos h, if_neg h]

/-- C12 (amended): whenever `RotationInstructions` succeeds, Flip is true exactly
when the rotation string starts with `!`, Angle is the number that `ParseFloat`
reads from the string with every leading and trailing `!` removed (unchanged,
not reduced into `[0, 360)`), and the result is the same for every image. -/
theorem C12_rotation_flip_angle {σ : Type} (t : Transformation σ) (im : Image)
    (r : RotationInstruction) (hres : t.RotationInstructions im = (some r, none)) :
    (r.Flip = true ↔ ∃ rest, t.Rotation.toList = '!' :: rest) ∧
    ParseFloat (stringsTrimBang t.Rotation.toList) = (r.Angle, none) ∧
    ∀ im' : Image, t.RotationInstructions im' = (some r, none) := by
  rw [RotationInstructions_eq] at hres
  by_cases h : (ParseFloat (stringsTrimBang t.Rotation.toList)).2 = none
  · rw [if_pos h] at hres
    have hr := Option.some.inj (congrArg Prod.fst hres)
    refine ⟨?_, ?_, ?_⟩
    · rw [← hr]
      exact stringsHasPrefixBang_iff _
    · rw [← hr]
      exact Prod.ext rfl h
    · intro im'
      rw [RotationInstructions_eq, if_pos h, hr]
  · rw [if_neg h] at hres
    exact absurd (congrArg Prod.fst hres) (by simp)

/-- Witness for C12: `!90` yields `{flip:true, angle:90}`, `45.5` yields
`{flip:false, angle:45.5}`, `720` keeps the angle 720, and `abc` is an error. -/
theorem C12_rotation_flip_angle_witness :
    ParseFloat (stringsTrimBang "!90".toList) = (F64.fin false (90 * 2 ^ 1074), none)
    ∧ (requestRotation "!90" "jpg").RotationInstructions (imageOfSize 1000 600)
      = (some { Flip := true, Angle := F64.fin false (90 * 2 ^ 1074) }, none)
    ∧ (requestRotation "45.5" "jpg").RotationInstructions (imageOfSize 1000 600)
      = (some { Flip := false, Angle := F64.fin false (91 * 2 ^ 1073) }, none)
    ∧ (requestRotation "720" "jpg").RotationInstructions (imageOfSize 1000 600)
      = (some { Flip := false, Angle := F64.fin false (720 * 2 ^ 1074) }, none)
    ∧ (requestRotation "abc" "jpg").RotationInstructions (imageOfSize 1000 600)
      = (none, some (GoError.errorsNew (Message.sprintf rotationError ["abc"]))) :=
  ⟨(C12_rotation_flip_angle (requestRotation "!90" "jpg") (imageOfSize 1000 600)
      { Flip := true, Angle := F64.fin false (90 * 2 ^ 1074) } (by decide!)).2.1,
   by decide!, by decide!, by decide!, by decide!⟩

/-- C12 fails as stated: the rotation `90!` does not start with `!`, so the rest
of the string is the whole string, which `ParseFloat` rejects; yet
`RotationInstructions` succeeds with angle 90. -/
theorem C12_counterexample_trailing_bang :
    (requestRotation "90!" "jpg").RotationInstructions (imageOfSize 1000 600)
      = (some { Flip := false, Angle := F64.fin false (90 * 2 ^ 1074) }, none)
    ∧ (ParseFloat "90!".toList).2
      = some (GoError.numError "ParseFloat" "90!" NumErrKind.ErrSyntax) := by
  refine ⟨by decide!, by decide!⟩

/-- C17 (amended): `RotationInstructions` succeeds if and only if the rotation
string with every leading and every trailing `!` removed is accepted by
`ParseFloat`; every failure is the error
`errors.New(fmt.Sprintf(rotationError, rotation))`, which quotes the string. When
the string with at most one leading `!` removed neither starts nor ends with
`!`, derivation succeeds if and only if that remainder is accepted. -/
theorem C17_rotation_trim {σ : Type} (t : Transformation σ) (im : Image) :
    ((t.RotationInstructions im).2 = none ↔
      (ParseFloat (stringsTrimBang t.Rotation.toList)).2 = none) ∧
    ((t.RotationInstructions im).2 ≠ none →
      t.RotationInstructions im
        = (none, some (GoError.errorsNew (Message.sprintf rotationError [t.Rotation])))) ∧
    (∀ rest : List Char, (t.Rotation.toList = rest ∨ t.Rotation.toList = '!' :: rest) →
      (∀ c, rest.head? = some c → c ≠ '!') → (∀ c, rest.getLast? = some c → c ≠ '!') →
      ((t.RotationInstructions im).2 = none ↔ (ParseFloat rest).2 = none)) := by
  have key : (t.RotationInstructions im).2 = none ↔
      (ParseFloat (stringsTrimBang t.Rotation.toList)).2 = none := by
    rw [RotationInstructions_eq]
    by_cases h : (ParseFloat (stringsTrimBang t.Rotation.toList)).2 = none
    · rw [if_pos h]; exact ⟨fun _ => h, fun _ => rfl⟩
    · rw [if_neg h]; exact ⟨fun e => absurd e (by simp), fun e => absurd e h⟩
  refine ⟨key, ?_, ?_⟩
  · intro hne
    rw [RotationInstructions_eq]
    by_cases h : (ParseFloat (stringsTrimBang t.Rotation.toList)).2 = none
    · exact absurd (key.mpr h) hne
    · rw [if_neg h]
  · intro rest hrest h1 h2
    have htrim : stringsTrimBang t.Rotation.toList = rest := by
      rcases hrest with e | e
      · rw [e]; exact stringsTrimBang_id rest h1 h2
      · rw [e, stringsTrimBang_cons_bang]; exact stringsTrimBang_id rest h1 h2
    rw [key, htrim]

/-- Witness for C17: for `!90` the remainder `90` is accepted, and derivation
succeeds. -/
theorem C17_rotation_trim_witness :
    ((requestRotation "!90" "jpg").RotationInstructions (imageOfSize 1000 600)).2 = none ↔
      (ParseFloat "90".toList).2 = none :=
  (C17_rotation_trim (requestRotation "!90" "jpg") (imageOfSize 1000 600)).2.2 "90".toList
    (Or.inr (by decide)) (by decide) (by decide)

/-- C17 fails as stated: the rotation `!!90` with one leading `!` removed is
`!90`, which `ParseFloat` rejects; yet `RotationInstructions` succeeds, with
flip set and angle 90. -/
theorem C17_counterexample_double_bang :
    (requestRotation "!!90" "jpg").RotationInstructions (imageOfSize 1000 600)
      = (some { Flip := true, Angle := F64.fin false (90 * 2 ^ 1074) }, none)
    ∧ (ParseFloat "!90".toList).2
      = some (GoError.numError "ParseFloat" "!90" NumErrKind.ErrSyntax) := by
  refine ⟨by decide!, by decide!⟩

/-! ## Format -/

/-- The loop returns the name of the only entry whose pattern matches, wherever
that entry stands. -/
theorem formatLoop_unique (compile : String → Compiled) (format name pattern : String)
    (m : String → Bool) (hc : compile pattern = Compiled.ok m) (hm : m format = true)
    (order : List (String × String)) :
    (name, pattern) ∈ order →
    (∀ e ∈ order, e ≠ (name, pattern) →
      ∃ m', compile e.2 = Compiled.ok m' ∧ m' format = false) →
    formatLoop compile format order = (name, none) := by
  induction order with
  | nil => intro h; simp at h
  | cons e rest ih =>
    intro hmem hothers
    obtain ⟨n, p⟩ := e
    unfold formatLoop
    by_cases he : (n, p) = (name, pattern)
    · obtain ⟨rfl, rfl⟩ := Prod.mk.inj he
      simp [hc, hm]
    · obtain ⟨m', hc', hm'⟩ := hothers (n, p) (by simp) he
      simp only at hc'
      simp only [hc', hm', Bool.false_eq_true, if_false]
      apply ih
      · rcases List.mem_cons.mp hmem with h | h
        · exact absurd h.symm he
        · exact h
      · intro e' he' hne
        exact hothers e' (List.mem_cons_of_mem _ he') hne

/-- The loop returns the name of the first entry, in the order of the
iteration, whose pattern matches. -/
theorem formatLoop_first (compile : String → Compiled) (format name pattern : String)
    (m : String → Bool) (hc : compile pattern = Compiled.ok m) (hm : m format = true)
    (post : List (String × String)) (pre : List (String × String)) :
    (∀ e ∈ pre, ∃ m', compile e.2 = Compiled.ok m' ∧ m' format = false) →
    formatLoop compile format (pre ++ (name, pattern) :: post) = (name, none) := by
  induction pre with
  | nil => intro _; simp [formatLoop, hc, hm]
  | cons e rest ih =>
    intro hpre
    obtain ⟨n, p⟩ := e
    obtain ⟨m', hc', hm'⟩ := hpre (n, p) (by simp)
    simp only at hc'
    rw [List.cons_append]
    unfold formatLoop
    simp only [hc', hm', Bool.false_eq_true, if_false]
    exact ih (fun e' he' => hpre e' (List.mem_cons_of_mem _ he'))

/-- When every pattern compiles, the loop ends without error, either with the
empty name and no matching entry, or with the name of a matching entry. -/
theorem formatLoop_result (compile : String → Compiled) (format : String)
    (order : List (String × String)) :
    (∀ e ∈ order, ∃ m, compile e.2 = Compiled.ok m) →
    (formatLoop compile format order).2 = none ∧
    (((formatLoop compile format order).1 = "" ∧
        ∀ e ∈ order, ∀ m, compile e.2 = Compiled.ok m → m format = false) ∨
      ∃ e ∈ order, e.1 = (formatLoop compile format order).1 ∧
        ∃ m, compile e.2 = Compiled.ok m ∧ m format = true) := by
  induction order with
  | nil => intro _; simp [formatLoop]
  | cons e rest ih =>
    intro hall
    obtain ⟨n, p⟩ := e
    obtain ⟨m, hc⟩ := hall (n, p) (by simp)
    simp only at hc
    obtain ⟨ih1, ih2⟩ := ih (fun e' he' => hall e' (List.mem_cons_of_mem _ he'))
    unfold formatLoop
    simp only [hc]
    by_cases hm : m format = true
    · rw [if_pos hm]
      exact ⟨rfl, Or.inr ⟨(n, p), by simp, rfl, m, hc, hm⟩⟩
    · rw [if_neg hm]
      refine ⟨ih1, ?_⟩
      rcases ih2 with ⟨h1, h2⟩ | ⟨e', he', h1, h2⟩
      · left
        refine ⟨h1, ?_⟩
        intro e' he' m' hc'
        rcases List.mem_cons.mp he' with h | h
        · subst h
          simp only at hc'
          rw [hc] at hc'
          rw [← Compiled.ok.inj hc']
          simpa using hm
        · exact h2 e' h m' hc'
      · exact Or.inr ⟨e', List.mem_cons_of_mem _ he', h1, h2⟩

/-- C13 (amended): `FormatInstructions` visits the entries of the level's format
table in the order in which the run time yields them (the table is a Go map, so
any rearrangement `order` of it can occur) and returns the name of the first
visited entry whose pattern matches the format token. When exactly one entry of
the table matches, that name is returned for every order. When every pattern
compiles and none matches, the call fails with "failed to determine format" for
every order; and when all patterns compile and all names are non-empty, it
fails with that error only if no pattern matches. -/
theorem C13_format_first_match {σ : Type} (compile : String → Compiled)
    (t : Transformation σ) (im : Image) (order : List (String × String))
    (hperm : order.Perm t.level.ImageFormat) :
    (∀ pre post name pattern m, order = pre ++ (name, pattern) :: post →
      (∀ e ∈ pre, ∃ m', compile e.2 = Compiled.ok m' ∧ m' t.Format = false) →
      compile pattern = Compiled.ok m → m t.Format = true → name ≠ "" →
      t.FormatInstructions compile im order = (some { Format := name }, none)) ∧
    (∀ name pattern m, (name, pattern) ∈ t.level.ImageFormat →
      compile pattern = Compiled.ok m → m t.Format = true → name ≠ "" →
      (∀ e ∈ t.level.ImageFormat, e ≠ (name, pattern) →
        ∃ m', compile e.2 = Compiled.ok m' ∧ m' t.Format = false) →
      t.FormatInstructions compile im order = (some { Format := name }, none)) ∧
    ((∀ e ∈ t.level.ImageFormat, ∃ m', compile e.2 = Compiled.ok m' ∧ m' t.Format = false) →
      t.FormatInstructions compile im order
        = (none, some (GoError.errorsNew (Message.text "failed to determine format")))) ∧
    ((∀ e ∈ t.level.ImageFormat, e.1 ≠ "" ∧ ∃ m', compile e.2 = Compiled.ok m') →
      t.FormatInstructions compile im order
        = (none, some (GoError.errorsNew (Message.text "failed to determine format"))) →
      ∀ e ∈ t.level.ImageFormat, ∀ m', compile e.2 = Compiled.ok m' → m' t.Format = false) := by
  refine ⟨?_, ?_, ?_, ?_⟩
  · intro pre post name pattern m horder hpre hc hm hne
    unfold Transformation.FormatInstructions
    dsimp only
    rw [horder, formatLoop_first compile t.Format name pattern m hc hm post pre hpre]
    simp [hne]
  · intro name pattern m hmem hc hm hne hothers
    unfold Transformation.FormatInstructions
    dsimp only
    rw [formatLoop_unique compile t.Format name pattern m hc hm order
      (hperm.mem_iff.mpr hmem) (fun e he => hothers e (hperm.mem_iff.mp he))]
    simp [hne]
  · intro hnone
    unfold Transformation.FormatInstructions
    dsimp only
    have hall : ∀ e ∈ order, ∃ m, compile e.2 = Compiled.ok m := by
      intro e he
      obtain ⟨m, hc, _⟩ := hnone e (hperm.mem_iff.mp he)
      exact ⟨m, hc⟩
    obtain ⟨h1, h2⟩ := formatLoop_result compile t.Format order hall
    rcases h2 with ⟨h3, _⟩ | ⟨e, he, _, m, hc, hm⟩
    · rw [if_neg (not_not.mpr h1), if_pos h3]
    · obtain ⟨m', hc', hm'⟩ := hnone e (hperm.mem_iff.mp he)
      rw [hc] at hc'
      rw [Compiled.ok.inj hc', hm'] at hm
      exact absurd hm (by simp)
  · intro hwf hfail e he m' hc'
    unfold Transformation.FormatInstructions at hfail
    dsimp only at hfail
    have hall : ∀ e ∈ order, ∃ m, compile e.2 = Compiled.ok m := by
      intro e he
      exact (hwf e (hperm.mem_iff.mp he)).2
    obtain ⟨h1, h2⟩ := formatLoop_result compile t.Format order hall
    rw [if_neg (not_not.mpr h1)] at hfail
    rcases h2 with ⟨_, h4⟩ | ⟨e', he', h3, _⟩
    · exact h4 e (hperm.mem_iff.mpr he) m' hc'
    · have hne : (formatLoop compile t.Format order).1 ≠ "" := by
        rw [← h3]
        exact (hwf e' (hperm.mem_iff.mp he')).1
      rw [if_neg hne] at hfail
      exact absurd (congrArg Prod.fst hfail) (by simp)

/-- Witness for C13: with the table `{"jpg": "^jpe?g$", "png": "^png$"}` the
token `jpeg` resolves to `jpg`, also when the map is visited in the other
order, and `gif` is an error. -/
theorem C13_format_first_match_witness :
    (requestFormat [("jpg", "^jpe?g$"), ("png", "^png$")] "jpeg").FormatInstructions
        exampleCompile (imageOfSize 1000 600) [("png", "^png$"), ("jpg", "^jpe?g$")]
      = (some { Format := "jpg" }, none)
    ∧ (requestFormat [("jpg", "^jpe?g$"), ("png", "^png$")] "jpeg").FormatInstructions
        exampleCompile (imageOfSize 1000 600) [("jpg", "^jpe?g$"), ("png", "^png$")]
      = (some { Format := "jpg" }, none)
    ∧ (requestFormat [("jpg", "^jpe?g$"), ("png", "^png$")] "gif").FormatInstructions
        exampleCompile (imageOfSize 1000 600) [("jpg", "^jpe?g$"), ("png", "^png$")]
      = (none, some (GoError.errorsNew (Message.text "failed to determine format"))) :=
  ⟨(C13_format_first_match exampleCompile
      (requestFormat [("jpg", "^jpe?g$"), ("png", "^png$")] "jpeg") (imageOfSize 1000 600)
      [("png", "^png$"), ("jpg", "^jpe?g$")] (List.Perm.swap _ _ _)).2.1
      "jpg" "^jpe?g$" (fun s => s = "jpg" || s = "jpeg") (by decide) rfl (by decide)
      (by decide)
      (fun e he hne => by
        rcases List.mem_cons.mp he with h | h
        · exact absurd h hne
        · rcases List.mem_cons.mp h with h' | h'
          · rw [h']
            exact ⟨fun s => s = "png", rfl, by decide⟩
          · exact absurd h' (List.not_mem_nil e)),
   by decide, by decide⟩

/-- C13 fails as stated: with the table `{"jpg": "^jpe?g$", "jpeg": "^jpe?g$"}`
both patterns match the token `jpeg`; visiting the map in one order returns
`jpg`, in the other order `jpeg`, so the result is not a function of the table
and the token. -/
theorem C13_counterexample_map_order :
    (requestFormat [("jpg", "^jpe?g$"), ("jpeg", "^jpe?g$")] "jpeg").FormatInstructions
        exampleCompile (imageOfSize 1000 600) [("jpg", "^jpe?g$"), ("jpeg", "^jpe?g$")]
      = (some { Format := "jpg" }, none)
    ∧ (requestFormat [("jpg", "^jpe?g$"), ("jpeg", "^jpe?g$")] "jpeg").FormatInstructions
        exampleCompile (imageOfSize 1000 600) [("jpeg", "^jpe?g$"), ("jpg", "^jpe?g$")]
      = (some { Format := "jpeg" }, none)
    ∧ [("jpeg", "^jpe?g$"), ("jpg", "^jpe?g$")].Perm [("jpg", "^jpe?g$"), ("jpeg", "^jpe?g$")] := by
  refine ⟨by decide, by decide, List.Perm.swap _ _ _⟩

/-! ## Canonical URI: cutting, escaping and unescaping -/

theorem stringsCut_of_not_mem (sep : Char) (s : List Char) (h : sep ∉ s) :
    stringsCut sep s = (s, [], false) := by
  induction s with
  | nil => rfl
  | cons c cs ih =>
    have hc : c ≠ sep := fun e => h (by simp [e])
    have hcs : sep ∉ cs := fun e => h (by simp [e])
    unfold stringsCut
    rw [if_neg hc, ih hcs]

/-- What `strings.Cut` returns: the separator is not in the first part, and the
parts make up the string. -/
theorem stringsCut_spec (sep : Char) (s : List Char) :
    sep ∉ (stringsCut sep s).1 ∧
    ((stringsCut sep s).2.2 = true → s = (stringsCut sep s).1 ++ sep :: (stringsCut sep s).2.1) ∧
    ((stringsCut sep s).2.2 = false → s = (stringsCut sep s).1 ∧ (stringsCut sep s).2.1 = []) := by
  induction s with
  | nil => exact ⟨by simp [stringsCut], by simp [stringsCut], by simp [stringsCut]⟩
  | cons c cs ih =>
    unfold stringsCut
    by_cases hc : c = sep
    · rw [if_pos hc]
      refine ⟨by simp, fun _ => by simp [hc], fun h => absurd h (by simp)⟩
    · rw [if_neg hc]
      refine ⟨?_, ?_, ?_⟩
      · intro hm
        rcases List.mem_cons.mp hm with e | e
        · exact hc e.symm
        · exact ih.1 e
      · intro h
        have := ih.2.1 h
        show c :: cs = (c :: (stringsCut sep cs).1) ++ sep :: (stringsCut sep cs).2.1
        rw [List.cons_append, ← this]
      · intro h
        have := ih.2.2 h
        exact ⟨by show c :: cs = c :: (stringsCut sep cs).1; rw [← this.1], this.2⟩

theorem stringsCut_subset (sep : Char) (s : List Char) :
    (∀ c ∈ (stringsCut sep s).1, c ∈ s) ∧ (∀ c ∈ (stringsCut sep s).2.1, c ∈ s) := by
  have h := stringsCut_spec sep s
  cases hf : (stringsCut sep s).2.2 with
  | true =>
    have e := h.2.1 hf
    constructor
    · intro c hc; rw [e]; exact List.mem_append_left _ hc
    · intro c hc; rw [e]; exact List.mem_append_right _ (List.mem_cons_of_mem _ hc)
  | false =>
    have e := h.2.2 hf
    constructor
    · intro c hc; rw [e.1]; exact hc
    · intro c hc; rw [e.2] at hc; exact absurd hc (List.not_mem_nil c)

theorem PathUnescape_cons_ne (c : Char) (l : List Char) (hc : c ≠ '%') :
    PathUnescape (c :: l) = (PathUnescape l).map (List.cons c) := by
  cases l with
  | nil => simp [PathUnescape, hc]
  | cons d l2 =>
    cases l2 with
    | nil => simp [PathUnescape, hc]
    | cons e l3 => simp [PathUnescape, hc]

theorem PathUnescape_percent (a b : Char) (rest : List Char) (ha : ishex a = true)
    (hb : ishex b = true) :
    PathUnescape ('%' :: a :: b :: rest)
      = (PathUnescape rest).map (List.cons (Char.ofNat (unhex a * 16 + unhex b))) := by
  rw [PathUnescape, if_pos rfl, if_pos ⟨ha, hb⟩]

theorem Decodes_nil : Decodes [] [] := by
  intro tail
  simp

theorem Decodes_cons (c : Char) (hc : c ≠ '%') (a b : List Char) (h : Decodes a b) :
    Decodes (c :: a) (c :: b) := by
  intro tail
  rw [List.cons_append, PathUnescape_cons_ne c _ hc, h tail]
  cases PathUnescape tail <;> simp

/-- A text without `%` unescapes to itself. -/
theorem Decodes_verbatim (a : List Char) (h : '%' ∉ a) : Decodes a a := by
  induction a with
  | nil => exact Decodes_nil
  | cons c cs ih =>
    exact Decodes_cons c (fun e => h (by simp [e])) cs cs (ih (fun e => h (by simp [e])))

theorem Decodes_append (a a' b b' : List Char) (ha : Decodes a a') (hb : Decodes b b') :
    Decodes (a ++ b) (a' ++ b') := by
  intro tail
  rw [List.append_assoc, ha (b ++ tail), hb tail]
  cases PathUnescape tail <;> simp

theorem Decodes_result (a b : List Char) (h : Decodes a b) : PathUnescape a = some b := by
  have := h []
  simpa [PathUnescape] using this

theorem upperhex_mem (k : Nat) : upperhex k ∈ "0123456789ABCDEF".toList := by
  unfold upperhex
  by_cases hk : k < 16
  · have : ∀ k, k < 16 → "0123456789ABCDEF".toList.getD k '0' ∈ "0123456789ABCDEF".toList := by
      decide
    exact this k hk
  · rw [List.getD_eq_default _ _ (by simp only [String.toList]; simp; omega)]
    decide

theorem upperhex_facts : ∀ k, k < 16 → ishex (upperhex k) = true ∧ unhex (upperhex k) = k := by
  decide

theorem escape_cons (c : Char) (cs : List Char) (mode : Encoding) :
    escape (c :: cs) mode =
      (if shouldEscape c mode = true
        then ['%', upperhex (c.toNat / 16), upperhex (c.toNat % 16)] else [c])
        ++ escape cs mode := by
  unfold escape
  rw [List.flatMap_cons]

theorem shouldEscape_percent (mode : Encoding) : shouldEscape '%' mode = true := by
  cases mode <;> decide

/-- Unescaping undoes `escape` on byte strings. -/
theorem Decodes_escape (s : List Char) (mode : Encoding) (h : ∀ c ∈ s, c.toNat < 256) :
    Decodes (escape s mode) s := by
  induction s with
  | nil => exact Decodes_nil
  | cons c cs ih =>
    have ih' := ih (fun d hd => h d (List.mem_cons_of_mem _ hd))
    have hc := h c (by simp)
    rw [escape_cons]
    by_cases hesc : shouldEscape c mode = true
    · rw [if_pos hesc]
      have f1 := upperhex_facts (c.toNat / 16) (by omega)
      have f2 := upperhex_facts (c.toNat % 16) (by omega)
      intro tail
      show PathUnescape ('%' :: upperhex (c.toNat / 16) :: upperhex (c.toNat % 16)
        :: (escape cs mode ++ tail)) = _
      rw [PathUnescape_percent _ _ _ f1.1 f2.1, ih' tail, f1.2, f2.2]
      have hn : c.toNat / 16 * 16 + c.toNat % 16 = c.toNat := by omega
      rw [hn, Char.ofNat_toNat]
      cases PathUnescape tail <;> simp
    · rw [if_neg hesc]
      have hne : c ≠ '%' := by
        intro e2
        rw [e2, shouldEscape_percent] at hesc
        exact hesc rfl
      exact Decodes_cons c hne _ _ ih'

/-- Escaping introduces no character other than `%` and hexadecimal digits. -/
theorem escape_not_mem (x : Char) (s : List Char) (mode : Encoding) (h : x ∉ s)
    (hx : x ≠ '%') (hhex : x ∉ "0123456789ABCDEF".toList) : x ∉ escape s mode := by
  induction s with
  | nil => simp [escape]
  | cons c cs ih =>
    have hc : c ≠ x := fun e => h (by simp [e])
    have ih' := ih (fun e => h (List.mem_cons_of_mem _ e))
    rw [escape_cons]
    have g : ∀ k, upperhex k ≠ x := fun k e => hhex (e ▸ upperhex_mem k)
    by_cases hesc : shouldEscape c mode = true
    · rw [if_pos hesc]
      intro hm
      rcases List.mem_append.mp hm with hm | hm
      · simp only [List.mem_cons, List.mem_singleton, List.not_mem_nil, or_false] at hm
        rcases hm with hm | hm | hm
        · exact hx hm
        · exact g _ hm.symm
        · exact g _ hm.symm
      · exact ih' hm
    · rw [if_neg hesc]
      intro hm
      rcases List.mem_append.mp hm with hm | hm
      · exact hc (List.mem_singleton.mp hm).symm
      · exact ih' hm

theorem shouldEscape_hex (mode : Encoding) :
    ∀ c ∈ "0123456789ABCDEF".toList, shouldEscape c mode = false := by
  cases mode <;> decide

/-- The output of `escape` is a valid encoding. -/
theorem validEncoded_escape (s : List Char) (mode : Encoding) :
    validEncoded (escape s mode) mode = true := by
  unfold validEncoded
  rw [List.all_eq_true]
  induction s with
  | nil => intro c hc; simp [escape] at hc
  | cons d ds ih =>
    intro c hc
    rw [escape_cons] at hc
    rcases List.mem_append.mp hc with hm | hm
    · by_cases hesc : shouldEscape d mode = true
      · rw [if_pos hesc] at hm
        simp only [List.mem_cons, List.mem_singleton, List.not_mem_nil, or_false] at hm
        rcases hm with hm | hm | hm
        · rw [hm]; simp
        · rw [hm, shouldEscape_hex mode _ (upperhex_mem _)]; simp
        · rw [hm, shouldEscape_hex mode _ (upperhex_mem _)]; simp
      · rw [if_neg hesc] at hm
        rw [List.mem_singleton.mp hm]
        simp [hesc]
    · exact ih c hm

/-- A string none of whose characters needs escaping is its own escaped form. -/
theorem escape_id (s : List Char) (mode : Encoding) (h : ∀ c ∈ s, shouldEscape c mode = false) :
    escape s mode = s := by
  induction s with
  | nil => simp [escape]
  | cons c cs ih =>
    rw [escape_cons, if_neg (by rw [h c (by simp)]; simp),
      ih (fun d hd => h d (List.mem_cons_of_mem _ hd))]
    rfl

/-! ## Canonical URI: `url.Parse` and `String` -/

/-- What `getScheme` finds: no scheme and the whole string, or a non-empty
scheme, a colon and the rest. -/
theorem getSchemeFrom_spec (raw : List Char) : ∀ (rest seen : List Char),
    raw = seen ++ rest → (seen = [] → rest.head? ≠ some ':') →
    getSchemeFrom raw seen rest = ([], raw) ∨
      ((getSchemeFrom raw seen rest).1 ≠ [] ∧
        raw = (getSchemeFrom raw seen rest).1 ++ ':' :: (getSchemeFrom raw seen rest).2) := by
  intro rest
  induction rest with
  | nil => intro seen _ _; left; rfl
  | cons c cs ih =>
    intro seen hraw hhead
    have hstep : raw = (seen ++ [c]) ++ cs := by rw [hraw]; simp
    have hne : seen ++ [c] = [] → cs.head? ≠ some ':' := fun e => absurd e (by simp)
    unfold getSchemeFrom
    by_cases h1 : ('a' ≤ c ∧ c ≤ 'z') ∨ ('A' ≤ c ∧ c ≤ 'Z')
    · rw [if_pos h1]; exact ih _ hstep hne
    rw [if_neg h1]
    by_cases h2 : ('0' ≤ c ∧ c ≤ '9') ∨ c = '+' ∨ c = '-' ∨ c = '.'
    · rw [if_pos h2]
      by_cases hs : seen = []
      · rw [if_pos hs]; left; rfl
      · rw [if_neg hs]; exact ih _ hstep hne
    rw [if_neg h2]
    by_cases h3 : c = ':'
    · rw [if_pos h3]
      right
      have hs : seen ≠ [] := by
        intro e
        exact hhead e (by simp [h3])
      exact ⟨hs, by rw [hraw, h3]⟩
    · rw [if_neg h3]; left; rfl

theorem getScheme_spec (w sch rest0 : List Char) (h : getScheme w = some (sch, rest0)) :
    (sch = [] ∧ rest0 = w) ∨ (sch ≠ [] ∧ w = sch ++ ':' :: rest0) := by
  unfold getScheme at h
  by_cases hh : w.head? = some ':'
  · rw [if_pos hh] at h; exact absurd h (by simp)
  · rw [if_neg hh] at h
    have e := Option.some.inj h
    rcases getSchemeFrom_spec w w [] rfl (fun _ => hh) with h1 | h1
    · rw [e] at h1
      left
      exact ⟨congrArg Prod.fst h1, congrArg Prod.snd h1⟩
    · rw [e] at h1
      right
      exact h1

theorem getSchemeFrom_no_colon (raw : List Char) : ∀ (rest seen : List Char), ':' ∉ rest →
    getSchemeFrom raw seen rest = ([], raw) := by
  intro rest
  induction rest with
  | nil => intro seen _; rfl
  | cons c cs ih =>
    intro seen h
    have hc : c ≠ ':' := fun e => h (by simp [e])
    have hcs : ':' ∉ cs := fun e => h (List.mem_cons_of_mem _ e)
    unfold getSchemeFrom
    by_cases h1 : ('a' ≤ c ∧ c ≤ 'z') ∨ ('A' ≤ c ∧ c ≤ 'Z')
    · rw [if_pos h1]; exact ih _ hcs
    rw [if_neg h1]
    by_cases h2 : ('0' ≤ c ∧ c ≤ '9') ∨ c = '+' ∨ c = '-' ∨ c = '.'
    · rw [if_pos h2]
      by_cases hs : seen = []
      · rw [if_pos hs]
      · rw [if_neg hs]; exact ih _ hcs
    rw [if_neg h2, if_neg hc]

/-- The path and the query that `parse` splits the rest into make up the rest
again when the query is written as `String` writes it. -/
theorem query_split (rest0 : List Char) (force : Bool)
    (hforce : force = decide (rest0.getLast? = some '?' ∧ rest0.count '?' = 1)) :
    (if force = true then rest0.dropLast else (stringsCut '?' rest0).1) ++
      (if force = true ∨ (if force = true then [] else (stringsCut '?' rest0).2.1) ≠ []
        then '?' :: (if force = true then [] else (stringsCut '?' rest0).2.1) else [])
      = rest0 := by
  cases force with
  | true =>
    have hf := of_decide_eq_true hforce.symm
    simp only [if_true, true_or]
    exact List.dropLast_append_getLast? _ hf.1
  | false =>
    have hf := of_decide_eq_false hforce.symm
    simp only [Bool.false_eq_true, if_false, false_or]
    have hs := stringsCut_spec '?' rest0
    cases hfound : (stringsCut '?' rest0).2.2 with
    | true =>
      have e := hs.2.1 hfound
      by_cases hq : (stringsCut '?' rest0).2.1 = []
      · exfalso
        apply hf
        rw [hq] at e
        rw [e]
        refine ⟨by simp, ?_⟩
        rw [List.count_append, List.count_eq_zero_of_not_mem hs.1]
        rfl
      · rw [if_pos hq]
        exact e.symm
    | false =>
      have e := hs.2.2 hfound
      rw [if_neg (by rw [e.2]; simp), List.append_nil]
      exact e.1.symm

theorem query_split_subset (rest0 : List Char) (force : Bool) :
    (∀ c ∈ (if force = true then rest0.dropLast else (stringsCut '?' rest0).1), c ∈ rest0) := by
  intro c hc
  cases force with
  | true => exact List.dropLast_subset _ hc
  | false => exact (stringsCut_subset '?' rest0).1 c hc

theorem escape_nil (mode : Encoding) : escape [] mode = [] := rfl

/-- `EscapedPath` of a URL whose path was set from a text without `%`. -/
theorem EscapedPath_plain (u : URL) (p : List Char) (hp : '%' ∉ p) (hP : u.Path = p)
    (hR : u.RawPath = if escape p Encoding.encodePath = p then [] else p) :
    (u.EscapedPath = p ∨ u.EscapedPath = escape p Encoding.encodePath) ∧
    validEncoded u.EscapedPath Encoding.encodePath = true := by
  unfold URL.EscapedPath
  rw [hP, hR]
  by_cases he : escape p Encoding.encodePath = p
  · rw [if_pos he, if_neg (fun h => h.1 rfl)]
    by_cases hstar : p = ['*']
    · exfalso
      rw [hstar] at he
      exact absurd he (by decide)
    · rw [if_neg hstar]
      exact ⟨Or.inr rfl, validEncoded_escape p _⟩
  · rw [if_neg he]
    have hne : p ≠ [] := fun e => he (by rw [e]; rfl)
    by_cases hv : validEncoded p Encoding.encodePath = true
    · rw [if_pos ⟨hne, hv, Decodes_result _ _ (Decodes_verbatim p hp)⟩]
      exact ⟨Or.inl rfl, hv⟩
    · rw [if_neg (fun h => hv h.2.1)]
      have hstar : p ≠ ['*'] := by
        intro e
        rw [e] at hv
        exact hv (by decide)
      rw [if_neg hstar]
      exact ⟨Or.inr rfl, validEncoded_escape p _⟩

/-- `EscapedFragment` of a URL whose fragment was set from a text without `%`. -/
theorem EscapedFragment_plain (u : URL) (f : List Char) (hf : '%' ∉ f) (hF : u.Fragment = f)
    (hR : u.RawFragment = if escape f Encoding.encodeFragment = f then [] else f) :
    u.EscapedFragment = f ∨ u.EscapedFragment = escape f Encoding.encodeFragment := by
  unfold URL.EscapedFragment
  rw [hF, hR]
  by_cases he : escape f Encoding.encodeFragment = f
  · rw [if_pos he, if_neg (fun h => h.1 rfl)]
    exact Or.inr rfl
  · rw [if_neg he]
    have hne : f ≠ [] := fun e => he (by rw [e]; rfl)
    by_cases hv : validEncoded f Encoding.encodeFragment = true
    · rw [if_pos ⟨hne, hv, Decodes_result _ _ (Decodes_verbatim f hf)⟩]
      exact Or.inl rfl
    · rw [if_neg (fun h => hv h.2.1)]
      exact Or.inr rfl

theorem hex_chars_no_slash_colon :
    '/' ∉ "0123456789ABCDEF".toList ∧ ':' ∉ "0123456789ABCDEF".toList := by decide

/-- A text that is `p` or its escaped form has none of the characters `/` and
`:` that `p` lacks, and unescapes to `p`. -/
theorem escaped_form_facts (ep p : List Char) (mode : Encoding)
    (h : ep = p ∨ ep = escape p mode) (hp : '%' ∉ p) (hascii : ∀ c ∈ p, c.toNat < 256) :
    ('/' ∉ p → '/' ∉ ep) ∧ (':' ∉ p → ':' ∉ ep) ∧ Decodes ep p := by
  rcases h with e | e
  · rw [e]; exact ⟨id, id, Decodes_verbatim p hp⟩
  · rw [e]
    exact ⟨fun hs => escape_not_mem '/' p mode hs (by decide) hex_chars_no_slash_colon.1,
      fun hs => escape_not_mem ':' p mode hs (by decide) hex_chars_no_slash_colon.2,
      Decodes_escape p mode hascii⟩

/-- `parse` on a string without `/`, `%` and fragment, whose scheme is in lower
case: what `String` writes is free of `/` and unescapes to the string. -/
theorem urlParseNoFragment_round_trip (w : List Char) (u : URL)
    (hu : urlParseNoFragment w = ParseOutcome.ok u)
    (hslash : '/' ∉ w) (hpct : '%' ∉ w) (hascii : ∀ c ∈ w, c.toNat < 256)
    (hlow : ∀ sch rest, getScheme w = some (sch, rest) → stringsToLower sch = sch) :
    u.Fragment = [] ∧ '/' ∉ u.stringNoFragment ∧ Decodes u.stringNoFragment w := by
  unfold urlParseNoFragment at hu
  by_cases hctl : (w.any (fun c => c.toNat < 32 ∨ c.toNat = 127)) = true
  · rw [if_pos hctl] at hu; exact absurd hu (by simp)
  rw [if_neg hctl] at hu
  by_cases hstar : w = ['*']
  · rw [if_pos hstar] at hu
    have e := ParseOutcome.ok.inj hu
    rw [← e, hstar]
    exact ⟨rfl, by decide, Decodes_verbatim _ (by decide)⟩
  rw [if_neg hstar] at hu
  cases hg : getScheme w with
  | none => rw [hg] at hu; exact absurd hu (by simp)
  | some p =>
    obtain ⟨sch, rest0⟩ := p
    rw [hg] at hu
    dsimp only at hu
    have hsplit := query_split rest0 _ rfl
    have hsub := query_split_subset rest0
      (decide (rest0.getLast? = some '?' ∧ rest0.count '?' = 1))
    generalize hforce : decide (rest0.getLast? = some '?' ∧ rest0.count '?' = 1) = force
      at hu hsplit hsub
    generalize hrest : (if force = true then rest0.dropLast else (stringsCut '?' rest0).1) = rest
      at hu hsplit hsub
    generalize hquery : (if force = true then [] else (stringsCut '?' rest0).2.1) = query
      at hu hsplit
    have hw0 : ∀ c ∈ rest0, c ∈ w := by
      rcases getScheme_spec w sch rest0 hg with h | h
      · intro c hc; rw [← h.2]; exact hc
      · intro c hc; rw [h.2]; exact List.mem_append_right _ (List.mem_cons_of_mem _ hc)
    have hrs : '/' ∉ rest := fun h => hslash (hw0 _ (hsub _ h))
    have hrp : '%' ∉ rest := fun h => hpct (hw0 _ (hsub _ h))
    have hra : ∀ c ∈ rest, c.toNat < 256 := fun c hc => hascii c (hw0 _ (hsub _ hc))
    have hqsub : ∀ c ∈ (if force = true ∨ query ≠ [] then '?' :: query else []), c ∈ w := by
      intro c hc
      apply hw0
      rw [← hsplit]
      exact List.mem_append_right _ hc
    by_cases hhead : rest.head? = some '/'
    · rw [if_pos hhead] at hu; exact absurd hu (by simp)
    rw [if_neg hhead] at hu
    by_cases hsch : sch ≠ []
    · rw [if_pos hsch] at hu
      have e := ParseOutcome.ok.inj hu
      have hwe : w = sch ++ ':' :: rest0 := by
        rcases getScheme_spec w sch rest0 hg with h | h
        · exact absurd h.1 hsch
        · exact h.2
      have hstr : u.stringNoFragment = w := by
        rw [← e]
        unfold URL.stringNoFragment URL.EscapedPath
        dsimp only
        rw [hlow sch rest0 hg, if_pos hsch, hwe, ← hsplit]
        by_cases hr : rest = []
        · rw [hr]
          simp [escape, hsch]
        · rw [if_pos hr]
          simp
      rw [hstr]
      exact ⟨by rw [← e], hslash, Decodes_verbatim w hpct⟩
    · rw [if_neg hsch] at hu
      have hsn : sch = [] := not_not.mp hsch
      have hwe : rest0 = w := by
        rcases getScheme_spec w sch rest0 hg with h | h
        · exact h.2
        · exact absurd hsn h.1
      by_cases hcol : ':' ∈ (stringsCut '/' rest).1
      · rw [if_pos hcol] at hu; exact absurd hu (by simp)
      rw [if_neg hcol, Decodes_result _ _ (Decodes_verbatim rest hrp)] at hu
      dsimp only at hu
      have e := ParseOutcome.ok.inj hu
      subst e
      rw [stringsCut_of_not_mem '/' rest hrs] at hcol
      have hep := EscapedPath_plain
        { Scheme := [], Opaque := [], Path := rest,
          RawPath := if escape rest Encoding.encodePath = rest then [] else rest,
          ForceQuery := force, RawQuery := query, Fragment := [], RawFragment := [] }
        rest hrp rfl rfl
      have hfacts := escaped_form_facts _ rest Encoding.encodePath hep.1 hrp hra
      generalize hepd : URL.EscapedPath
        { Scheme := [], Opaque := [], Path := rest,
          RawPath := if escape rest Encoding.encodePath = rest then [] else rest,
          ForceQuery := force, RawQuery := query, Fragment := [], RawFragment := [] } = ep
        at hfacts
      have hstr : URL.stringNoFragment
          { Scheme := [], Opaque := [], Path := rest,
            RawPath := if escape rest Encoding.encodePath = rest then [] else rest,
            ForceQuery := force, RawQuery := query, Fragment := [], RawFragment := [] } =
          ep ++ (if force = true ∨ query ≠ [] then '?' :: query else []) := by
        have hno : ':' ∉ (stringsCut '/' ep).1 :=
          fun h => hfacts.2.1 hcol ((stringsCut_subset '/' _).1 _ h)
        unfold URL.stringNoFragment
        rw [hepd]
        dsimp only
        simp [hno]
      rw [hstr]
      refine ⟨rfl, ?_, ?_⟩
      · intro hm
        rcases List.mem_append.mp hm with h | h
        · exact hfacts.1 hrs h
        · exact hslash (hqsub _ h)
      · have hd := Decodes_append _ _ _ _ hfacts.2.2
          (Decodes_verbatim (if force = true ∨ query ≠ [] then '?' :: query else [])
            (fun h => hpct (hqsub _ h)))
        rw [hsplit, hwe] at hd
        exact hd

/-- A string without `/` is inside the model of `parse`. -/
theorem urlParseNoFragment_modelled (w : List Char) (hslash : '/' ∉ w) :
    urlParseNoFragment w ≠ ParseOutcome.unmodelled := by
  unfold urlParseNoFragment
  by_cases hctl : (w.any (fun c => c.toNat < 32 ∨ c.toNat = 127)) = true
  · rw [if_pos hctl]; simp
  rw [if_neg hctl]
  by_cases hstar : w = ['*']
  · rw [if_pos hstar]; simp
  rw [if_neg hstar]
  cases hg : getScheme w with
  | none => simp
  | some p =>
    obtain ⟨sch, rest0⟩ := p
    dsimp only
    have hsub := query_split_subset rest0
      (decide (rest0.getLast? = some '?' ∧ rest0.count '?' = 1))
    have hw0 : ∀ c ∈ rest0, c ∈ w := by
      rcases getScheme_spec w sch rest0 hg with h | h
      · intro c hc; rw [← h.2]; exact hc
      · intro c hc; rw [h.2]; exact List.mem_append_right _ (List.mem_cons_of_mem _ hc)
    generalize decide (rest0.getLast? = some '?' ∧ rest0.count '?' = 1) = force at hsub ⊢
    generalize (if force = true then rest0.dropLast else (stringsCut '?' rest0).1) = rest
      at hsub ⊢
    generalize (if force = true then [] else (stringsCut '?' rest0).2.1) = query
    have hhead : ¬ rest.head? = some '/' := by
      intro h
      exact hslash (hw0 _ (hsub _ (List.mem_of_mem_head? h)))
    rw [if_neg hhead]
    by_cases hsch : sch ≠ []
    · rw [if_pos hsch]; simp
    rw [if_neg hsch]
    by_cases hcol : ':' ∈ (stringsCut '/' rest).1
    · rw [if_pos hcol]; simp
    rw [if_neg hcol]
    cases PathUnescape rest <;> simp

/-- `url.Parse` followed by `String` on a string without `/` and `%`, whose
scheme is in lower case and which does not end at its first `#`: the result is
free of `/` and unescapes to the string. -/
theorem urlParse_round_trip (v : List Char) (u : URL) (hu : urlParse v = ParseOutcome.ok u)
    (hslash : '/' ∉ v) (hpct : '%' ∉ v) (hascii : ∀ c ∈ v, c.toNat < 256)
    (hlow : schemeInLowerCase v = true) (hhash : endsAtFirstHash v = false) :
    '/' ∉ u.String ∧ PathUnescape u.String = some v := by
  have hcut := stringsCut_spec '#' v
  have hsub := stringsCut_subset '#' v
  have hlow' : ∀ sch rest, getScheme (stringsCut '#' v).1 = some (sch, rest) →
      stringsToLower sch = sch := by
    intro sch rest hg
    unfold schemeInLowerCase at hlow
    rw [hg] at hlow
    exact of_decide_eq_true hlow
  unfold urlParse at hu
  cases hnf : urlParseNoFragment (stringsCut '#' v).1 with
  | failed err => rw [hnf] at hu; exact absurd hu (by simp)
  | unmodelled => rw [hnf] at hu; exact absurd hu (by simp)
  | ok u0 =>
    rw [hnf] at hu
    dsimp only at hu
    have main := urlParseNoFragment_round_trip _ u0 hnf
      (fun h => hslash (hsub.1 _ h)) (fun h => hpct (hsub.1 _ h))
      (fun c hc => hascii c (hsub.1 _ hc)) hlow'
    by_cases hfrag : (stringsCut '#' v).2.1 = []
    · rw [if_pos hfrag] at hu
      have e := ParseOutcome.ok.inj hu
      rw [← e]
      have hfound : (stringsCut '#' v).2.2 = false := by
        cases hf : (stringsCut '#' v).2.2 with
        | false => rfl
        | true =>
          unfold endsAtFirstHash at hhash
          rw [hf, hfrag] at hhash
          exact absurd hhash (by simp)
      have hv := (hcut.2.2 hfound).1
      have hstr : u0.String = u0.stringNoFragment := by
        unfold URL.String
        rw [main.1]
        simp
      rw [hstr]
      refine ⟨main.2.1, ?_⟩
      have := Decodes_result _ _ main.2.2
      rw [← hv] at this
      exact this
    · rw [if_neg hfrag] at hu
      have hfound : (stringsCut '#' v).2.2 = true := by
        cases hf : (stringsCut '#' v).2.2 with
        | true => rfl
        | false => exact absurd (hcut.2.2 hf).2 hfrag
      have hv := hcut.2.1 hfound
      have hfp : '%' ∉ (stringsCut '#' v).2.1 := fun h => hpct (hsub.2 _ h)
      have hfs : '/' ∉ (stringsCut '#' v).2.1 := fun h => hslash (hsub.2 _ h)
      have hfa : ∀ c ∈ (stringsCut '#' v).2.1, c.toNat < 256 :=
        fun c hc => hascii c (hsub.2 _ hc)
      rw [Decodes_result _ _ (Decodes_verbatim _ hfp)] at hu
      dsimp only at hu
      have e := ParseOutcome.ok.inj hu
      generalize (stringsCut '#' v).2.1 = frag at hfrag hv hfp hfs hfa e
      generalize (stringsCut '#' v).1 = w at hv main
      have hef := EscapedFragment_plain u frag hfp (by rw [← e]) (by rw [← e])
      have hfacts := escaped_form_facts u.EscapedFragment frag Encoding.encodeFragment hef hfp hfa
      have hstr : u.String = u0.stringNoFragment ++ '#' :: u.EscapedFragment := by
        unfold URL.String
        have h1 : u.stringNoFragment = u0.stringNoFragment := by rw [← e]; rfl
        have h2 : u.Fragment = frag := by rw [← e]
        rw [h1, h2, if_pos hfrag]
      rw [hstr]
      constructor
      · intro hm
        rcases List.mem_append.mp hm with h | h
        · exact main.2.1 h
        · rcases List.mem_cons.mp h with h | h
          · exact absurd h (by decide)
          · exact hfacts.1 hfs h
      · have hd := Decodes_append _ _ _ _ main.2.2
          (Decodes_cons '#' (by decide) _ _ hfacts.2.2)
        rw [← hv] at hd
        exact Decodes_result _ _ hd

/-- The same for `urlParseString`: whenever it succeeds on such a string, the
result has no `/` and unescapes to the string. -/
theorem urlParseString_round_trip (other : List Char → List Char × Option GoError)
    (v : List Char) (hbytes : ∀ c ∈ v, c.toNat < 256)
    (hslash : '/' ∉ v) (hpct : '%' ∉ v)
    (hlow : schemeInLowerCase v = true) (hhash : endsAtFirstHash v = false)
    (hok : (urlParseString other v).2 = none) :
    '/' ∉ (urlParseString other v).1 ∧
    PathUnescape (urlParseString other v).1 = some v := by
  have hmod : urlParse v ≠ ParseOutcome.unmodelled := by
    unfold urlParse
    have hsub := stringsCut_subset '#' v
    have h0 := urlParseNoFragment_modelled (stringsCut '#' v).1
      (fun h => hslash (hsub.1 _ h))
    cases hnf : urlParseNoFragment (stringsCut '#' v).1 with
    | failed err => simp
    | unmodelled => exact absurd hnf h0
    | ok u0 =>
      dsimp only
      by_cases hfrag : (stringsCut '#' v).2.1 = []
      · rw [if_pos hfrag]; simp
      · rw [if_neg hfrag]
        cases PathUnescape (stringsCut '#' v).2.1 <;> simp
  unfold urlParseString at hok ⊢
  cases hp : urlParse v with
  | failed err => rw [hp] at hok; exact absurd hok (by simp)
  | unmodelled => exact absurd hp hmod
  | ok u =>
    exact urlParse_round_trip v u hp hslash hpct hbytes hlow hhash

/-- What `plainRelativePath` says about the characters of a string. -/
theorem plainRelativePath_chars (s : List Char) (h : plainRelativePath s = true) :
    (∀ c ∈ s, 32 ≤ c.toNat ∧ c.toNat ≠ 127 ∧ c.toNat < 256) ∧ '#' ∉ s ∧ '?' ∉ s ∧ ':' ∉ s ∧
    '%' ∉ s ∧ s.head? ≠ some '/' := by
  unfold plainRelativePath at h
  rw [Bool.and_eq_true, List.all_eq_true] at h
  have hc : ∀ c ∈ s, 32 ≤ c.toNat ∧ c.toNat ≠ 127 ∧ c.toNat < 256
      ∧ c ≠ '#' ∧ c ≠ '?' ∧ c ≠ ':' ∧ c ≠ '%' := by
    intro c hc
    have := h.1 c hc
    simpa using this
  refine ⟨fun c hm => ⟨(hc c hm).1, (hc c hm).2.1, (hc c hm).2.2.1⟩,
    fun hm => (hc _ hm).2.2.2.1 rfl,
    fun hm => (hc _ hm).2.2.2.2.1 rfl, fun hm => (hc _ hm).2.2.2.2.2.1 rfl,
    fun hm => (hc _ hm).2.2.2.2.2.2 rfl, of_decide_eq_true h.2⟩

/-- On a plain relative path `url.Parse` succeeds, and `String` returns the path
or its escaped form, in either case a valid encoding. -/
theorem urlParse_plain (s : List Char) (h : plainRelativePath s = true) :
    ∃ u, urlParse s = ParseOutcome.ok u ∧ (u.String = s ∨ u.String = escape s Encoding.encodePath)
      ∧ validEncoded u.String Encoding.encodePath = true := by
  obtain ⟨hprint, hhash, hq, hcol, hpct, hhead⟩ := plainRelativePath_chars s h
  have hctl : ¬ (s.any (fun c => c.toNat < 32 ∨ c.toNat = 127)) = true := by
    intro hc
    obtain ⟨c, hm, hp⟩ := List.any_eq_true.mp hc
    have := hprint c hm
    simp only [decide_eq_true_eq] at hp
    omega
  by_cases hstar : s = ['*']
  · refine ⟨{ Scheme := [], Opaque := [], Path := ['*'], RawPath := [], ForceQuery := false,
              RawQuery := [], Fragment := [], RawFragment := [] }, ?_, ?_, ?_⟩
    · rw [hstar]; decide
    · left; rw [hstar]; decide
    · decide
  have hforce : decide (s.getLast? = some '?' ∧ s.count '?' = 1) = false := by
    apply decide_eq_false
    intro hf
    exact hq (List.mem_of_mem_getLast? hf.1)
  have hnf : urlParseNoFragment s = ParseOutcome.ok
      { Scheme := [], Opaque := [], Path := s,
        RawPath := if escape s Encoding.encodePath = s then [] else s,
        ForceQuery := false, RawQuery := [], Fragment := [], RawFragment := [] } := by
    unfold urlParseNoFragment
    rw [if_neg hctl, if_neg hstar]
    have hg : getScheme s = some ([], s) := by
      have hh : ¬ s.head? = some ':' := fun e => hcol (List.mem_of_mem_head? e)
      unfold getScheme
      rw [if_neg hh, getSchemeFrom_no_colon s s [] hcol]
    rw [hg]
    dsimp only
    rw [hforce]
    simp only [Bool.false_eq_true, if_false]
    rw [stringsCut_of_not_mem '?' s hq]
    dsimp only
    rw [if_neg hhead, if_neg (fun e => e rfl),
      if_neg (fun e => hcol ((stringsCut_subset '/' s).1 _ e)),
      Decodes_result _ _ (Decodes_verbatim s hpct)]
  refine ⟨{ Scheme := [], Opaque := [], Path := s,
            RawPath := if escape s Encoding.encodePath = s then [] else s,
            ForceQuery := false, RawQuery := [], Fragment := [], RawFragment := [] }, ?_, ?_⟩
  · unfold urlParse
    rw [stringsCut_of_not_mem '#' s hhash]
    dsimp only
    rw [hnf]
    dsimp only
    rw [if_pos rfl]
  · have hep := EscapedPath_plain
      { Scheme := [], Opaque := [], Path := s,
        RawPath := if escape s Encoding.encodePath = s then [] else s,
        ForceQuery := false, RawQuery := [], Fragment := [], RawFragment := [] }
      s hpct rfl rfl
    have hfacts := escaped_form_facts _ s Encoding.encodePath hep.1 hpct
      (fun c hc => (hprint c hc).2.2)
    generalize hepd : URL.EscapedPath
      { Scheme := [], Opaque := [], Path := s,
        RawPath := if escape s Encoding.encodePath = s then [] else s,
        ForceQuery := false, RawQuery := [], Fragment := [], RawFragment := [] } = ep
      at hfacts hep
    have hno : ':' ∉ (stringsCut '/' ep).1 :=
      fun e => hfacts.2.1 hcol ((stringsCut_subset '/' _).1 _ e)
    have hstr : URL.String
        { Scheme := [], Opaque := [], Path := s,
          RawPath := if escape s Encoding.encodePath = s then [] else s,
          ForceQuery := false, RawQuery := [], Fragment := [], RawFragment := [] } = ep := by
      unfold URL.String URL.stringNoFragment
      rw [hepd]
      dsimp only
      simp [hno]
    rw [hstr]
    exact hep

/-- The same for `urlParseString`. -/
theorem urlParseString_plain (other : List Char → List Char × Option GoError) (v : List Char)
    (h : plainRelativePath v = true) :
    (urlParseString other v).2 = none ∧
    ((urlParseString other v).1 = v ∨
      (urlParseString other v).1 = escape v Encoding.encodePath) ∧
    validEncoded (urlParseString other v).1 Encoding.encodePath = true := by
  obtain ⟨u, hu, hs, hv⟩ := urlParse_plain v h
  unfold urlParseString
  rw [hu]
  exact ⟨rfl, hs, hv⟩

theorem unreservedOrComma_plain (c : Char) (h : unreservedOrComma c = true) :
    (32 ≤ c.toNat ∧ c.toNat < 127 ∧ c ≠ '#' ∧ c ≠ '?' ∧ c ≠ ':' ∧ c ≠ '%') ∧
    shouldEscape c Encoding.encodePath = false ∧ c ≠ '/' := by
  have hne : ∀ x : Char, unreservedOrComma x = false → c ≠ x := by
    intro x hx e
    rw [e, hx] at h
    exact absurd h (by simp)
  have hrange : 32 ≤ c.toNat ∧ c.toNat < 127 := by
    unfold unreservedOrComma at h
    simp only [Bool.decide_or, Bool.decide_and, Bool.or_eq_true, Bool.and_eq_true,
      decide_eq_true_eq] at h
    rcases h with ⟨h1, h2⟩ | ⟨h1, h2⟩ | ⟨h1, h2⟩ | h | h | h | h
    · have := Char_toNat_le _ _ h1; have := Char_toNat_le _ _ h2
      have e1 : ('a' : Char).toNat = 97 := rfl
      have e2 : ('z' : Char).toNat = 122 := rfl
      omega
    · have := Char_toNat_le _ _ h1; have := Char_toNat_le _ _ h2
      have e1 : ('A' : Char).toNat = 65 := rfl
      have e2 : ('Z' : Char).toNat = 90 := rfl
      omega
    · have := Char_toNat_le _ _ h1; have := Char_toNat_le _ _ h2
      have e1 : ('0' : Char).toNat = 48 := rfl
      have e2 : ('9' : Char).toNat = 57 := rfl
      omega
    · subst h; decide
    · subst h; decide
    · subst h; decide
    · subst h; decide
  refine ⟨⟨hrange.1, hrange.2, hne _ (by decide), hne _ (by decide), hne _ (by decide),
    hne _ (by decide)⟩, ?_, hne _ (by decide)⟩
  unfold unreservedOrComma at h
  simp only [Bool.decide_or, Bool.decide_and, Bool.or_eq_true, Bool.and_eq_true,
    decide_eq_true_eq] at h
  unfold shouldEscape
  by_cases hal : ('a' ≤ c ∧ c ≤ 'z') ∨ ('A' ≤ c ∧ c ≤ 'Z') ∨ ('0' ≤ c ∧ c ≤ '9')
  · rw [if_pos hal]
  · rw [if_neg hal]
    have h' : c = '-' ∨ c = '_' ∨ c = '.' ∨ c = ',' := by
      rcases h with h | h | h | h
      · exact absurd (Or.inl h) hal
      · exact absurd (Or.inr (Or.inl h)) hal
      · exact absurd (Or.inr (Or.inr h)) hal
      · exact h
    rcases h' with h | h | h | h <;> subst h <;> decide

/-- On a string of letters, digits, `-`, `_`, `.` and `,`, `url.Parse` followed
by `String` returns the string. -/
theorem urlParseString_unreserved (other : List Char → List Char × Option GoError)
    (v : List Char) (h : ∀ c ∈ v, unreservedOrComma c = true) :
    urlParseString other v = (v, none) := by
  have hplain : plainRelativePath v = true := by
    unfold plainRelativePath
    rw [Bool.and_eq_true]
    constructor
    · rw [List.all_eq_true]
      intro c hc
      have := (unreservedOrComma_plain c (h c hc)).1
      simp only [Bool.decide_and, Bool.and_eq_true, decide_eq_true_eq, ne_eq,
        decide_not, Bool.not_eq_true']
      refine ⟨this.1, ?_, ?_, ?_, ?_, ?_, ?_⟩
      · apply decide_eq_false; omega
      · omega
      · exact decide_eq_false this.2.2.1
      · exact decide_eq_false this.2.2.2.1
      · exact decide_eq_false this.2.2.2.2.1
      · exact decide_eq_false this.2.2.2.2.2
    · rw [decide_eq_true_eq]
      intro e
      have hm : '/' ∈ v := List.mem_of_mem_head? e
      exact (unreservedOrComma_plain _ (h _ hm)).2.2 rfl
  have hp := urlParseString_plain other v hplain
  have hid : escape v Encoding.encodePath = v :=
    escape_id _ _ (fun c hc => (unreservedOrComma_plain c (h c hc)).2.1)
  have hl : (urlParseString other v).1 = v := by
    rcases hp.2.1 with e | e
    · exact e
    · rw [e, hid]
  exact Prod.ext hl hp.1

theorem pathByte_alnum (c : Char)
    (h : ('a' ≤ c ∧ c ≤ 'z') ∨ ('A' ≤ c ∧ c ≤ 'Z') ∨ ('0' ≤ c ∧ c ≤ '9')) :
    pathByte c = true := by
  unfold pathByte
  rw [decide_eq_true_eq]
  rcases h with h | h | h
  · exact Or.inl h
  · exact Or.inr (Or.inl h)
  · exact Or.inr (Or.inr (Or.inl h))

/-- A valid encoding of a path is made of the bytes of `pathByte`. -/
theorem validEncoded_pathByte (s : List Char) (h : validEncoded s Encoding.encodePath = true) :
    ∀ c ∈ s, pathByte c = true := by
  intro c hc
  unfold validEncoded at h
  rw [List.all_eq_true] at h
  have := h c hc
  rw [Bool.or_eq_true, decide_eq_true_eq, Bool.not_eq_true'] at this
  rcases this with h1 | h2
  · rcases h1 with e | e | e | e | e | e | e | e | e | e | e | e | e | e | e | e <;>
      rw [e] <;> decide
  · unfold shouldEscape at h2
    by_cases c1 : ('a' ≤ c ∧ c ≤ 'z') ∨ ('A' ≤ c ∧ c ≤ 'Z') ∨ ('0' ≤ c ∧ c ≤ '9')
    · exact pathByte_alnum c c1
    rw [if_neg c1] at h2
    by_cases c2 : c = '-' ∨ c = '_' ∨ c = '.' ∨ c = '~'
    · rcases c2 with e | e | e | e <;> rw [e] <;> decide
    rw [if_neg c2] at h2
    by_cases c3 : c = '$' ∨ c = '&' ∨ c = '+' ∨ c = ',' ∨ c = '/' ∨ c = ':' ∨ c = ';' ∨ c = '='
        ∨ c = '?' ∨ c = '@'
    · rw [if_pos c3] at h2
      dsimp only at h2
      have hq : c ≠ '?' := of_decide_eq_false h2
      rcases c3 with e | e | e | e | e | e | e | e | e | e
      all_goals first
        | exact absurd e hq
        | (rw [e]; decide)
    rw [if_neg c3, if_neg (by simp)] at h2
    exact absurd h2 (by simp)

/-- On a string with a lower-case scheme, without `/` and control characters,
`parse` succeeds and `String` writes the string back. -/
theorem urlParseNoFragment_scheme (w sch rest0 : List Char)
    (hg : getScheme w = some (sch, rest0)) (hsch : sch ≠ [])
    (hlow : stringsToLower sch = sch) (hslash : '/' ∉ w)
    (hctl : ∀ c ∈ w, 32 ≤ c.toNat ∧ c.toNat ≠ 127) :
    ∃ u, urlParseNoFragment w = ParseOutcome.ok u ∧ u.Fragment = [] ∧
      u.stringNoFragment = w := by
  have hwe : w = sch ++ ':' :: rest0 := by
    rcases getScheme_spec w sch rest0 hg with h | h
    · exact absurd h.1 hsch
    · exact h.2
  have hw0 : ∀ c ∈ rest0, c ∈ w := by
    intro c hc; rw [hwe]; exact List.mem_append_right _ (List.mem_cons_of_mem _ hc)
  have hnc : ¬ (w.any (fun c => c.toNat < 32 ∨ c.toNat = 127)) = true := by
    intro hc
    obtain ⟨c, hm, hp⟩ := List.any_eq_true.mp hc
    have := hctl c hm
    simp only [decide_eq_true_eq] at hp
    omega
  have hstar : w ≠ ['*'] := by
    intro e
    rw [e] at hg
    have : sch = [] := by
      have h2 : getScheme ['*'] = some ([], ['*']) := by decide
      rw [h2] at hg
      exact (congrArg Prod.fst (Option.some.inj hg)).symm
    exact hsch this
  unfold urlParseNoFragment
  rw [if_neg hnc, if_neg hstar, hg]
  dsimp only
  have hsplit := query_split rest0 _ rfl
  have hsub := query_split_subset rest0
    (decide (rest0.getLast? = some '?' ∧ rest0.count '?' = 1))
  generalize decide (rest0.getLast? = some '?' ∧ rest0.count '?' = 1) = force
    at hsplit hsub ⊢
  generalize (if force = true then rest0.dropLast else (stringsCut '?' rest0).1) = rest
    at hsplit hsub ⊢
  generalize (if force = true then [] else (stringsCut '?' rest0).2.1) = query
    at hsplit ⊢
  have hhead : ¬ rest.head? = some '/' := by
    intro h
    exact hslash (hw0 _ (hsub _ (List.mem_of_mem_head? h)))
  rw [if_neg hhead, if_pos hsch]
  refine ⟨_, rfl, rfl, ?_⟩
  unfold URL.stringNoFragment URL.EscapedPath
  dsimp only
  rw [hlow, if_pos hsch, hwe, ← hsplit]
  by_cases hr : rest = []
  · rw [hr]
    simp [escape, hsch]
  · rw [if_pos hr]
    simp

/-- The same for `urlParseString`, when the string has no `#` either. -/
theorem urlParseString_scheme (other : List Char → List Char × Option GoError) (v : List Char)
    (sch rest0 : List Char) (hg : getScheme v = some (sch, rest0)) (hsch : sch ≠ [])
    (hlow : stringsToLower sch = sch) (hslash : '/' ∉ v) (hhash : '#' ∉ v)
    (hctl : ∀ c ∈ v, 32 ≤ c.toNat ∧ c.toNat ≠ 127) :
    urlParseString other v = (v, none) := by
  obtain ⟨u, hu, hf, hs⟩ := urlParseNoFragment_scheme v sch rest0 hg hsch hlow hslash hctl
  have hp : urlParse v = ParseOutcome.ok u := by
    unfold urlParse
    rw [stringsCut_of_not_mem '#' v hhash]
    dsimp only
    rw [hu]
    dsimp only
    rw [if_pos rfl]
  unfold urlParseString
  rw [hp]
  dsimp only
  have hstr : u.String = v := by
    unfold URL.String
    rw [hf, hs]
    simp
  rw [hstr]

/-! ## Canonical URI: `ToURI` -/

theorem ofNat_toNat_small (n : Nat) (h : n < 256) : (Char.ofNat n).toNat = n := by
  have hv : n.isValidChar := Or.inl (by omega)
  simp only [Char.ofNat, hv, Char.ofNatAux, Char.toNat, dite_true]
  rfl

theorem utf8Bytes_lt (c : Char) : ∀ b ∈ utf8Bytes c, b.toNat < 256 := by
  have hval : c.toNat < 1114112 := by
    have := c.valid
    rcases this with h | h
    · exact Nat.lt_trans h (by decide)
    · exact h.2
  unfold utf8Bytes
  intro b hb
  split at hb
  · rw [List.mem_singleton.mp hb]; omega
  · split at hb
    · simp only [List.mem_cons, List.mem_singleton, List.not_mem_nil, or_false] at hb
      rcases hb with e | e <;> rw [e] <;> rw [ofNat_toNat_small _ (by omega)] <;> omega
    · split at hb
      · simp only [List.mem_cons, List.mem_singleton, List.not_mem_nil, or_false] at hb
        rcases hb with e | e | e <;> rw [e] <;> rw [ofNat_toNat_small _ (by omega)] <;> omega
      · simp only [List.mem_cons, List.mem_singleton, List.not_mem_nil, or_false] at hb
        rcases hb with e | e | e | e <;> rw [e] <;> rw [ofNat_toNat_small _ (by omega)] <;> omega

/-- The bytes of a Go string are bytes. -/
theorem goBytes_lt (s : String) : ∀ b ∈ goBytes s, b.toNat < 256 := by
  intro b hb
  unfold goBytes at hb
  obtain ⟨c, _, hc⟩ := List.mem_flatMap.mp hb
  exact utf8Bytes_lt c b hc

theorem intercalate_five (a b c d e : List Char) :
    List.intercalate ['/'] [a, b, c, d, e]
      = a ++ '/' :: (b ++ '/' :: (c ++ '/' :: (d ++ '/' :: e))) := by
  simp [List.intercalate, List.intersperse]

/-- The pieces of `a/b/c/d/e` when no piece contains a slash. -/
theorem stringsSplit_five (a b c d e : List Char) (ha : '/' ∉ a) (hb : '/' ∉ b)
    (hc : '/' ∉ c) (hd : '/' ∉ d) (he : '/' ∉ e) :
    stringsSplit '/' (a ++ '/' :: (b ++ '/' :: (c ++ '/' :: (d ++ '/' :: e))))
      = [a, b, c, d, e] := by
  rw [stringsSplit_append_sep _ _ _ ha, stringsSplit_append_sep _ _ _ hb,
    stringsSplit_append_sep _ _ _ hc, stringsSplit_append_sep _ _ _ hd,
    stringsSplit_of_not_mem _ _ he]

/-- The loop of `ToURI` when every node is parsed. -/
theorem toURINodes_ok (other : List Char → List Char × Option GoError)
    (nodes : List (List Char)) (h : ∀ v ∈ nodes, (urlParseString other v).2 = none) :
    toURINodes other nodes = (nodes.map (fun v => (urlParseString other v).1), none) := by
  induction nodes with
  | nil => rfl
  | cons v vs ih =>
    have hv := h v (by simp)
    have ih' := ih (fun w hw => h w (List.mem_cons_of_mem _ hw))
    unfold toURINodes
    rw [ih']
    simp [hv]

/-- The loop of `ToURI` succeeds only if every node is parsed. -/
theorem toURINodes_success (other : List Char → List Char × Option GoError)
    (nodes : List (List Char)) (h : (toURINodes other nodes).2 = none) :
    ∀ v ∈ nodes, (urlParseString other v).2 = none := by
  induction nodes with
  | nil => intro v hv; exact absurd hv (List.not_mem_nil v)
  | cons w ws ih =>
    unfold toURINodes at h
    by_cases h1 : (urlParseString other w).2 ≠ none
    · rw [if_pos h1] at h; exact absurd h h1
    rw [if_neg h1] at h
    by_cases h2 : (toURINodes other ws).2 ≠ none
    · rw [if_pos h2] at h; exact absurd h h2
    intro v hv
    rcases List.mem_cons.mp hv with e | e
    · rw [e]; exact not_not.mp h1
    · exact ih (not_not.mp h2) v e

/-- `ToURI` succeeds only if every node is parsed. -/
theorem ToURI_success {σ : Type} (other : List Char → List Char × Option GoError)
    (t : Transformation σ) (id : String) (h : (t.ToURI other id).2 = none) :
    ∀ v ∈ [goBytes id, goBytes t.Region, goBytes t.Size, goBytes t.Rotation,
        goBytes t.Quality], (urlParseString other v).2 = none := by
  apply toURINodes_success
  unfold Transformation.ToURI at h
  dsimp only at h
  by_cases h1 : (toURINodes other [goBytes id, goBytes t.Region, goBytes t.Size,
      goBytes t.Rotation, goBytes t.Quality]).2 ≠ none
  · rw [if_pos h1] at h; exact absurd h h1
  · exact not_not.mp h1

/-- `ToURI` when every node is parsed. -/
theorem ToURI_ok {σ : Type} (other : List Char → List Char × Option GoError)
    (t : Transformation σ) (id : String)
    (h : ∀ v ∈ [goBytes id, goBytes t.Region, goBytes t.Size, goBytes t.Rotation,
        goBytes t.Quality], (urlParseString other v).2 = none) :
    t.ToURI other id =
      (((urlParseString other (goBytes id)).1 ++ '/' ::
          ((urlParseString other (goBytes t.Region)).1 ++ '/' ::
            ((urlParseString other (goBytes t.Size)).1 ++ '/' ::
              ((urlParseString other (goBytes t.Rotation)).1 ++ '/' ::
                (urlParseString other (goBytes t.Quality)).1))))
        ++ '.' :: goBytes t.Format, none) := by
  unfold Transformation.ToURI
  dsimp only
  rw [toURINodes_ok other _ h, if_neg (by simp)]
  simp only [List.map_cons, List.map_nil]
  rw [intercalate_five]

/-! ## C14, C15: the canonical URI -/

theorem goBytes_append (a b : String) : goBytes (a ++ b) = goBytes a ++ goBytes b := by
  unfold goBytes
  rw [String.toList, String.data_append, List.flatMap_append]
  rfl

/-- A string of ASCII characters is its own byte sequence. -/
theorem goBytes_of_ascii (s : String) (h : ∀ c ∈ s.toList, c.toNat < 128) :
    goBytes s = s.toList := by
  unfold goBytes
  generalize s.toList = l at h
  induction l with
  | nil => rfl
  | cons c cs ih =>
    have hc : c.toNat < 128 := h c (by simp)
    have ih' := ih (fun d hd => h d (List.mem_cons_of_mem _ hd))
    rw [List.flatMap_cons, ih']
    unfold utf8Bytes
    rw [if_pos hc]
    rfl

/-- C14, as stated, fails: the claim says that the part of every `ToURI` result
before the final `.format` splits at `/` into exactly five segments that decode
to the five strings. For the identifier `a/b` the result is
`a/b/full/full/0/default.jpg`, and the part before `.jpg` splits into six
segments. The decoding fails in three more ways: region `%41` is written `%41`,
which decodes to `A`; region `PCT:1` is written `pct:1`; region `a#` is written
`a`. -/
theorem C14_counterexample_slash_in_id :
    ((requestRotation "0" "jpg").ToURI noOtherURL "a/b"
        = ("a/b/full/full/0/default".toList ++ '.' :: "jpg".toList, none) ∧
      (stringsSplit '/' "a/b/full/full/0/default".toList).length = 6 ∧
      (stringsSplit '/' "a/b/full/full/0/default".toList).map String.mk
        = ["a", "b", "full", "full", "0", "default"]) ∧
    ((request "%41" "full").ToURI noOtherURL "id"
        = ("id/%41/full/0/default".toList ++ '.' :: "jpg".toList, none) ∧
      (stringsSplit '/' "id/%41/full/0/default".toList).map PathUnescape
        = [some "id".toList, some "A".toList, some "full".toList, some "0".toList,
            some "default".toList]) ∧
    (request "PCT:1" "full").ToURI noOtherURL "id"
        = ("id/pct:1/full/0/default".toList ++ '.' :: "jpg".toList, none) ∧
    (request "a#" "full").ToURI noOtherURL "id"
        = ("id/a/full/0/default".toList ++ '.' :: "jpg".toList, none) := by
  refine ⟨⟨by decide, by decide, by decide⟩, ⟨by decide, by decide⟩, by decide, by decide⟩

/-- C14, amended: let the identifier, Region, Size, Rotation and Quality be
strings whose bytes contain no `/` and no `%`, whose scheme (the letters,
digits, `+`, `-`, `.` before a first `:`, such as `pct`), if they have one, is
in lower case, and that do not end at their first `#`. Whatever `url.Parse`
does outside the model, whenever `ToURI` succeeds its result is some `joined`
followed by `.` and the Format, and `joined` splits at `/` into exactly five
segments, which `url.PathUnescape` decodes to the identifier, Region, Size,
Rotation and Quality in that order. -/
theorem C14_uri_round_trip {σ : Type} (other : List Char → List Char × Option GoError)
    (t : Transformation σ) (id : String)
    (h : ∀ v ∈ [id, t.Region, t.Size, t.Rotation, t.Quality],
      '/' ∉ goBytes v ∧ '%' ∉ goBytes v ∧
        schemeInLowerCase (goBytes v) = true ∧ endsAtFirstHash (goBytes v) = false)
    (hok : (t.ToURI other id).2 = none) :
    ∃ joined : List Char,
      t.ToURI other id = (joined ++ '.' :: goBytes t.Format, none) ∧
      (stringsSplit '/' joined).length = 5 ∧
      (stringsSplit '/' joined).map PathUnescape
        = [some (goBytes id), some (goBytes t.Region), some (goBytes t.Size),
            some (goBytes t.Rotation), some (goBytes t.Quality)] := by
  have hnodes := ToURI_success other t id hok
  have p : ∀ v ∈ [id, t.Region, t.Size, t.Rotation, t.Quality],
      '/' ∉ (urlParseString other (goBytes v)).1 ∧
      PathUnescape (urlParseString other (goBytes v)).1 = some (goBytes v) :=
    fun v hv => urlParseString_round_trip other (goBytes v) (goBytes_lt v) (h v hv).1
      (h v hv).2.1 (h v hv).2.2.1 (h v hv).2.2.2
      (hnodes (goBytes v) (by
        simp only [List.mem_cons, List.mem_singleton, List.not_mem_nil, or_false] at hv ⊢
        rcases hv with e | e | e | e | e <;> rw [e] <;> simp))
  have p1 := p id (by simp)
  have p2 := p t.Region (by simp)
  have p3 := p t.Size (by simp)
  have p4 := p t.Rotation (by simp)
  have p5 := p t.Quality (by simp)
  have hsplit := stringsSplit_five _ _ _ _ _ p1.1 p2.1 p3.1 p4.1 p5.1
  refine ⟨_, ToURI_ok other t id hnodes, ?_, ?_⟩
  · rw [hsplit]
    rfl
  · rw [hsplit]
    simp only [List.map_cons, List.map_nil]
    rw [p1.2, p2.2, p3.2, p4.2, p5.2]

/-- Witness for C14: identifier `café 1`, region `pct:10,10,50,50`, size
`pct:50`, rotation `0`, quality `default`; the blank and the two bytes of `é`
are escaped in the URI and restored by decoding. -/
theorem C14_uri_round_trip_witness :
    ∃ joined : List Char,
      (request "pct:10,10,50,50" "pct:50").ToURI noOtherURL "café 1"
        = (joined ++ '.' :: goBytes "jpg", none) ∧
      (stringsSplit '/' joined).length = 5 ∧
      (stringsSplit '/' joined).map PathUnescape
        = [some (goBytes "café 1"), some (goBytes "pct:10,10,50,50"),
            some (goBytes "pct:50"), some (goBytes "0"), some (goBytes "default")] :=
  C14_uri_round_trip noOtherURL (request "pct:10,10,50,50" "pct:50") "café 1"
    (by decide) (by decide)

/-- C15, as stated, fails: the claim says that each of the five segments is
percent-encoded. The region `a/b` is written `a/b`: its `/`, a reserved
character, is left as it is, and the result is
`id/a/b/full/0/default.jpg`. -/
theorem C15_counterexample_slash_kept :
    (request "a/b" "full").ToURI noOtherURL "id"
      = ("id/a/b/full/0/default.jpg".toList, none) ∧
    urlParseString noOtherURL "a/b".toList = ("a/b".toList, none) ∧
    '/' ∈ (urlParseString noOtherURL "a/b".toList).1 := by
  refine ⟨by decide, by decide, by decide⟩

/-- C15, amended: `ToURI` rewrites the identifier, Region, Size, Rotation and
Quality one by one with `url.Parse` and `String`; when all five are parsed the
result is the five rewritten strings joined by `/`, then `.`, then the Format
verbatim. A string that is a plain relative path (bytes other than control
characters, `#`, `?`, `:`, `%`, not starting with `/`) is parsed and rewritten
to a valid encoding of itself: either the string or its escaped form, made of
ASCII letters, digits, `- _ . ~ $ & + , / : ; = @ ! ( ) * [ ] %` and the
apostrophe only (so every other byte is written as an escape `%XX`, and `/` is
kept), which `url.PathUnescape` turns back into the string. A string without control
characters, `/` and `#` that starts with a lower-case scheme such as `pct:` is
left unchanged. When the five strings consist of ASCII letters, digits, `-`,
`_`, `.` and `,`, the result is exactly
`id/Region/Size/Rotation/Quality.Format`. -/
theorem C15_uri_shape {σ : Type} (other : List Char → List Char × Option GoError)
    (t : Transformation σ) (id : String) :
    ((∀ v ∈ [goBytes id, goBytes t.Region, goBytes t.Size, goBytes t.Rotation,
          goBytes t.Quality], (urlParseString other v).2 = none) →
      t.ToURI other id =
        (List.intercalate ['/']
            ([goBytes id, goBytes t.Region, goBytes t.Size, goBytes t.Rotation,
                goBytes t.Quality].map (fun v => (urlParseString other v).1))
          ++ '.' :: goBytes t.Format, none)) ∧
    (∀ v : List Char, plainRelativePath v = true →
      (urlParseString other v).2 = none ∧
      ((urlParseString other v).1 = v ∨
        (urlParseString other v).1 = escape v Encoding.encodePath) ∧
      validEncoded (urlParseString other v).1 Encoding.encodePath = true ∧
      (∀ c ∈ (urlParseString other v).1, pathByte c = true) ∧
      PathUnescape (urlParseString other v).1 = some v) ∧
    (∀ v scheme rest : List Char,
      (∀ c ∈ v, 32 ≤ c.toNat ∧ c.toNat ≠ 127) → '/' ∉ v → '#' ∉ v →
      getScheme v = some (scheme, rest) → scheme ≠ [] →
      stringsToLower scheme = scheme →
      urlParseString other v = (v, none)) ∧
    ((∀ v ∈ [id, t.Region, t.Size, t.Rotation, t.Quality],
        ∀ c ∈ v.toList, unreservedOrComma c = true) →
      t.ToURI other id =
        (goBytes (id ++ "/" ++ t.Region ++ "/" ++ t.Size ++ "/" ++ t.Rotation ++ "/"
            ++ t.Quality ++ "." ++ t.Format), none)) := by
  refine ⟨?_, ?_, ?_, ?_⟩
  · intro h
    unfold Transformation.ToURI
    dsimp only
    rw [toURINodes_ok other _ h, if_neg (by simp)]
  · intro v hv
    have hp := urlParseString_plain other v hv
    have hch := plainRelativePath_chars _ hv
    refine ⟨hp.1, hp.2.1, hp.2.2, validEncoded_pathByte _ hp.2.2, ?_⟩
    rcases hp.2.1 with e | e
    · rw [e]
      exact Decodes_result _ _ (Decodes_verbatim _ hch.2.2.2.2.1)
    · rw [e]
      exact Decodes_result _ _ (Decodes_escape _ _ (fun c hc => (hch.1 c hc).2.2))
  · intro v scheme rest hprint hslash hhash hg hne hlow
    exact urlParseString_scheme other v scheme rest hg hne hlow hslash hhash hprint
  · intro h
    have hb : ∀ v ∈ [id, t.Region, t.Size, t.Rotation, t.Quality],
        goBytes v = v.toList ∧ urlParseString other (goBytes v) = (goBytes v, none) := by
      intro v hv
      have e : goBytes v = v.toList :=
        goBytes_of_ascii v (fun c hc => by
          have := (unreservedOrComma_plain c (h v hv c hc)).1
          omega)
      refine ⟨e, urlParseString_unreserved other _ ?_⟩
      rw [e]
      exact h v hv
    have h1 := (hb id (by simp)).2
    have h2 := (hb t.Region (by simp)).2
    have h3 := (hb t.Size (by simp)).2
    have h4 := (hb t.Rotation (by simp)).2
    have h5 := (hb t.Quality (by simp)).2
    rw [ToURI_ok other t id (fun v hv => by
      simp only [List.mem_cons, List.mem_singleton, List.not_mem_nil, or_false] at hv
      rcases hv with e | e | e | e | e <;> rw [e]
      · rw [h1]
      · rw [h2]
      · rw [h3]
      · rw [h4]
      · rw [h5])]
    rw [h1, h2, h3, h4, h5]
    simp only [goBytes_append]
    have hs : goBytes "/" = ['/'] := by decide
    have hd : goBytes "." = ['.'] := by decide
    rw [hs, hd]
    simp

/-- Witness for C15: the identifier `abc 123` is written `abc%20123`, a valid
encoding that unescapes to `abc 123`; `é`, the bytes C3 A9, is written
`%C3%A9`; region `pct:10,10,50,50` is left unchanged; with identifier `abc123`,
region `100,50,2000,2000` and size `300,` the result is the plain
concatenation. -/
theorem C15_uri_shape_witness :
    ((urlParseString noOtherURL "abc 123".toList).2 = none ∧
      ((urlParseString noOtherURL "abc 123".toList).1 = "abc 123".toList ∨
        (urlParseString noOtherURL "abc 123".toList).1
          = escape "abc 123".toList Encoding.encodePath) ∧
      validEncoded (urlParseString noOtherURL "abc 123".toList).1 Encoding.encodePath = true ∧
      (∀ c ∈ (urlParseString noOtherURL "abc 123".toList).1, pathByte c = true) ∧
      PathUnescape (urlParseString noOtherURL "abc 123".toList).1 = some "abc 123".toList) ∧
    urlParseString noOtherURL "abc 123".toList = ("abc%20123".toList, none) ∧
    urlParseString noOtherURL (goBytes "é") = ("%C3%A9".toList, none) ∧
    urlParseString noOtherURL "pct:10,10,50,50".toList = ("pct:10,10,50,50".toList, none) ∧
    (request "pct:10,10,50,50" "300,").ToURI noOtherURL "abc 123"
      = ("abc%20123/pct:10,10,50,50/300,/0/default.jpg".toList, none) ∧
    (request "100,50,2000,2000" "300,").ToURI noOtherURL "abc123"
      = (goBytes ("abc123" ++ "/" ++ "100,50,2000,2000" ++ "/" ++ "300," ++ "/" ++ "0" ++ "/"
          ++ "default" ++ "." ++ "jpg"), none) :=
  ⟨(C15_uri_shape noOtherURL (request "100,50,2000,2000" "300,") "abc123").2.1
      "abc 123".toList (by decide),
   by decide,
   by decide,
   (C15_uri_shape noOtherURL (request "100,50,2000,2000" "300,") "abc123").2.2.1
      "pct:10,10,50,50".toList "pct".toList "10,10,50,50".toList (by decide) (by decide)
      (by decide) (by decide) (by decide) (by decide),
   by decide,
   (C15_uri_shape noOtherURL (request "100,50,2000,2000" "300,") "abc123").2.2.2
      (by decide)⟩

/-! ## C16: error messages -/

/-- The message built from `rotationError`. -/
theorem fmtSprintf_rotationError (quoteOther : String → String) (a : String) :
    fmtSprintf quoteOther rotationError [a]
      = some ("IIIF 2.1 `rotation` argument is not recognized: " ++ strconvQuote quoteOther a) := by
  unfold fmtSprintf
  rw [if_neg (by decide)]
  dsimp only
  rw [if_pos (by decide)]
  rfl

/-- The message built from `sizeError`. -/
theorem fmtSprintf_sizeError (quoteOther : String → String) (a : String) :
    fmtSprintf quoteOther sizeError [a]
      = some ("IIIF 2.1 `size` argument is not recognized: " ++ strconvQuote quoteOther a) := by
  unfold fmtSprintf
  rw [if_neg (by decide)]
  dsimp only
  rw [if_pos (by decide)]
  rfl

/-- A message that ends in the quoted form of a plain string contains it. -/
theorem strconvQuote_contains (quoteOther : String → String) (before s : String)
    (h : s.toList.all
      (fun c => 32 ≤ c.toNat ∧ c.toNat < 127 ∧ c.toNat ≠ 34 ∧ c.toNat ≠ 92) = true) :
    s.toList <:+: (before ++ strconvQuote quoteOther s).toList := by
  unfold strconvQuote
  rw [if_pos h]
  refine ⟨before.toList ++ [Char.ofNat 34], [Char.ofNat 34], ?_⟩
  simp [String.toList, String.data_append, String.singleton]

/-- C16, as stated, fails: region `full` matches no alternative of the region
grammar and is reported as `Invalid region`, region `circle:1` as
`Unrecognized region`, and size `pct:abc` as `invalid size`; none of the three
messages contains the parameter. -/
theorem C16_counterexample_fixed_messages :
    (request "full" "full").RegionInstructions (imageOfSize 1000 600)
        = (none, some (GoError.errorsNew (Message.sprintf "Invalid region" []))) ∧
      (GoError.errorsNew (Message.sprintf "Invalid region" [])).Error noOtherQuote
        = some "Invalid region" ∧
      ¬ ("full".toList <:+: "Invalid region".toList) ∧
    (request "circle:1" "full").RegionInstructions (imageOfSize 1000 600)
        = (none, some (GoError.errorsNew (Message.sprintf "Unrecognized region" []))) ∧
      (GoError.errorsNew (Message.sprintf "Unrecognized region" [])).Error noOtherQuote
        = some "Unrecognized region" ∧
      ¬ ("circle:1".toList <:+: "Unrecognized region".toList) ∧
    (request "full" "pct:abc").SizeInstructions (imageOfSize 1000 600)
        = Outcome.returned (none, some (GoError.errorsNew (Message.text "invalid size"))) ∧
      (GoError.errorsNew (Message.text "invalid size")).Error noOtherQuote
        = some "invalid size" ∧
      ¬ ("pct:abc".toList <:+: "invalid size".toList) := by
  refine ⟨by decide, by decide, by decide, by decide, by decide, by decide, by decide!,
    by decide, by decide⟩

/-- C16, amended: every failure of `RotationInstructions` carries the message
`IIIF 2.1 rotation argument is not recognized:` (with the word rotation between
backquotes) followed by `strconv.Quote` of the Rotation string. Every error that
`SizeInstructions` returns on an image whose `Dimensions()` succeeds, for a Size
that has no `:` or whose part before the first `:` is not `pct`, carries the
corresponding `size` message followed by `strconv.Quote` of the Size string. A
message that ends in `strconv.Quote` of a string of printable ASCII characters
without double quote and backslash contains that string. -/
theorem C16_error_messages {σ : Type} (quoteOther : String → String)
    (t : Transformation σ) (im : Image) :
    (∀ e : GoError, (t.RotationInstructions im).2 = some e →
      e.Error quoteOther
        = some ("IIIF 2.1 `rotation` argument is not recognized: "
            ++ strconvQuote quoteOther t.Rotation)) ∧
    (∀ (r : Option SizeInstruction) (e : GoError), im.Dimensions.2 = none →
      ((stringsSplit ':' t.Size.toList).length = 1 ∨
        (stringsSplit ':' t.Size.toList).getD 0 [] ≠ "pct".toList) →
      t.SizeInstructions im = Outcome.returned (r, some e) →
      e.Error quoteOther
        = some ("IIIF 2.1 `size` argument is not recognized: "
            ++ strconvQuote quoteOther t.Size)) ∧
    (∀ before s : String,
      s.toList.all
        (fun c => 32 ≤ c.toNat ∧ c.toNat < 127 ∧ c.toNat ≠ 34 ∧ c.toNat ≠ 92) = true →
      s.toList <:+: (before ++ strconvQuote quoteOther s).toList) := by
  refine ⟨?_, ?_, fun before s h => strconvQuote_contains quoteOther before s h⟩
  · intro e he
    rw [RotationInstructions_eq] at he
    by_cases h : (ParseFloat (stringsTrimBang t.Rotation.toList)).2 = none
    · rw [if_pos h] at he; exact absurd he (by simp)
    · rw [if_neg h] at he
      rw [← Option.some.inj he]
      exact fmtSprintf_rotationError quoteOther t.Rotation
  · intro r e hd hform hres
    have quoted : ∀ o : Option SizeInstruction,
        Outcome.returned (o, some (GoError.errorsNew (Message.sprintf sizeError [t.Size])))
          = Outcome.returned (r, some e) →
        e.Error quoteOther
          = some ("IIIF 2.1 `size` argument is not recognized: "
              ++ strconvQuote quoteOther t.Size) := by
      intro o h
      rw [← Option.some.inj (congrArg Prod.snd (Outcome.returned.inj h))]
      exact fmtSprintf_sizeError quoteOther t.Size
    have ok : ∀ o : Option SizeInstruction,
        Outcome.returned (o, (none : Option GoError)) = Outcome.returned (r, some e) → False :=
      fun o h => absurd (congrArg Prod.snd (Outcome.returned.inj h)) (by simp)
    unfold Transformation.SizeInstructions at hres
    rw [if_neg (not_not.mpr hd)] at hres
    dsimp only at hres
    by_cases hlen : (stringsSplit ':' t.Size.toList).length = 1
    · rw [if_pos hlen] at hres
      generalize stringsSplit ','
        (stringsTrimBang ((stringsSplit ':' t.Size.toList).getD 0 [])) = sizes at hres
      by_cases h2 : sizes.length ≠ 2
      · rw [if_pos h2] at hres; exact quoted _ hres
      rw [if_neg h2] at hres
      by_cases hboth :
          (ParseInt (sizes.getD 0 [])).2 ≠ none ∧ (ParseInt (sizes.getD 1 [])).2 ≠ none
      · rw [if_pos hboth] at hres; exact quoted _ hres
      rw [if_neg hboth] at hres
      by_cases hok :
          (ParseInt (sizes.getD 0 [])).2 = none ∧ (ParseInt (sizes.getD 1 [])).2 = none
      · rw [if_pos hok] at hres; exact (ok _ hres).elim
      rw [if_neg hok] at hres
      by_cases hh : (ParseInt (sizes.getD 1 [])).2 ≠ none
      · rw [if_pos hh] at hres
        cases hdiv : goDiv (goMul im.Dimensions.1.Height (ParseInt (sizes.getD 0 [])).1)
            im.Dimensions.1.Width with
        | none => rw [hdiv] at hres; exact absurd hres (by simp)
        | some v => rw [hdiv] at hres; exact (ok _ hres).elim
      · rw [if_neg hh] at hres
        cases hdiv : goDiv (goMul im.Dimensions.1.Width (ParseInt (sizes.getD 1 [])).1)
            im.Dimensions.1.Height with
        | none => rw [hdiv] at hres; exact absurd hres (by simp)
        | some v => rw [hdiv] at hres; exact (ok _ hres).elim
    · rw [if_neg hlen] at hres
      by_cases hpct : (stringsSplit ':' t.Size.toList).getD 0 [] = "pct".toList
      · rcases hform with h | h
        · exact absurd h hlen
        · exact absurd hpct h
      · rw [if_neg hpct] at hres
        exact quoted _ hres

/-- Witness for C16: rotation `abc` and size `abc` fail with messages that end
in the parameter between double quotes. -/
theorem C16_error_messages_witness :
    (GoError.errorsNew (Message.sprintf rotationError ["abc"])).Error noOtherQuote
        = some ("IIIF 2.1 `rotation` argument is not recognized: "
            ++ strconvQuote noOtherQuote "abc") ∧
      (GoError.errorsNew (Message.sprintf sizeError ["abc"])).Error noOtherQuote
          = some ("IIIF 2.1 `size` argument is not recognized: "
              ++ strconvQuote noOtherQuote "abc") ∧
      "abc".toList <:+:
        ("IIIF 2.1 `size` argument is not recognized: "
          ++ strconvQuote noOtherQuote "abc").toList :=
  ⟨(C16_error_messages noOtherQuote (requestRotation "abc" "jpg") (imageOfSize 1000 600)).1
      _ (by decide!),
   (C16_error_messages noOtherQuote (request "full" "abc") (imageOfSize 1000 600)).2.1
      none _ (by decide) (Or.inl (by decide)) (by decide!),
   (C16_error_messages noOtherQuote (request "full" "abc") (imageOfSize 1000 600)).2.2
      _ "abc" (by decide)⟩

/-! ## C18: malformed explicit-pixel regions -/

/-- An error of `ParseInt` is a `*strconv.NumError` for the function `ParseInt`
and the parsed string. -/
theorem ParseInt_error_shape (s : List Char) (h : (ParseInt s).2 ≠ none) :
    ∃ kind, (ParseInt s).2 = some (GoError.numError "ParseInt" (String.mk s) kind) := by
  unfold ParseInt at h ⊢
  by_cases hs : s = []
  · rw [if_pos hs]; exact ⟨_, rfl⟩
  · rw [if_neg hs] at h ⊢
    dsimp only at h ⊢
    generalize ParseUint (if s.head? = some '+' ∨ s.head? = some '-' then s.tail else s)
      = un at h ⊢
    by_cases h1 : un.2 = some NumErrKind.ErrSyntax
    · rw [if_pos h1]; exact ⟨_, rfl⟩
    · rw [if_neg h1] at h ⊢
      by_cases h2 : (!decide (s.head? = some '-')) = true ∧ un.1 ≥ 9223372036854775808
      · rw [if_pos h2]; exact ⟨_, rfl⟩
      · rw [if_neg h2] at h ⊢
        by_cases h3 : decide (s.head? = some '-') = true ∧ un.1 > 9223372036854775808
        · rw [if_pos h3]; exact ⟨_, rfl⟩
        · rw [if_neg h3] at h
          exact absurd rfl h

/-- The explicit-pixel branch of `RegionInstructions` up to the parsing of the
four tokens. -/
theorem RegionInstructions_pixel_errors {σ : Type} (t : Transformation σ) (im : Image)
    (hdim : im.Dimensions.2 = none) (hsq : t.Region ≠ "square")
    (hcolon : ':' ∉ t.Region.toList) :
    ((stringsSplit ',' t.Region.toList).length ≠ 4 →
      t.RegionInstructions im
        = (none, some (GoError.errorsNew (Message.sprintf "Invalid region" [])))) ∧
    (∀ a b c d : List Char, stringsSplit ',' t.Region.toList = [a, b, c, d] →
      ((ParseInt a).2 ≠ none ∨ (ParseInt b).2 ≠ none ∨ (ParseInt c).2 ≠ none ∨
        (ParseInt d).2 ≠ none) →
      t.RegionInstructions im =
        (none,
          if (ParseInt a).2 ≠ none then (ParseInt a).2
          else if (ParseInt b).2 ≠ none then (ParseInt b).2
          else if (ParseInt c).2 ≠ none then (ParseInt c).2
          else (ParseInt d).2)) := by
  have hsplit := stringsSplit_of_not_mem ':' t.Region.toList hcolon
  constructor
  · intro hlen
    unfold Transformation.RegionInstructions
    rw [if_neg (by rw [hdim]; exact fun h => h rfl)]
    dsimp only
    rw [if_neg hsq, hsplit, if_pos (by rfl)]
    rw [List.getD_cons_zero, if_pos hlen]
  · intro a b c d hcomma hbad
    unfold Transformation.RegionInstructions
    rw [if_neg (by rw [hdim]; exact fun h => h rfl)]
    dsimp only
    rw [if_neg hsq, hsplit, if_pos (by rfl)]
    rw [List.getD_cons_zero, hcomma, if_neg (by simp)]
    simp only [List.getD_cons_zero, List.getD_cons_succ]
    by_cases ha : (ParseInt a).2 ≠ none
    · rw [if_pos ha, if_pos ha]
    rw [if_neg ha, if_neg ha]
    by_cases hb : (ParseInt b).2 ≠ none
    · rw [if_pos hb, if_pos hb]
    rw [if_neg hb, if_neg hb]
    by_cases hc : (ParseInt c).2 ≠ none
    · rw [if_pos hc, if_pos hc]
    rw [if_neg hc, if_neg hc]
    have hd : (ParseInt d).2 ≠ none := by
      rcases hbad with h | h | h | h
      · exact absurd h ha
      · exact absurd h hb
      · exact absurd h hc
      · exact h
    rw [if_pos hd]

/-- C18, as stated, fails: region `a,b,c,d` is not `square`, has no `:` and
splits at `,` into four tokens that are not integers, yet the error is not
`Invalid region` but the `*strconv.NumError` of `ParseInt` for the token `a`. -/
theorem C18_counterexample_non_integer_token :
    ("a,b,c,d" : String) ≠ "square" ∧ ':' ∉ "a,b,c,d".toList ∧
    (stringsSplit ',' "a,b,c,d".toList).map String.mk = ["a", "b", "c", "d"] ∧
    (ParseInt "a".toList).2 ≠ none ∧
    (request "a,b,c,d" "full").RegionInstructions (imageOfSize 1000 600)
      = (none, some (GoError.numError "ParseInt" "a" NumErrKind.ErrSyntax)) ∧
    (GoError.numError "ParseInt" "a" NumErrKind.ErrSyntax).Error noOtherQuote
      ≠ some "Invalid region" := by
  refine ⟨by decide, by decide, by decide, by decide, by decide, by decide⟩

/-- C18, amended: for a region that is not `square` and contains no `:`, on an
image whose `Dimensions()` succeeds: when the region does not split at `,` into
exactly four tokens, `RegionInstructions` returns no instruction and the error
`Invalid region`; when it splits into four tokens of which at least one is
rejected by `strconv.ParseInt`, it returns no instruction and the error of
`ParseInt` for the first rejected token, a `*strconv.NumError` naming
`ParseInt` and that token. Region `full` yields no instruction and an error for
every image. -/
theorem C18_malformed_pixel_region {σ : Type} (t : Transformation σ) (im : Image) :
    (t.Region ≠ "square" → ':' ∉ t.Region.toList → im.Dimensions.2 = none →
      ((stringsSplit ',' t.Region.toList).length ≠ 4 →
        t.RegionInstructions im
          = (none, some (GoError.errorsNew (Message.sprintf "Invalid region" [])))) ∧
      (∀ a b c d : List Char, stringsSplit ',' t.Region.toList = [a, b, c, d] →
        ((ParseInt a).2 ≠ none ∨ (ParseInt b).2 ≠ none ∨ (ParseInt c).2 ≠ none ∨
          (ParseInt d).2 ≠ none) →
        t.RegionInstructions im =
          (none,
            if (ParseInt a).2 ≠ none then (ParseInt a).2
            else if (ParseInt b).2 ≠ none then (ParseInt b).2
            else if (ParseInt c).2 ≠ none then (ParseInt c).2
            else (ParseInt d).2) ∧
        ∃ token ∈ [a, b, c, d], ∃ kind,
          (t.RegionInstructions im).2
            = some (GoError.numError "ParseInt" (String.mk token) kind))) ∧
    (t.Region = "full" →
      (t.RegionInstructions im).1 = none ∧ (t.RegionInstructions im).2 ≠ none) := by
  constructor
  · intro hsq hcolon hdim
    have key := RegionInstructions_pixel_errors t im hdim hsq hcolon
    refine ⟨key.1, ?_⟩
    intro a b c d hcomma hbad
    have hres := key.2 a b c d hcomma hbad
    refine ⟨hres, ?_⟩
    rw [hres]
    dsimp only
    by_cases ha : (ParseInt a).2 ≠ none
    · rw [if_pos ha]
      obtain ⟨k, hk⟩ := ParseInt_error_shape a ha
      exact ⟨a, by simp, k, hk⟩
    rw [if_neg ha]
    by_cases hb : (ParseInt b).2 ≠ none
    · rw [if_pos hb]
      obtain ⟨k, hk⟩ := ParseInt_error_shape b hb
      exact ⟨b, by simp, k, hk⟩
    rw [if_neg hb]
    by_cases hc : (ParseInt c).2 ≠ none
    · rw [if_pos hc]
      obtain ⟨k, hk⟩ := ParseInt_error_shape c hc
      exact ⟨c, by simp, k, hk⟩
    rw [if_neg hc]
    have hd : (ParseInt d).2 ≠ none := by
      rcases hbad with h | h | h | h
      · exact absurd h ha
      · exact absurd h hb
      · exact absurd h hc
      · exact h
    obtain ⟨k, hk⟩ := ParseInt_error_shape d hd
    exact ⟨d, by simp, k, hk⟩
  · intro hfull
    by_cases hdim : im.Dimensions.2 = none
    · have hsq : t.Region ≠ "square" := by rw [hfull]; decide
      have hcolon : ':' ∉ t.Region.toList := by rw [hfull]; decide
      have hlen : (stringsSplit ',' t.Region.toList).length ≠ 4 := by rw [hfull]; decide
      rw [(RegionInstructions_pixel_errors t im hdim hsq hcolon).1 hlen]
      exact ⟨rfl, by simp⟩
    · unfold Transformation.RegionInstructions
      rw [if_pos hdim]
      exact ⟨rfl, hdim⟩

/-- Witness for C18: region `1,2,3` has three tokens and fails with
`Invalid region`; region `full` fails on a 1000x600 image. -/
theorem C18_malformed_pixel_region_witness :
    (request "1,2,3" "full").RegionInstructions (imageOfSize 1000 600)
        = (none, some (GoError.errorsNew (Message.sprintf "Invalid region" []))) ∧
    ((request "full" "full").RegionInstructions (imageOfSize 1000 600)).1 = none ∧
    ((request "full" "full").RegionInstructions (imageOfSize 1000 600)).2 ≠ none :=
  ⟨((C18_malformed_pixel_region (request "1,2,3" "full") (imageOfSize 1000 600)).1
      (by decide) (by decide) (by decide)).1 (by decide),
   ((C18_malformed_pixel_region (request "full" "full") (imageOfSize 1000 600)).2
      (by decide)).1,
   ((C18_malformed_pixel_region (request "full" "full") (imageOfSize 1000 600)).2
      (by decide)).2⟩

/-! ## C19: the constructor never returns the pass-through request -/

/-- C19: for a level whose `DefaultQuality()`, whenever it succeeds, is a string
other than `"default"`, every Transformation that `NewTransformation` returns
has a Quality other than `"default"`, and so `HasTransformation()` is true. -/
theorem C19_constructor_never_pass_through {σ : Type} (level : Level σ)
    (region size rotation quality format : String) (s0 : σ) (t : Transformation σ)
    (hdq : ∀ s : σ, (level.DefaultQuality s).1.2 = none →
      (level.DefaultQuality s).1.1 ≠ "default")
    (hres : (NewTransformation level region size rotation quality format s0).1.1 = some t) :
    t.Quality ≠ "default" ∧ t.HasTransformation = true := by
  have hq : t.Quality ≠ "default" := by
    unfold NewTransformation at hres
    dsimp only at hres
    generalize level.IsValidImageRegion region s0 = r1 at hres
    by_cases h1 : (!r1.1.1) = true
    · rw [if_pos h1] at hres; exact absurd hres (by simp)
    rw [if_neg h1] at hres
    generalize level.IsValidImageSize size r1.2 = r2 at hres
    by_cases h2 : (!r2.1.1) = true
    · rw [if_pos h2] at hres; exact absurd hres (by simp)
    rw [if_neg h2] at hres
    generalize level.IsValidImageRotation rotation r2.2 = r3 at hres
    by_cases h3 : (!r3.1.1) = true
    · rw [if_pos h3] at hres; exact absurd hres (by simp)
    rw [if_neg h3] at hres
    generalize level.IsValidImageQuality quality r3.2 = r4 at hres
    by_cases h4 : (!r4.1.1) = true
    · rw [if_pos h4] at hres; exact absurd hres (by simp)
    rw [if_neg h4] at hres
    generalize level.IsValidImageFormat format r4.2 = r5 at hres
    by_cases h5 : (!r5.1.1) = true
    · rw [if_pos h5] at hres; exact absurd hres (by simp)
    rw [if_neg h5] at hres
    by_cases hd : quality = "default"
    · rw [if_pos hd] at hres
      by_cases he : (level.DefaultQuality r5.2).1.2 ≠ none
      · rw [if_pos he] at hres; exact absurd hres (by simp)
      · rw [if_neg he] at hres
        rw [← Option.some.inj hres]
        exact hdq r5.2 (not_not.mp he)
    · rw [if_neg hd] at hres
      rw [← Option.some.inj hres]
      exact hd
  refine ⟨hq, ?_⟩
  unfold Transformation.HasTransformation
  by_cases h1 : t.Region ≠ "full"
  · rw [if_pos h1]
  rw [if_neg h1]
  by_cases h2 : t.Size ≠ "full"
  · rw [if_pos h2]
  rw [if_neg h2]
  by_cases h3 : t.Rotation ≠ "0"
  · rw [if_pos h3]
  rw [if_neg h3, if_pos hq]

/-- Witness for C19: on the logging level, whose default quality is `"color"`,
the request full/full/0/default is returned with Quality `"color"` and
`HasTransformation()` is true. -/
theorem C19_constructor_never_pass_through_witness :
    (NewTransformation loggingLevel "full" "full" "0" "default" "jpg" []).1.1
        = some { level := loggingLevel, Region := "full", Size := "full", Rotation := "0",
                 Quality := "color", Format := "jpg" } ∧
      ("color" : String) ≠ "default" ∧
      ({ level := loggingLevel, Region := "full", Size := "full", Rotation := "0",
         Quality := "color", Format := "jpg" } : Transformation (List String)).HasTransformation
        = true :=
  ⟨rfl,
   C19_constructor_never_pass_through loggingLevel "full" "full" "0" "default" "jpg" []
    { level := loggingLevel, Region := "full", Size := "full", Rotation := "0",
      Quality := "color", Format := "jpg" }
    (fun _ _ => (by decide : ("color" : String) ≠ "default")) rfl⟩

/-! ## C20: the far-edge clamp keeps the rectangle inside the image -/

/-- The explicit-pixel branch for a region written as four accepted tokens
joined by commas. -/
theorem RegionInstructions_pixels_joined {σ : Type} (t : Transformation σ) (im : Image)
    (sx sy sw sh : String)
    (hdim : im.Dimensions.2 = none)
    (hregion : t.Region = sx ++ "," ++ sy ++ "," ++ sw ++ "," ++ sh)
    (ex : (ParseInt sx.toList).2 = none) (ey : (ParseInt sy.toList).2 = none)
    (ew : (ParseInt sw.toList).2 = none) (eh : (ParseInt sh.toList).2 = none) :
    t.RegionInstructions im =
      (some { X := (ParseInt sx.toList).1, Y := (ParseInt sy.toList).1,
              Width :=
                if goAdd (ParseInt sx.toList).1 (ParseInt sw.toList).1 > im.Dimensions.1.Width
                then goSub im.Dimensions.1.Width (ParseInt sx.toList).1
                else (ParseInt sw.toList).1,
              Height :=
                if goAdd (ParseInt sy.toList).1 (ParseInt sh.toList).1 > im.Dimensions.1.Height
                then goSub im.Dimensions.1.Height (ParseInt sy.toList).1
                else (ParseInt sh.toList).1 }, none) := by
  have nx := ParseInt_ok_not_mem _ ex
  have ny := ParseInt_ok_not_mem _ ey
  have nw := ParseInt_ok_not_mem _ ew
  have nh := ParseInt_ok_not_mem _ eh
  have hl := toList_append4 sx sy sw sh
  rw [← hregion] at hl
  have hsq : t.Region ≠ "square" := by
    intro e
    rw [e] at hl
    apply not_mem_square
    rw [hl]
    simp
  have hcolon : stringsSplit ':' t.Region.toList = [t.Region.toList] := by
    apply stringsSplit_of_not_mem
    rw [hl]
    simp only [List.mem_append, List.mem_cons, not_or]
    exact ⟨nx.2.1, by decide, ny.2.1, by decide, nw.2.1, by decide, nh.2.1⟩
  have hcomma : stringsSplit ',' t.Region.toList
      = [sx.toList, sy.toList, sw.toList, sh.toList] := by
    rw [hl]
    exact stringsSplit_four _ _ _ _ nx.1 ny.1 nw.1 nh.1
  exact RegionInstructions_pixels t im _ _ _ _ hdim hsq hcolon hcomma ex ey ew eh

/-- C20, as stated, fails: region `1,0,9223372036854775807,1` on a 1000x600 image
satisfies `0 <= x <= W`, `0 <= y <= H`, `w >= 0` and `h >= 0`, but the 64-bit sum
`x + w` wraps to a negative number, no clamp is applied, Width stays
`9223372036854775807` instead of `min(w, W - x) = 999`, and `X + Width`
exceeds the image width. -/
theorem C20_counterexample_wide_request :
    (request "1,0,9223372036854775807,1" "full").RegionInstructions (imageOfSize 1000 600)
      = (some { X := 1, Y := 0, Width := 9223372036854775807, Height := 1 }, none)
    ∧ ((0 : Int) ≤ 1 ∧ (1 : Int) ≤ 1000 ∧ (0 : Int) ≤ 0 ∧ (0 : Int) ≤ 600
        ∧ (0 : Int) ≤ 9223372036854775807 ∧ (0 : Int) ≤ 1)
    ∧ (9223372036854775807 : Int) ≠ min 9223372036854775807 (1000 - 1)
    ∧ (1 : Int) + 9223372036854775807 > 1000 := by
  refine ⟨by decide!, by decide, by decide, by decide⟩

/-- C20, amended: for a region `x,y,w,h` of four tokens that `ParseInt` accepts,
on an image of size `W x H`, with `0 <= x <= W`, `0 <= y <= H`, `w >= 0`,
`h >= 0`, and provided the sums `x + w` and `y + h` do not exceed the largest
`int64`, `RegionInstructions` returns an instruction with `X = x`, `Y = y`,
`Width = min(w, W - x)`, `Height = min(h, H - y)`, hence `0 <= Width <= w`,
`0 <= Height <= h`, `X + Width <= W` and `Y + Height <= H`. -/
theorem C20_clamp_inside_image {σ : Type} (t : Transformation σ) (im : Image)
    (sx sy sw sh : String) (x y w h W H : Int)
    (hdim : im.Dimensions = ({ Height := H, Width := W }, none))
    (hW : W ≤ 9223372036854775807) (hH : H ≤ 9223372036854775807)
    (hregion : t.Region = sx ++ "," ++ sy ++ "," ++ sw ++ "," ++ sh)
    (hx : ParseInt sx.toList = (x, none)) (hy : ParseInt sy.toList = (y, none))
    (hw : ParseInt sw.toList = (w, none)) (hh : ParseInt sh.toList = (h, none))
    (hx0 : 0 ≤ x) (hxW : x ≤ W) (hy0 : 0 ≤ y) (hyH : y ≤ H) (hw0 : 0 ≤ w) (hh0 : 0 ≤ h)
    (hxw : x + w ≤ 9223372036854775807) (hyh : y + h ≤ 9223372036854775807) :
    ∃ r : RegionInstruction,
      t.RegionInstructions im = (some r, none) ∧
      r.X = x ∧ r.Y = y ∧ r.Width = min w (W - x) ∧ r.Height = min h (H - y) ∧
      0 ≤ r.Width ∧ r.Width ≤ w ∧ 0 ≤ r.Height ∧ r.Height ≤ h ∧
      r.X + r.Width ≤ W ∧ r.Y + r.Height ≤ H := by
  have ex : (ParseInt sx.toList).2 = none := by rw [hx]
  have ey : (ParseInt sy.toList).2 = none := by rw [hy]
  have ew : (ParseInt sw.toList).2 = none := by rw [hw]
  have eh : (ParseInt sh.toList).2 = none := by rw [hh]
  have hd2 : im.Dimensions.2 = none := by rw [hdim]
  have hres := RegionInstructions_pixels_joined t im sx sy sw sh hd2 hregion ex ey ew eh
  have rx := ParseInt_ok_inInt64 _ ex
  have ry := ParseInt_ok_inInt64 _ ey
  have rw' := ParseInt_ok_inInt64 _ ew
  have rh := ParseInt_ok_inInt64 _ eh
  rw [hx] at rx
  rw [hy] at ry
  rw [hw] at rw'
  rw [hh] at rh
  simp only [hx, hy, hw, hh, hdim] at hres
  have ixw : inInt64 (x + w) := by unfold inInt64; omega
  have iyh : inInt64 (y + h) := by unfold inInt64; omega
  rw [clamp_exact x w W rx rw' ⟨by omega, hW⟩ ixw,
    clamp_exact y h H ry rh ⟨by omega, hH⟩ iyh] at hres
  refine ⟨_, hres, rfl, rfl, ?_, ?_, ?_, ?_, ?_, ?_, ?_, ?_⟩ <;> dsimp only <;>
    split <;> omega

/-- Witness for C20: region `900,500,200,50` on a 1000x600 image is returned as
`{X:900, Y:500, Width:100, Height:50}`. -/
theorem C20_clamp_inside_image_witness :
    ∃ r : RegionInstruction,
      (request "900,500,200,50" "full").RegionInstructions (imageOfSize 1000 600)
        = (some r, none) ∧
      r.X = 900 ∧ r.Y = 500 ∧ r.Width = min 200 (1000 - 900) ∧ r.Height = min 50 (600 - 500) ∧
      0 ≤ r.Width ∧ r.Width ≤ 200 ∧ 0 ≤ r.Height ∧ r.Height ≤ 50 ∧
      r.X + r.Width ≤ 1000 ∧ r.Y + r.Height ≤ 600 :=
  C20_clamp_inside_image (request "900,500,200,50" "full") (imageOfSize 1000 600)
    "900" "500" "200" "50" 900 500 200 50 1000 600 rfl (by decide) (by decide)
    (by decide) (by decide) (by decide) (by decide) (by decide) (by decide) (by decide)
    (by decide) (by decide) (by decide) (by decide) (by decide) (by decide)

end GoIIIF
